import Mathlib

/-!
Shallow embedding of the TinyFS filesystem core (`src/filesystem/TinyFS.c`,
block device contract from `src/filesystem/TinyDisk.c`).

Modelling conventions, chosen to mirror the C source:

* Bytes are `Nat` (the code only moves bytes around with `memcpy`; their
  numeric values are never inspected except the magic number, decoded
  little-endian as on the reference host).
* C `int` results are `Int`; sizes and cursors that are provably
  non-negative in the source (file pointers start at 0 and only grow,
  `size` is 0 or a cursor) are `Nat`, with the `size < 0` argument checks
  kept explicitly on the `Int` arguments.
* A NUL-terminated C string is modelled as the list of its bytes before the
  terminator (assumed NUL-free, as the test driver only passes text names).
  `strncpy(dst, src, MAX_FILENAME_LENGTH-1)` followed by forcing a NUL at
  index `MAX_FILENAME_LENGTH-1` therefore stores `src.take (MAX_FILENAME_LENGTH-1)`,
  and `strcmp(a, b) == 0` is list equality.
* The global state (`inodeBitmap`, `dataBitmap`, `oft`, the in-memory disk)
  is one explicit `FSState` record threaded through every operation.
  The on-disk inode table (blocks `[INODE_TABLE_START, DATA_BLOCK_START)`)
  is represented structurally as the list `inodes` (inode records never
  cross block boundaries, so `readInode`/`writeInode` are exactly indexed
  access to this list), and the write-through mirror of the two bitmaps to
  blocks 1 and 2 is kept only once, in the `inodeBitmap`/`dataBitmap`
  fields (the code rewrites the mirror blocks on every bitmap mutation, so
  memory and disk copies are always equal at operation boundaries).
  The `blocks` field holds the raw bytes of all `NUM_BLOCKS` blocks; file
  operations read and write it only at data-block indices, which the
  allocator keeps in `[DATA_BLOCK_START, NUM_BLOCKS)`, disjoint from the
  metadata blocks.
* Fallible host-file I/O (`Disk_Load`, `Disk_Save`) is out of scope per the
  spec; `FS_Boot` takes the result of `Disk_Load` as an `Option` (loaded
  image or failure) and the success of `Disk_Save` as a `Bool`, and the
  `calloc` in `Disk_Init` is assumed to succeed.

Configuration constants `MAGIC_NUMBER`, `FD_OFFSET`, `OPEN_FILE_TABLE_SIZE`
come from `TinyFS.c`.  The remaining layout constants live in the missing
header `TinyFS.h`; they are modelled from the spec (section 3): `BLOCK_SIZE`
a power of two at least 64, `NUM_DIRECT_POINTERS = 5`, small values that
exercise every code path, and bitmaps that fit their single block.  The
error codes are modelled from the spec's taxonomy as distinct negative
return codes.
-/

/-- Modelled from the spec: bytes per block (power of two, at least 64;
chosen so that both bitmaps, one 4-byte integer per entry, fit in one
block as the spec requires). -/
def BLOCK_SIZE : Nat := 128

/-- Modelled from the spec: total number of blocks on the device. -/
def NUM_BLOCKS : Nat := 32

/-- Modelled from the spec: maximum number of inodes. -/
def MAX_FILES : Nat := 10

/-- Modelled from the spec: maximum bytes of a filename including the NUL
terminator. -/
def MAX_FILENAME_LENGTH : Nat := 16

/-- Direct block pointers per inode (spec reference value, `TinyFS.c` relies
on it being exactly 5). -/
def NUM_DIRECT_POINTERS : Nat := 5

/-- Size of the open file table (`TinyFS.c`). -/
def OPEN_FILE_TABLE_SIZE : Nat := 5

/-- User-facing descriptors start at slot index + 3 (`TinyFS.c`). -/
def FD_OFFSET : Int := 3

/-- Magic number identifying a formatted image (`TinyFS.c`). -/
def MAGIC_NUMBER : Nat := 0x12345678

/-- Modelled from the spec: the error codes of the taxonomy in section 7,
surfaced as distinct negative return codes (the concrete values live in the
missing header `TinyFS.h`). -/
def E_DISK_ERROR : Int := -1

/-- Modelled from the spec: duplicate-name (and empty-name) create error. -/
def E_FILE_EXISTS : Int := -2

/-- Modelled from the spec: open/delete on an unknown name. -/
def E_NO_SUCH_FILE : Int := -3

/-- Modelled from the spec: inode bitmap full on create, data bitmap full
on write. -/
def E_NO_SPACE : Int := -4

/-- Modelled from the spec: open-file table full. -/
def E_TOO_MANY_OPEN_FILES : Int := -5

/-- Modelled from the spec: descriptor out of range or slot not in use. -/
def E_BAD_FD : Int := -6

/-- Modelled from the spec: delete on a name with at least one open handle. -/
def E_FILE_IN_USE : Int := -7

/-- Modelled from the spec: write would cross the direct-pointer capacity. -/
def E_FILE_TOO_BIG : Int := -8

/-- Derived layout constant, computed as in `FS_Boot`:
`sizeof(Inode) = MAX_FILENAME_LENGTH + 4 + 4*NUM_DIRECT_POINTERS` bytes. -/
def INODE_RECORD_BYTES : Nat := MAX_FILENAME_LENGTH + 4 + 4 * NUM_DIRECT_POINTERS

/-- Derived layout constant (`FS_Boot`): inodes per block. -/
def INODES_PER_BLOCK : Nat := BLOCK_SIZE / INODE_RECORD_BYTES

/-- First block of the inode table (`FS_Boot`). -/
def INODE_TABLE_START : Nat := 3

/-- Number of inode-table blocks (`FS_Boot`). -/
def INODE_TABLE_BLOCKS : Nat := (MAX_FILES + INODES_PER_BLOCK - 1) / INODES_PER_BLOCK

/-- First data block (`FS_Boot`). -/
def DATA_BLOCK_START : Nat := INODE_TABLE_START + INODE_TABLE_BLOCKS

/-- A disk block: a list of `BLOCK_SIZE` bytes. -/
abbrev Block := List Nat

/-- The all-zero block (fresh format / `memset(buf, 0, BLOCK_SIZE)`). -/
def zeroBlock : Block := List.replicate BLOCK_SIZE 0

/-- In-memory inode record (`struct Inode` in `TinyFS.c`): filename (bytes
before the NUL terminator), size, and `NUM_DIRECT_POINTERS` direct block
pointers (`-1` = unallocated). -/
structure Inode where
  filename : List Nat
  size : Nat
  dataBlocks : List Int
deriving DecidableEq

/-- Open-file-table slot (`struct OpenFile` in `TinyFS.c`). -/
structure OpenFile where
  used : Bool
  inodeIndex : Int
  filePointer : Nat
deriving DecidableEq

/-- A free open-file-table slot, as `initOFT` and `File_Close` reset it. -/
def oftFree : OpenFile := ⟨false, -1, 0⟩

/-- The whole mutable state of `TinyFS.c`: the two in-memory bitmaps, the
structural view of the on-disk inode table, the raw disk blocks, and the
open file table. -/
structure FSState where
  inodeBitmap : List Bool
  dataBitmap : List Bool
  inodes : List Inode
  blocks : List Block
  oft : List OpenFile
deriving DecidableEq

/-- Indexed read of an inode record (`readInode`): the inode table region is
represented structurally, so this is list indexing. -/
def inodeAt (s : FSState) (i : Nat) : Inode :=
  s.inodes.getD i ⟨[], 0, List.replicate NUM_DIRECT_POINTERS 0⟩

/-- First index in the list satisfying `p` (the upward `for` loops of
`TinyFS.c` scanning an index range). -/
def firstIdx (p : Nat → Bool) : List Nat → Option Nat
  | [] => none
  | i :: rest => if p i then some i else firstIdx p rest

/-- Linear filename lookup over live inodes (`lookupFile`), returning the
inode index or `-1`. -/
def lookupFile (s : FSState) (name : List Nat) : Int :=
  match firstIdx (fun i => s.inodeBitmap.getD i false &&
      decide ((inodeAt s i).filename = name)) (List.range MAX_FILES) with
  | some i => (i : Int)
  | none => -1

/-- Convert a user-facing fd to an open-file-table index (`fdToIndex`);
`none` models the C function's `-1`. -/
def fdToIndex (s : FSState) (fd : Int) : Option Nat :=
  let idx := fd - FD_OFFSET
  if idx < 0 ∨ (OPEN_FILE_TABLE_SIZE : Int) ≤ idx then none
  else if (s.oft.getD idx.toNat oftFree).used = false then none
  else some idx.toNat

/-- Scan of the data bitmap from `DATA_BLOCK_START` (`allocateDataBlock`'s
loop range). -/
def dataRange : List Nat := List.range' DATA_BLOCK_START (NUM_BLOCKS - DATA_BLOCK_START)

/-- Allocate a free data block (`allocateDataBlock`): first clear bit at or
after `DATA_BLOCK_START` wins; the bit is set (and written through). -/
def allocateDataBlock (s : FSState) : FSState × Int :=
  match firstIdx (fun b => !(s.dataBitmap.getD b true)) dataRange with
  | some b => ({ s with dataBitmap := s.dataBitmap.set b true }, (b : Int))
  | none => (s, -1)

/-- Allocate a free inode (`allocateInode`). -/
def allocateInode (s : FSState) : FSState × Int :=
  match firstIdx (fun i => !(s.inodeBitmap.getD i true)) (List.range MAX_FILES) with
  | some i => ({ s with inodeBitmap := s.inodeBitmap.set i true }, (i : Int))
  | none => (s, -1)

/-- Free the data blocks in the list (`File_Delete`'s loop over
`freeDataBlock`, whose out-of-range guard makes invalid indices a no-op). -/
def freeAll (bm : List Bool) : List Int → List Bool
  | [] => bm
  | b :: rest =>
      freeAll (if 0 ≤ b ∧ b < (NUM_BLOCKS : Int) then bm.set b.toNat false else bm) rest

/-- File_Create (`TinyFS.c` lines 281-308): reject empty names and
duplicates, allocate an inode, initialize the record with the truncated
NUL-terminated filename, size 0 and all pointers `-1`, and write it. -/
def File_Create (s : FSState) (file : List Nat) : FSState × Int :=
  if file = [] then (s, E_FILE_EXISTS)
  else if lookupFile s file ≠ -1 then (s, E_FILE_EXISTS)
  else
    match allocateInode s with
    | (s1, inodeIndex) =>
      if inodeIndex < 0 then (s1, E_NO_SPACE)
      else
        let ino : Inode :=
          { filename := file.take (MAX_FILENAME_LENGTH - 1)
            size := 0
            dataBlocks := List.replicate NUM_DIRECT_POINTERS (-1) }
        ({ s1 with inodes := s1.inodes.set inodeIndex.toNat ino }, 0)

/-- File_Open (`TinyFS.c` lines 314-331): lookup, then first free slot. -/
def File_Open (s : FSState) (file : List Nat) : FSState × Int :=
  let inodeIndex := lookupFile s file
  if inodeIndex < 0 then (s, E_NO_SUCH_FILE)
  else
    match firstIdx (fun k => !(s.oft.getD k oftFree).used) (List.range OPEN_FILE_TABLE_SIZE) with
    | some k =>
        ({ s with oft := s.oft.set k ⟨true, inodeIndex, 0⟩ }, (k : Int) + FD_OFFSET)
    | none => (s, E_TOO_MANY_OPEN_FILES)

/-- Read loop of `File_Read` (lines 363-387): `remaining` is
`bytesToRead - copied`; returns the final file pointer together with the
bytes accumulated into the caller's buffer.  The loop consumes at least one
byte per iteration (a chunk never straddles a block boundary and the block
offset is below `BLOCK_SIZE`), so it is phrased with a structural `fuel`
counter that the caller seeds with the byte count; the fuel-exhausted
branch is unreachable whenever `remaining ≤ fuel`. -/
def readLoop (s : FSState) (ino : Inode) : Nat → Nat → Nat → List Nat → Nat × List Nat
  | 0, fp, _, acc => (fp, acc)
  | fuel + 1, fp, remaining, acc =>
    if remaining = 0 then (fp, acc)
    else
      let blockIndex := fp / BLOCK_SIZE
      if NUM_DIRECT_POINTERS ≤ blockIndex then (fp, acc)
      else
        let diskBlock := ino.dataBlocks.getD blockIndex (-1)
        if diskBlock < 0 then (fp, acc)
        else
          let blockBuf := s.blocks.getD diskBlock.toNat zeroBlock
          let blockOffset := fp % BLOCK_SIZE
          let chunk := min (BLOCK_SIZE - blockOffset) remaining
          readLoop s ino fuel (fp + chunk) (remaining - chunk)
            (acc ++ (blockBuf.drop blockOffset).take chunk)

/-- File_Read (`TinyFS.c` lines 337-391).  The returned triple is the new
state, the C return value, and the bytes copied into the caller's buffer
(`bufOk = false` models a NULL buffer). -/
def File_Read (s : FSState) (fd : Int) (bufOk : Bool) (size : Int) :
    FSState × Int × List Nat :=
  if size < 0 ∨ bufOk = false then (s, 0, [])
  else
    match fdToIndex s fd with
    | none => (s, E_BAD_FD, [])
    | some idx =>
      let of := s.oft.getD idx oftFree
      let ino := inodeAt s of.inodeIndex.toNat
      let fp := of.filePointer
      if ino.size ≤ fp then (s, 0, [])
      else
        let bytesToRead := min size.toNat (ino.size - fp)
        match readLoop s ino bytesToRead fp bytesToRead [] with
        | (fp1, data) =>
          ({ s with oft := s.oft.set idx { of with filePointer := fp1 } },
           (data.length : Int), data)

/-- Whole-block read-modify-write splice (`memcpy(blockBuf + blockOffset, ..., chunk)`
followed by `Disk_Write`). -/
def blockWrite (blk : Block) (off : Nat) (data : List Nat) : Block :=
  blk.take off ++ data ++ blk.drop (off + data.length)

/-- Write loop of `File_Write` (lines 414-452).  The `Except` result is the
early `return` of the C loop: `error` carries `E_FILE_TOO_BIG`/`E_NO_SPACE`
(the state keeps all partial progress), `ok` carries the local inode record
and the final file pointer.  As in `readLoop`, every iteration writes at
least one byte, so the loop is phrased with a structural `fuel` counter
seeded by the caller with the byte count `size`; the fuel-exhausted branch
is unreachable whenever `size - written ≤ fuel`. -/
def writeLoop (s : FSState) (ino : Inode) (fp : Nat) (buf : List Nat) :
    Nat → Nat → Nat → FSState × Except Int (Inode × Nat)
  | 0, _, _ => (s, Except.ok (ino, fp))
  | fuel + 1, size, written =>
    if size ≤ written then (s, Except.ok (ino, fp))
    else
      let blockIndex := fp / BLOCK_SIZE
      if NUM_DIRECT_POINTERS ≤ blockIndex then (s, Except.error E_FILE_TOO_BIG)
      else
        let alloc : Option (FSState × Inode) :=
          if ino.dataBlocks.getD blockIndex (-1) < 0 then
            match firstIdx (fun b => !(s.dataBitmap.getD b true)) dataRange with
            | none => none
            | some newBlock =>
                some ({ s with dataBitmap := s.dataBitmap.set newBlock true,
                               blocks := s.blocks.set newBlock zeroBlock },
                      { ino with dataBlocks := ino.dataBlocks.set blockIndex (newBlock : Int) })
          else some (s, ino)
        match alloc with
        | none => (s, Except.error E_NO_SPACE)
        | some (s1, ino1) =>
          let diskBlock := (ino1.dataBlocks.getD blockIndex (-1)).toNat
          let blockBuf := s1.blocks.getD diskBlock zeroBlock
          let blockOffset := fp % BLOCK_SIZE
          let chunk := min (BLOCK_SIZE - blockOffset) (size - written)
          let newBuf := blockWrite blockBuf blockOffset ((buf.drop written).take chunk)
          writeLoop { s1 with blocks := s1.blocks.set diskBlock newBuf } ino1
            (fp + chunk) buf fuel size (written + chunk)

/-- File_Write (`TinyFS.c` lines 397-463).  On loop success the inode's
size is bumped to the final cursor if it grew, the inode is written back,
the slot cursor is updated and `written` (= `size`) is returned; on a loop
error the error code is returned with partial progress kept and neither the
inode record nor the cursor updated. -/
def File_Write (s : FSState) (fd : Int) (bufOk : Bool) (buf : List Nat) (size : Int) :
    FSState × Int :=
  if size < 0 ∨ bufOk = false then (s, 0)
  else
    match fdToIndex s fd with
    | none => (s, E_BAD_FD)
    | some idx =>
      let of := s.oft.getD idx oftFree
      let ino := inodeAt s of.inodeIndex.toNat
      let fp := of.filePointer
      match writeLoop s ino fp buf size.toNat size.toNat 0 with
      | (s1, Except.error e) => (s1, e)
      | (s1, Except.ok (ino1, fp1)) =>
        let ino2 := if ino1.size < fp1 then { ino1 with size := fp1 } else ino1
        let s2 := { s1 with inodes := s1.inodes.set of.inodeIndex.toNat ino2 }
        ({ s2 with oft := s2.oft.set idx { of with filePointer := fp1 } },
         (size.toNat : Int))

/-- File_Close (`TinyFS.c` lines 469-480). -/
def File_Close (s : FSState) (fd : Int) : FSState × Int :=
  match fdToIndex s fd with
  | none => (s, E_BAD_FD)
  | some idx => ({ s with oft := s.oft.set idx oftFree }, 0)

/-- File_Delete (`TinyFS.c` lines 486-518): lookup, refuse if any open slot
references the inode, free all data blocks, zero the inode record on disk
(`memset` leaves `dataBlocks` all 0, not `-1`), and free the inode bit. -/
def File_Delete (s : FSState) (file : List Nat) : FSState × Int :=
  let inodeIndex := lookupFile s file
  if inodeIndex < 0 then (s, E_NO_SUCH_FILE)
  else if s.oft.any (fun of => of.used && of.inodeIndex == inodeIndex) then
    (s, E_FILE_IN_USE)
  else
    let i := inodeIndex.toNat
    let ino := inodeAt s i
    let s1 := { s with dataBitmap := freeAll s.dataBitmap ino.dataBlocks }
    let s2 := { s1 with inodes := s1.inodes.set i ⟨[], 0, List.replicate NUM_DIRECT_POINTERS 0⟩ }
    ({ s2 with inodeBitmap := s2.inodeBitmap.set i false }, 0)

/-- Little-endian 32-bit word at byte offset `off` of a block, as the
reference host's `memcpy(&magic, buf, sizeof(int))` reads it. -/
def word32At (blk : Block) (off : Nat) : Nat :=
  blk.getD off 0 + 256 * blk.getD (off + 1) 0 + 65536 * blk.getD (off + 2) 0 +
    16777216 * blk.getD (off + 3) 0

/-- Little-endian bytes of a 32-bit word (the superblock's stored magic). -/
def le32 (w : Nat) : List Nat :=
  [w % 256, w / 256 % 256, w / 65536 % 256, w / 16777216 % 256]

/-- Signed reinterpretation of a 32-bit word (two's complement), used when
decoding the `dataBlocks` integers of a loaded image. -/
def sint32 (w : Nat) : Int :=
  if w < 2147483648 then (w : Int) else (w : Int) - 4294967296

/-- Decode a bitmap block: one 4-byte integer per entry, an entry is in use
iff its integer is nonzero (the C code tests `if (bitmap[i])`). -/
def decodeBitmap (blk : Block) (n : Nat) : List Bool :=
  (List.range n).map (fun i => word32At blk (4 * i) != 0)

/-- Decode one inode record from its block and byte offset (the layout of
`struct Inode`: filename bytes, 4-byte size, `NUM_DIRECT_POINTERS` 4-byte
pointers). -/
def decodeInodeAt (blk : Block) (off : Nat) : Inode :=
  { filename := ((blk.drop off).take MAX_FILENAME_LENGTH).takeWhile (fun b => b ≠ 0)
    size := word32At blk (off + MAX_FILENAME_LENGTH)
    dataBlocks := (List.range NUM_DIRECT_POINTERS).map
      (fun j => sint32 (word32At blk (off + MAX_FILENAME_LENGTH + 4 + 4 * j))) }

/-- Decode the whole inode table of a loaded image, using the same
`(block, offset)` placement as `readInode`. -/
def decodeInodes (blks : List Block) : List Inode :=
  (List.range MAX_FILES).map (fun i =>
    decodeInodeAt (blks.getD (INODE_TABLE_START + i / INODES_PER_BLOCK) zeroBlock)
      ((i % INODES_PER_BLOCK) * INODE_RECORD_BYTES))

/-- The freshly formatted superblock: magic number, remainder zero. -/
def superBlock : Block := blockWrite zeroBlock 0 (le32 MAGIC_NUMBER)

/-- Disk contents after `FS_Boot` formats a fresh filesystem: magic
superblock, all-free (all-zero) bitmap blocks, zeroed inode table and data
blocks. -/
def freshBlocks : List Block :=
  superBlock :: zeroBlock :: zeroBlock :: List.replicate (NUM_BLOCKS - 3) zeroBlock

/-- The in-memory state right after `FS_Boot` formats a fresh filesystem. -/
def freshState : FSState :=
  { inodeBitmap := List.replicate MAX_FILES false
    dataBitmap := List.replicate NUM_BLOCKS false
    inodes := List.replicate MAX_FILES ⟨[], 0, List.replicate NUM_DIRECT_POINTERS 0⟩
    blocks := freshBlocks
    oft := List.replicate OPEN_FILE_TABLE_SIZE oftFree }

/-- FS_Boot (`TinyFS.c` lines 186-264).  `s` is the pre-boot global state,
`image` the result of `Disk_Load` (`none` = load failure), `saveOk` whether
`Disk_Save` of a freshly formatted image succeeds.  On a successful load
the magic number is validated; failure leaves the loaded blocks but returns
`E_DISK_ERROR` without rehydrating anything. -/
def FS_Boot (s : FSState) (image : Option (List Block)) (saveOk : Bool) :
    FSState × Int :=
  match image with
  | some blks =>
      if word32At (blks.getD 0 zeroBlock) 0 ≠ MAGIC_NUMBER then
        ({ s with blocks := blks }, E_DISK_ERROR)
      else
        ({ inodeBitmap := decodeBitmap (blks.getD 1 zeroBlock) MAX_FILES
           dataBitmap := decodeBitmap (blks.getD 2 zeroBlock) NUM_BLOCKS
           inodes := decodeInodes blks
           blocks := blks
           oft := List.replicate OPEN_FILE_TABLE_SIZE oftFree }, 0)
  | none =>
      (freshState, if saveOk then 0 else E_DISK_ERROR)

/-- One API call, for stating invariants over operation sequences. -/
inductive Op where
  | create (name : List Nat)
  | openf (name : List Nat)
  | close (fd : Int)
  | read (fd : Int) (bufOk : Bool) (size : Int)
  | write (fd : Int) (bufOk : Bool) (buf : List Nat) (size : Int)
  | delete (name : List Nat)

/-- Apply one operation, returning the new state and the C return value. -/
def applyOp (s : FSState) : Op → FSState × Int
  | Op.create name => File_Create s name
  | Op.openf name => File_Open s name
  | Op.close fd => File_Close s fd
  | Op.read fd bufOk size =>
      match File_Read s fd bufOk size with
      | (s1, r, _) => (s1, r)
  | Op.write fd bufOk buf size => File_Write s fd bufOk buf size
  | Op.delete name => File_Delete s name

/-- Run a sequence of operations. -/
def runOps (s : FSState) : List Op → FSState
  | [] => s
  | op :: rest => runOps (applyOp s op).1 rest

/-- The state after booting with no pre-existing image (fresh format). -/
def boot0 : FSState := (FS_Boot freshState none true).1

/-- The block a direct pointer denotes, as the read/write loops access it
(`-1` reads as the zero block: an unallocated pointer within the size range
can only come from a freshly zeroed block, see `writeLoop`). -/
def blockAt (s : FSState) (db : Int) : Block :=
  if db < 0 then zeroBlock else s.blocks.getD db.toNat zeroBlock

/-- Concatenation of the blocks of `ino.dataBlocks[j .. j+k)`. -/
def rawAux (s : FSState) (ino : Inode) : Nat → Nat → List Nat
  | _, 0 => []
  | j, k + 1 => blockAt s (ino.dataBlocks.getD j (-1)) ++ rawAux s ino (j + 1) k

/-- The `NUM_DIRECT_POINTERS * BLOCK_SIZE` bytes addressable through the
inode's direct pointers, in logical order. -/
def rawContent (s : FSState) (ino : Inode) : List Nat :=
  rawAux s ino 0 NUM_DIRECT_POINTERS

/-- The contents of a file: the first `size` addressable bytes. -/
def fileBytes (s : FSState) (ino : Inode) : List Nat :=
  (rawContent s ino).take ino.size

/-- Structural well-formedness of the state: every array has its declared
length and every block holds `BLOCK_SIZE` bytes. -/
def StWf (s : FSState) : Prop :=
  s.inodeBitmap.length = MAX_FILES ∧ s.dataBitmap.length = NUM_BLOCKS ∧
  s.inodes.length = MAX_FILES ∧ s.blocks.length = NUM_BLOCKS ∧
  s.oft.length = OPEN_FILE_TABLE_SIZE ∧ ∀ blk ∈ s.blocks, blk.length = BLOCK_SIZE

/-- A direct-pointer entry is the sentinel or a data-region block index
(spec invariant I3). -/
def EntryOk (e : Int) : Prop :=
  e = -1 ∨ ((DATA_BLOCK_START : Int) ≤ e ∧ e < (NUM_BLOCKS : Int))

instance (e : Int) : Decidable (EntryOk e) := by
  unfold EntryOk
  infer_instance

/-- Distinct direct-pointer slots never hold the same allocated block. -/
def EntriesNodup (l : List Int) : Prop :=
  ∀ j k, j < l.length → k < l.length → j ≠ k → 0 ≤ l.getD j (-1) →
    l.getD j (-1) ≠ l.getD k (-1)

/-- Invariant package for one inode as the write loop maintains it: entry
bounds, allocated entries marked in the data bitmap, no duplicate entries,
and every pointer covering `[0, fp)` allocated. -/
def InoGood (s : FSState) (ino : Inode) (fp : Nat) : Prop :=
  ino.dataBlocks.length = NUM_DIRECT_POINTERS ∧
  (∀ e ∈ ino.dataBlocks, EntryOk e) ∧
  (∀ e ∈ ino.dataBlocks, 0 ≤ e → s.dataBitmap.getD e.toNat false = true) ∧
  EntriesNodup ino.dataBlocks ∧
  (∀ j, j < NUM_DIRECT_POINTERS → j * BLOCK_SIZE < fp → 0 ≤ ino.dataBlocks.getD j (-1))

/-- A single open handle in the append-at-end regime of the core API: the
slot is in use, points at live-file index `i`, its cursor sits at the
file's end (true from `File_Open` on, since the core has no seek), and the
inode is well-formed. -/
def GoodHandle (s : FSState) (idx i : Nat) : Prop :=
  StWf s ∧ idx < OPEN_FILE_TABLE_SIZE ∧ i < MAX_FILES ∧
  (s.oft.getD idx oftFree).used = true ∧
  (s.oft.getD idx oftFree).inodeIndex = (i : Int) ∧
  (s.oft.getD idx oftFree).filePointer = (inodeAt s i).size ∧
  (inodeAt s i).size ≤ NUM_DIRECT_POINTERS * BLOCK_SIZE ∧
  InoGood s (inodeAt s i) (inodeAt s i).size

/-- Whether inode `i` is live. -/
def liveAt (s : FSState) (i : Nat) : Bool := s.inodeBitmap.getD i false

/-- How many direct-pointer slots of one inode record hold block `b`. -/
def inodeRefs (ino : Inode) (b : Nat) : Nat := ino.dataBlocks.count ((b : Int))

/-- Total number of references to block `b` from live inodes, with inode
`i`'s record overridden by `ino` (the write loop's local copy). -/
def refCountW (s : FSState) (i : Nat) (ino : Inode) (b : Nat) : Nat :=
  ∑ k ∈ Finset.range MAX_FILES,
    if liveAt s k then inodeRefs (if k = i then ino else inodeAt s k) b else 0

/-- Total number of references to block `b` from live inodes. -/
def refCount (s : FSState) (b : Nat) : Nat :=
  ∑ k ∈ Finset.range MAX_FILES, if liveAt s k then inodeRefs (inodeAt s k) b else 0

/-- Number of live inodes referencing block `b` at least once (the claim's
"exactly one live inode references b"). -/
def ownerCount (s : FSState) (b : Nat) : Nat :=
  ((Finset.range MAX_FILES).filter
    (fun i => liveAt s i = true ∧ (b : Int) ∈ (inodeAt s i).dataBlocks)).card

/-- Inductive strengthening of invariant I4: each data-bitmap bit counts
its references exactly (a set bit has exactly one reference in total, a
clear bit none). -/
def DataBitmapExact (s : FSState) : Prop :=
  ∀ b, b < NUM_BLOCKS → refCount s b = (if s.dataBitmap.getD b false then 1 else 0)

/-- Spec invariant I4 as claimed: a data-bitmap bit is set iff exactly one
live inode references the block. -/
def I4 (s : FSState) : Prop :=
  ∀ b, b < NUM_BLOCKS → (s.dataBitmap.getD b false = true ↔ ownerCount s b = 1)

/-- Every direct-pointer entry of every live inode is the sentinel or an
in-range data block index. -/
def LiveEntriesOk (s : FSState) : Prop :=
  ∀ i, i < MAX_FILES → liveAt s i = true → ∀ e ∈ (inodeAt s i).dataBlocks, EntryOk e

/-- Every inode record carries exactly `NUM_DIRECT_POINTERS` pointers. -/
def InodeLensOk (s : FSState) : Prop :=
  ∀ i, i < MAX_FILES → (inodeAt s i).dataBlocks.length = NUM_DIRECT_POINTERS

/-- Spec invariant I7: a used open-file slot references a live inode. -/
def SlotsOk (s : FSState) : Prop :=
  ∀ k, k < OPEN_FILE_TABLE_SIZE → (s.oft.getD k oftFree).used = true →
    0 ≤ (s.oft.getD k oftFree).inodeIndex ∧
    (s.oft.getD k oftFree).inodeIndex < (MAX_FILES : Int) ∧
    liveAt s (s.oft.getD k oftFree).inodeIndex.toNat = true

/-- The inductive global invariant used to settle the bitmap claims. -/
def FsInv (s : FSState) : Prop :=
  StWf s ∧ InodeLensOk s ∧ LiveEntriesOk s ∧ SlotsOk s ∧ DataBitmapExact s

/-- Spec invariant I5: stored filenames are unique across live inodes. -/
def UniqNames (s : FSState) : Prop :=
  ∀ i j, i < MAX_FILES → j < MAX_FILES → i ≠ j → liveAt s i = true →
    liveAt s j = true → (inodeAt s i).filename ≠ (inodeAt s j).filename

/-- Whether the operation is a `File_Write` call that fails with the
no-space or file-too-big error from state `s`. -/
def badWrite (s : FSState) : Op → Bool
  | Op.write fd bufOk buf size =>
      (File_Write s fd bufOk buf size).2 == E_NO_SPACE ||
        (File_Write s fd bufOk buf size).2 == E_FILE_TOO_BIG
  | _ => false

/-- A run of operations in which no `File_Write` fails with no-space or
file-too-big. -/
def goodTrace (s : FSState) : List Op → Prop
  | [] => True
  | op :: rest => badWrite s op = false ∧ goodTrace (applyOp s op).1 rest

/-- All `File_Create` calls of the run pass names that fit in an inode's
filename field without truncation. -/
def createNamesShort : List Op → Prop
  | [] => True
  | Op.create name :: rest => name.length ≤ MAX_FILENAME_LENGTH - 1 ∧ createNamesShort rest
  | _ :: rest => createNamesShort rest

/-- State after a sequence of `File_Write` calls of the given buffers
through descriptor `fd`. -/
def writeSeq (s : FSState) (fd : Int) : List (List Nat) → FSState
  | [] => s
  | w :: ws => writeSeq (File_Write s fd true w (w.length : Int)).1 fd ws

/-- All the writes of the sequence succeed (each returns its byte count). -/
def writesOk (s : FSState) (fd : Int) : List (List Nat) → Prop
  | [] => True
  | w :: ws =>
      (File_Write s fd true w (w.length : Int)).2 = (w.length : Int) ∧
        writesOk (File_Write s fd true w (w.length : Int)).1 fd ws

/-- Number of free data-region blocks (what `allocateDataBlock` scans). -/
def freeDataCount (s : FSState) : Nat :=
  dataRange.countP (fun b => !(s.dataBitmap.getD b true))

/-- Number of unallocated direct-pointer slots of an inode record. -/
def unallocCount (ino : Inode) : Nat :=
  (List.range NUM_DIRECT_POINTERS).countP
    (fun j => decide (ino.dataBlocks.getD j (-1) < 0))

/-- The state with only the byte cursor of open-file slot `idx` replaced
(used to state the effect of `File_Read`). -/
def setCursor (s : FSState) (idx : Nat) (fp1 : Nat) : FSState :=
  { s with oft := s.oft.set idx { s.oft.getD idx oftFree with filePointer := fp1 } }

/-- Invariant package carried through the write loop for the pair of the
current state and the loop's local inode record: array lengths, entry
bounds, allocated entries marked in the data bitmap, and no duplicate
entries. -/
def WState (s : FSState) (ino : Inode) : Prop :=
  s.blocks.length = NUM_BLOCKS ∧
  s.dataBitmap.length = NUM_BLOCKS ∧
  (∀ blk ∈ s.blocks, blk.length = BLOCK_SIZE) ∧
  ino.dataBlocks.length = NUM_DIRECT_POINTERS ∧
  (∀ e ∈ ino.dataBlocks, EntryOk e) ∧
  (∀ e ∈ ino.dataBlocks, 0 ≤ e → s.dataBitmap.getD e.toNat false = true) ∧
  EntriesNodup ino.dataBlocks

/-- Demo state: a fresh boot with file `"a"` created and opened (its
handle is slot 0, inode 0, cursor 0, size 0). -/
def demo1 : FSState := (File_Open (File_Create boot0 [97]).1 [97]).1

/-- Demo state: `demo1` after writing the two bytes `[5, 6]`. -/
def demo2 : FSState :=
  (File_Write demo1 (((0 : Nat) : Int) + FD_OFFSET) true [5, 6] 2).1

/-- Demo state: `demo2` after closing and reopening `"a"` (slot 0 again,
cursor back at 0). -/
def demo3 : FSState :=
  (File_Open (File_Close demo2 (((0 : Nat) : Int) + FD_OFFSET)).1 [97]).1

/-! ### Generic list helpers -/

theorem getD_set_self {α : Type} (l : List α) (i : Nat) (a d : α) (h : i < l.length) :
    (l.set i a).getD i d = a := by
  rw [List.getD_eq_getElem?_getD, List.getElem?_set_self (by simpa using h)]
  rfl

theorem getD_set_ne {α : Type} (l : List α) {i j : Nat} (a : α) (d : α) (h : i ≠ j) :
    (l.set i a).getD j d = l.getD j d := by
  rw [List.getD_eq_getElem?_getD, List.getElem?_set_ne h, ← List.getD_eq_getElem?_getD]

theorem getD_mem {α : Type} (l : List α) (i : Nat) (d : α) (h : i < l.length) :
    l.getD i d ∈ l := by
  rw [List.getD_eq_getElem?_getD, List.getElem?_eq_getElem h]
  exact List.getElem_mem h

theorem getD_replicate {α : Type} {n i : Nat} (a d : α) (h : i < n) :
    (List.replicate n a).getD i d = a := by
  rw [List.getD_eq_getElem?_getD, List.getElem?_replicate]
  simp [h]

theorem mem_range'_iff {n k m : Nat} : n ∈ List.range' k m ↔ k ≤ n ∧ n < k + m := by
  rw [List.mem_range']
  constructor
  · rintro ⟨i, hi, rfl⟩
    omega
  · rintro ⟨h1, h2⟩
    exact ⟨n - k, by omega, by omega⟩

theorem getD_eq_getD_of_set_comm {α : Type} (l : List α) (i : Nat) (a : α) (j : Nat) (d : α) :
    (l.set i a).getD j d = if i = j ∧ i < l.length then a else l.getD j d := by
  rcases Nat.lt_or_ge i l.length with hl | hl
  · by_cases h : i = j
    · subst h
      simp [hl, getD_set_self _ _ _ _ hl]
    · simp [h, getD_set_ne _ _ _ h]
  · rw [List.set_eq_of_length_le hl]
    have hfalse : ¬(i = j ∧ i < l.length) := fun ⟨_, h2⟩ => absurd h2 (Nat.not_lt.2 hl)
    simp [hfalse]

/-! ### `firstIdx` (the C index-scanning loops) -/

theorem firstIdx_some {p : Nat → Bool} : ∀ {l : List Nat} {i : Nat},
    firstIdx p l = some i → p i = true ∧ i ∈ l
  | [], i, h => by simp [firstIdx] at h
  | x :: rest, i, h => by
    by_cases hx : p x
    · simp [firstIdx, hx] at h
      subst h
      exact ⟨hx, List.mem_cons_self x rest⟩
    · simp [firstIdx, hx] at h
      obtain ⟨h1, h2⟩ := firstIdx_some h
      exact ⟨h1, List.mem_cons_of_mem x h2⟩

theorem firstIdx_none {p : Nat → Bool} : ∀ {l : List Nat},
    firstIdx p l = none → ∀ i ∈ l, p i = false
  | [], _, i, h => by simp at h
  | x :: rest, h, i, hi => by
    by_cases hx : p x
    · simp [firstIdx, hx] at h
    · rcases List.mem_cons.1 hi with rfl | hmem
      · simpa using hx
      · exact firstIdx_none (by simpa [firstIdx, hx] using h) i hmem

theorem firstIdx_isSome {p : Nat → Bool} : ∀ {l : List Nat},
    l.countP p ≠ 0 → ∃ i, firstIdx p l = some i
  | [], h => by simp at h
  | x :: rest, h => by
    by_cases hx : p x
    · exact ⟨x, by simp [firstIdx, hx]⟩
    · have : rest.countP p ≠ 0 := by
        simpa [List.countP_cons, hx] using h
      obtain ⟨i, hi⟩ := firstIdx_isSome this
      exact ⟨i, by simpa [firstIdx, hx] using hi⟩

theorem firstIdx_congr {p q : Nat → Bool} : ∀ {l : List Nat},
    (∀ i ∈ l, p i = q i) → firstIdx p l = firstIdx q l
  | [], _ => rfl
  | x :: rest, h => by
    have hx : p x = q x := h x (List.mem_cons_self x rest)
    by_cases hq : q x
    · simp [firstIdx, hq, hx ▸ hq]
    · have hpx : p x = false := by rw [hx]; simpa using hq
      simp [firstIdx, hpx, hq]
      exact firstIdx_congr (fun i hi => h i (List.mem_cons_of_mem x hi))

/-- A bitmap-set at a freshly found free index removes exactly one free
entry from any duplicate-free scan list containing it. -/
theorem countP_free_set (bm : List Bool) : ∀ (l : List Nat), l.Nodup → ∀ nb ∈ l,
    bm.getD nb true = false →
    l.countP (fun b => !((bm.set nb true).getD b true)) + 1 =
      l.countP (fun b => !(bm.getD b true))
  | [], _, nb, hmem, _ => by simp at hmem
  | x :: rest, hnd, nb, hmem, hfree => by
    have hnb_len : nb < bm.length := by
      by_contra hge
      rw [List.getD_eq_default _ _ (by omega)] at hfree
      exact Bool.noConfusion hfree
    rcases List.mem_cons.1 hmem with rfl | hmem'
    · have hrest : ∀ b ∈ rest, (!((bm.set nb true).getD b true)) = (!(bm.getD b true)) := by
        intro b hb
        have : nb ≠ b := by
          intro h
          exact (List.nodup_cons.1 hnd).1 (h ▸ hb)
        rw [getD_set_ne _ _ _ this]
      rw [List.countP_cons, List.countP_cons]
      have h1 : (!((bm.set nb true).getD nb true)) = false := by
        rw [getD_set_self _ _ _ _ hnb_len]
        rfl
      have h2 : (!(bm.getD nb true)) = true := by rw [hfree]; rfl
      rw [h1, h2, List.countP_congr (fun b hb => by rw [hrest b hb])]
      simp
    · have hx : nb ≠ x := fun h => (List.nodup_cons.1 hnd).1 (h ▸ hmem')
      rw [List.countP_cons, List.countP_cons, getD_set_ne _ _ _ hx]
      have := countP_free_set bm rest (List.nodup_cons.1 hnd).2 nb hmem' hfree
      omega

/-- Splitting a `count` at a set position: the generic accounting fact for
direct-pointer updates. -/
theorem count_set (l : List Int) (j : Nat) (v x : Int) (hj : j < l.length) :
    (l.set j v).count x + (if l.getD j (-1) = x then 1 else 0) =
      l.count x + (if v = x then 1 else 0) := by
  have hdecomp : l = l.take j ++ l.getD j (-1) :: l.drop (j + 1) := by
    rw [List.getD_eq_getElem l _ hj]
    conv_lhs => rw [← List.take_append_drop j l, List.drop_eq_getElem_cons hj]
  have hset : l.set j v = l.take j ++ v :: l.drop (j + 1) := by
    rw [List.set_eq_take_append_cons_drop]
    simp [hj]
  rw [hset]
  conv_rhs => rw [hdecomp]
  rw [List.count_append, List.count_append, List.count_cons, List.count_cons]
  simp only [beq_iff_eq]
  by_cases h1 : v = x <;> by_cases h2 : l.getD j (-1) = x <;> simp [h1, h2] <;> omega

/-! ### Content-view lemmas -/

theorem length_blockAt (s : FSState) (hb : ∀ blk ∈ s.blocks, blk.length = BLOCK_SIZE)
    (db : Int) : (blockAt s db).length = BLOCK_SIZE := by
  unfold blockAt
  split
  · simp [zeroBlock]
  · rcases Nat.lt_or_ge db.toNat s.blocks.length with h | h
    · exact hb _ (getD_mem _ _ _ h)
    · rw [List.getD_eq_default _ _ h]
      simp [zeroBlock]

theorem length_rawAux (s : FSState) (ino : Inode)
    (hb : ∀ blk ∈ s.blocks, blk.length = BLOCK_SIZE) :
    ∀ (k a : Nat), (rawAux s ino a k).length = k * BLOCK_SIZE
  | 0, _ => by simp [rawAux]
  | k + 1, a => by
    simp only [rawAux, List.length_append, length_blockAt s hb,
      length_rawAux s ino hb k (a + 1)]
    ring

theorem length_rawContent (s : FSState) (ino : Inode)
    (hb : ∀ blk ∈ s.blocks, blk.length = BLOCK_SIZE) :
    (rawContent s ino).length = NUM_DIRECT_POINTERS * BLOCK_SIZE :=
  length_rawAux s ino hb NUM_DIRECT_POINTERS 0

theorem rawAux_congr (s s' : FSState) (ino ino' : Inode) :
    ∀ (k a : Nat),
      (∀ j, j < k → blockAt s (ino.dataBlocks.getD (a + j) (-1)) =
        blockAt s' (ino'.dataBlocks.getD (a + j) (-1))) →
      rawAux s ino a k = rawAux s' ino' a k
  | 0, _, _ => rfl
  | k + 1, a, h => by
    simp only [rawAux]
    rw [show a = a + 0 from rfl] 
    rw [h 0 (Nat.succ_pos k)]
    rw [rawAux_congr s s' ino ino' k (a + 1)
      (fun j hj => by
        have := h (j + 1) (by omega)
        simpa [Nat.add_assoc, Nat.add_comm 1 j] using this)]

theorem rawAux_split (s : FSState) (ino : Inode) :
    ∀ (m a n : Nat), rawAux s ino a (m + n) = rawAux s ino a m ++ rawAux s ino (a + m) n
  | 0, a, n => by simp [rawAux]
  | m + 1, a, n => by
    have : m + 1 + n = (m + n) + 1 := by omega
    rw [this]
    simp only [rawAux]
    rw [rawAux_split s ino m (a + 1) n, List.append_assoc,
      show a + 1 + m = a + (m + 1) by omega]

/-- Dropping into the middle of block `j` of the raw content. -/
theorem rawContent_drop (s : FSState) (ino : Inode)
    (hb : ∀ blk ∈ s.blocks, blk.length = BLOCK_SIZE)
    (j off : Nat) (hj : j < NUM_DIRECT_POINTERS) (hoff : off < BLOCK_SIZE) :
    (rawContent s ino).drop (j * BLOCK_SIZE + off) =
      (blockAt s (ino.dataBlocks.getD j (-1))).drop off ++
        rawAux s ino (j + 1) (NUM_DIRECT_POINTERS - (j + 1)) := by
  have h5 : NUM_DIRECT_POINTERS = j + (1 + (NUM_DIRECT_POINTERS - (j + 1))) := by
    unfold NUM_DIRECT_POINTERS at hj ⊢
    omega
  have hcontent : rawContent s ino =
      rawAux s ino 0 j ++ (blockAt s (ino.dataBlocks.getD j (-1)) ++
        rawAux s ino (j + 1) (NUM_DIRECT_POINTERS - (j + 1))) := by
    unfold rawContent
    conv_lhs => rw [h5, rawAux_split s ino j 0 (1 + (NUM_DIRECT_POINTERS - (j + 1)))]
    rw [Nat.zero_add]
    conv_lhs => rw [rawAux_split s ino 1 j (NUM_DIRECT_POINTERS - (j + 1))]
    simp [rawAux]
  rw [hcontent, List.drop_append_eq_append_drop,
    List.drop_eq_nil_of_le
      (show (rawAux s ino 0 j).length ≤ j * BLOCK_SIZE + off by
        rw [length_rawAux s ino hb j 0]; omega),
    List.nil_append, length_rawAux s ino hb j 0,
    show j * BLOCK_SIZE + off - j * BLOCK_SIZE = off by omega,
    List.drop_append_eq_append_drop,
    show off - (blockAt s (ino.dataBlocks.getD j (-1))).length = 0 by
      rw [length_blockAt s hb]; omega,
    List.drop_zero]

/-! ### Read path -/

theorem fdToIndex_of_slot (s : FSState) (idx : Nat)
    (hidx : idx < OPEN_FILE_TABLE_SIZE)
    (hused : (s.oft.getD idx oftFree).used = true) :
    fdToIndex s ((idx : Int) + FD_OFFSET) = some idx := by
  have hidx5 : idx < 5 := by simpa [OPEN_FILE_TABLE_SIZE] using hidx
  simp only [fdToIndex, FD_OFFSET, OPEN_FILE_TABLE_SIZE]
  rw [if_neg (by omega)]
  have h2 : ((idx : Int) + 3 - 3).toNat = idx := by omega
  rw [h2, hused]
  simp

theorem readLoop_spec (s : FSState) (ino : Inode)
    (hb : ∀ blk ∈ s.blocks, blk.length = BLOCK_SIZE) :
    ∀ (fuel fp remaining : Nat) (acc : List Nat),
      remaining ≤ fuel →
      fp + remaining ≤ NUM_DIRECT_POINTERS * BLOCK_SIZE →
      (∀ j, j < NUM_DIRECT_POINTERS → j * BLOCK_SIZE < fp + remaining →
        0 ≤ ino.dataBlocks.getD j (-1)) →
      readLoop s ino fuel fp remaining acc =
        (fp + remaining, acc ++ ((rawContent s ino).drop fp).take remaining)
  | 0, fp, remaining, acc, hfuel, _, _ => by
    have : remaining = 0 := Nat.le_zero.1 hfuel
    subst this
    simp [readLoop]
  | fuel + 1, fp, remaining, acc, hfuel, hfit, hcov => by
    by_cases hrem : remaining = 0
    · subst hrem
      simp [readLoop]
    · have hBS : 0 < BLOCK_SIZE := by decide
      have hfp640 : fp < NUM_DIRECT_POINTERS * BLOCK_SIZE := by omega
      have hbi : fp / BLOCK_SIZE < NUM_DIRECT_POINTERS := by
        rw [Nat.div_lt_iff_lt_mul hBS]
        exact hfp640
      have hdivle : fp / BLOCK_SIZE * BLOCK_SIZE ≤ fp := Nat.div_mul_le_self fp BLOCK_SIZE
      have hdb : 0 ≤ ino.dataBlocks.getD (fp / BLOCK_SIZE) (-1) :=
        hcov _ hbi (by omega)
      have hoff : fp % BLOCK_SIZE < BLOCK_SIZE := Nat.mod_lt _ hBS
      simp only [readLoop, hrem, if_false, if_neg (Nat.not_le.2 hbi),
        if_neg (not_lt.2 hdb)]
      set chunk := min (BLOCK_SIZE - fp % BLOCK_SIZE) remaining with hchunk_def
      have hchunk1 : 1 ≤ chunk := le_min (by omega) (by omega)
      have hchunkle : chunk ≤ remaining := min_le_right _ _
      have hchunkbs : chunk ≤ BLOCK_SIZE - fp % BLOCK_SIZE := min_le_left _ _
      rw [readLoop_spec s ino hb fuel (fp + chunk) (remaining - chunk) _
        (by omega) (by omega)
        (fun j hj hlt => hcov j hj (by omega))]
      rw [Prod.mk.injEq]
      refine ⟨by omega, ?_⟩
      rw [List.append_assoc]
      congr 1
      · have hsplit : remaining = chunk + (remaining - chunk) := by omega
        conv_rhs => rw [hsplit]
        rw [List.take_add, List.drop_drop]
        congr 1
        have hfp_eq : fp = fp / BLOCK_SIZE * BLOCK_SIZE + fp % BLOCK_SIZE := by
          conv_lhs => rw [← Nat.div_add_mod fp BLOCK_SIZE]
          rw [Nat.mul_comm]
        conv_rhs => rw [hfp_eq]
        rw [rawContent_drop s ino hb (fp / BLOCK_SIZE) (fp % BLOCK_SIZE) hbi hoff]
        rw [List.take_append_of_le_length
          (by
            rw [List.length_drop, length_blockAt s hb]
            omega)]
        have hblockAt : blockAt s (ino.dataBlocks.getD (fp / BLOCK_SIZE) (-1)) =
            s.blocks.getD (ino.dataBlocks.getD (fp / BLOCK_SIZE) (-1)).toNat zeroBlock := by
          unfold blockAt
          rw [if_neg (not_lt.2 hdb)]
        rw [hblockAt]

/-- File_Read at or past end of file: returns 0 and leaves the state
untouched. -/
theorem File_Read_eof (s : FSState) (idx i : Nat) (n : Int)
    (hidx : idx < OPEN_FILE_TABLE_SIZE)
    (hused : (s.oft.getD idx oftFree).used = true)
    (hii : (s.oft.getD idx oftFree).inodeIndex = (i : Int))
    (hn : 0 ≤ n)
    (hfp : (inodeAt s i).size ≤ (s.oft.getD idx oftFree).filePointer) :
    File_Read s ((idx : Int) + FD_OFFSET) true n = (s, 0, []) := by
  unfold File_Read
  rw [if_neg (by simp; omega)]
  rw [fdToIndex_of_slot s idx hidx hused]
  simp only [hii, Int.toNat_natCast]
  rw [if_pos hfp]

/-- File_Read strictly before end of file: returns exactly
`min size (inode.size - cursor)` bytes of the file contents at the cursor
and advances the cursor by that amount. -/
theorem File_Read_ok (s : FSState) (idx i : Nat) (n : Int)
    (hidx : idx < OPEN_FILE_TABLE_SIZE)
    (hused : (s.oft.getD idx oftFree).used = true)
    (hii : (s.oft.getD idx oftFree).inodeIndex = (i : Int))
    (hb : ∀ blk ∈ s.blocks, blk.length = BLOCK_SIZE)
    (hdlen : (inodeAt s i).dataBlocks.length = NUM_DIRECT_POINTERS)
    (hn : 0 ≤ n)
    (hcov : ∀ j, j * BLOCK_SIZE < (inodeAt s i).size →
      0 ≤ (inodeAt s i).dataBlocks.getD j (-1))
    (hfp : (s.oft.getD idx oftFree).filePointer < (inodeAt s i).size) :
    File_Read s ((idx : Int) + FD_OFFSET) true n =
      (setCursor s idx ((s.oft.getD idx oftFree).filePointer +
         min n.toNat ((inodeAt s i).size - (s.oft.getD idx oftFree).filePointer)),
       ((min n.toNat ((inodeAt s i).size - (s.oft.getD idx oftFree).filePointer) : Nat) : Int),
       ((fileBytes s (inodeAt s i)).drop (s.oft.getD idx oftFree).filePointer).take
         (min n.toNat ((inodeAt s i).size - (s.oft.getD idx oftFree).filePointer))) := by
  have hsz : (inodeAt s i).size ≤ NUM_DIRECT_POINTERS * BLOCK_SIZE := by
    by_contra hgt
    have h5 : NUM_DIRECT_POINTERS * BLOCK_SIZE < (inodeAt s i).size := by omega
    have := hcov NUM_DIRECT_POINTERS h5
    rw [List.getD_eq_default _ _ (by omega)] at this
    exact absurd this (by decide)
  set fp := (s.oft.getD idx oftFree).filePointer with hfp_def
  set btr := min n.toNat ((inodeAt s i).size - fp) with hbtr_def
  have hbtr_le : fp + btr ≤ (inodeAt s i).size := by
    have := min_le_right n.toNat ((inodeAt s i).size - fp)
    omega
  unfold File_Read
  rw [if_neg (by simp; omega)]
  rw [fdToIndex_of_slot s idx hidx hused]
  simp only [hii, Int.toNat_natCast, ← hfp_def]
  rw [if_neg (not_le.2 hfp), ← hbtr_def]
  rw [readLoop_spec s (inodeAt s i) hb btr fp btr [] (le_refl btr) (by omega)
    (fun j _ hlt => hcov j (by omega))]
  have hdata : ((rawContent s (inodeAt s i)).drop fp).take btr =
      ((fileBytes s (inodeAt s i)).drop fp).take btr := by
    unfold fileBytes
    rw [List.drop_take, List.take_take]
    congr 1
    omega
  have hdatalen : (((rawContent s (inodeAt s i)).drop fp).take btr).length = btr := by
    rw [List.length_take, List.length_drop, length_rawContent s _ hb]
    omega
  have hdatalen2 : (((fileBytes s (inodeAt s i)).drop fp).take btr).length = btr := by
    rw [← hdata]
    exact hdatalen
  simp only [List.nil_append, hdata, hdatalen2, setCursor, hii]

/-! ### Write path: block-level helpers -/

theorem length_blockWrite (blk : Block) (off : Nat) (data : List Nat)
    (h : off + data.length ≤ blk.length) :
    (blockWrite blk off data).length = blk.length := by
  unfold blockWrite
  rw [List.length_append, List.length_append, List.length_take, List.length_drop]
  omega

theorem blocksWf_set (s : FSState) (hb : ∀ blk ∈ s.blocks, blk.length = BLOCK_SIZE)
    (i : Nat) (blk : Block) (hblk : blk.length = BLOCK_SIZE) :
    ∀ b ∈ s.blocks.set i blk, b.length = BLOCK_SIZE := by
  intro b hmem
  rcases List.mem_or_eq_of_mem_set hmem with h | h
  · exact hb b h
  · rw [h, hblk]

theorem getD_blocks_length (s : FSState) (hb : ∀ blk ∈ s.blocks, blk.length = BLOCK_SIZE)
    (i : Nat) : (s.blocks.getD i zeroBlock).length = BLOCK_SIZE := by
  rcases Nat.lt_or_ge i s.blocks.length with h | h
  · exact hb _ (getD_mem _ _ _ h)
  · rw [List.getD_eq_default _ _ h]
    simp [zeroBlock]

theorem allocScan_some {s : FSState} {nb : Nat}
    (h : firstIdx (fun b => !(s.dataBitmap.getD b true)) dataRange = some nb) :
    DATA_BLOCK_START ≤ nb ∧ nb < NUM_BLOCKS ∧ s.dataBitmap.getD nb true = false := by
  obtain ⟨hp, hmem⟩ := firstIdx_some h
  rw [dataRange] at hmem
  rw [mem_range'_iff] at hmem
  refine ⟨hmem.1, by omega, ?_⟩
  simpa using hp

theorem allocScan_none {s : FSState}
    (h : firstIdx (fun b => !(s.dataBitmap.getD b true)) dataRange = none) :
    ∀ b, DATA_BLOCK_START ≤ b → b < NUM_BLOCKS → s.dataBitmap.getD b true = true := by
  intro b h1 h2
  have := firstIdx_none h b (by
    rw [dataRange, mem_range'_iff]
    omega)
  simpa using this

/-- A marked entry can never be the freshly allocated block. -/
theorem marked_ne_free {bm : List Bool} {e : Int} {nb : Nat}
    (hmark : bm.getD e.toNat false = true) (hfree : bm.getD nb true = false) :
    e.toNat ≠ nb := by
  intro h
  rw [h] at hmark
  rcases Nat.lt_or_ge nb bm.length with hlt | hge
  · rw [List.getD_eq_getElem _ _ hlt] at hmark hfree
    rw [hmark] at hfree
    exact Bool.noConfusion hfree
  · rw [List.getD_eq_default _ _ hge] at hmark
    exact Bool.noConfusion hmark

/-- Allocating a fresh block and pointing an unallocated direct-pointer
slot at it does not change the addressable content: the slot previously
read as the zero block, and the fresh block is zeroed on disk. -/
theorem rawContent_alloc (s : FSState) (ino : Inode) (bi nb : Nat)
    (hlen : ino.dataBlocks.length = NUM_DIRECT_POINTERS)
    (hold : ino.dataBlocks.getD bi (-1) < 0)
    (hmarked : ∀ e ∈ ino.dataBlocks, 0 ≤ e → s.dataBitmap.getD e.toNat false = true)
    (hfree : s.dataBitmap.getD nb true = false) :
    rawContent { s with dataBitmap := s.dataBitmap.set nb true,
                        blocks := s.blocks.set nb zeroBlock }
        { ino with dataBlocks := ino.dataBlocks.set bi ((nb : Int)) } =
      rawContent s ino := by
  apply (rawAux_congr _ _ _ _ NUM_DIRECT_POINTERS 0 _).symm
  intro j hj
  rw [Nat.zero_add]
  by_cases hji : j = bi
  · subst hji
    rcases Nat.lt_or_ge j ino.dataBlocks.length with hjl | hjl
    · rw [getD_set_self _ _ _ _ hjl]
      unfold blockAt
      rw [if_pos hold, if_neg (by omega)]
      show zeroBlock = (s.blocks.set nb zeroBlock).getD ((nb : Int)).toNat zeroBlock
      rw [Int.toNat_natCast, getD_eq_getD_of_set_comm]
      split
      · rfl
      · rcases Nat.lt_or_ge nb s.blocks.length with h | h
        · omega
        · rw [List.getD_eq_default _ _ h]
    · have h2 : (ino.dataBlocks.set j ((nb : Int))).getD j (-1) = -1 := by
        rw [List.set_eq_of_length_le (by omega)]
        exact List.getD_eq_default _ _ (by omega)
      rw [h2, List.getD_eq_default _ _ (by omega)]
      unfold blockAt
      rw [if_pos (by decide), if_pos (by decide)]
  · rw [getD_set_ne _ _ _ (fun h => hji h.symm)]
    unfold blockAt
    by_cases hneg : ino.dataBlocks.getD j (-1) < 0
    · rw [if_pos hneg, if_pos hneg]
    · rw [if_neg hneg, if_neg hneg]
      show s.blocks.getD _ zeroBlock = (s.blocks.set nb zeroBlock).getD _ zeroBlock
      rcases Nat.lt_or_ge j ino.dataBlocks.length with hjl | hjl
      · have hmem : ino.dataBlocks.getD j (-1) ∈ ino.dataBlocks := getD_mem _ _ _ hjl
        have hne : (ino.dataBlocks.getD j (-1)).toNat ≠ nb :=
          marked_ne_free (hmarked _ hmem (by omega)) hfree
        rw [getD_set_ne _ _ _ (fun h => hne h.symm)]
      · rw [List.getD_eq_default _ _ (by omega)] at hneg
        omega

/-- Decomposition of the raw content at direct-pointer slot `bi`. -/
theorem rawContent_decomp (s : FSState) (ino : Inode) (bi : Nat)
    (hbi : bi < NUM_DIRECT_POINTERS) :
    rawContent s ino = rawAux s ino 0 bi ++
      (blockAt s (ino.dataBlocks.getD bi (-1)) ++
        rawAux s ino (bi + 1) (NUM_DIRECT_POINTERS - (bi + 1))) := by
  have h5 : NUM_DIRECT_POINTERS = bi + (1 + (NUM_DIRECT_POINTERS - (bi + 1))) := by
    unfold NUM_DIRECT_POINTERS at hbi ⊢
    omega
  unfold rawContent
  conv_lhs => rw [h5, rawAux_split s ino bi 0 (1 + (NUM_DIRECT_POINTERS - (bi + 1)))]
  rw [Nat.zero_add]
  conv_lhs => rw [rawAux_split s ino 1 bi (NUM_DIRECT_POINTERS - (bi + 1))]
  simp [rawAux]

/-- Writing `data` into the middle of the block addressed by allocated
direct-pointer slot `bi` splices `data` into the raw content at the
corresponding byte position. -/
theorem rawContent_set_block (s : FSState) (ino : Inode) (bi off : Nat) (data : List Nat)
    (hb : ∀ blk ∈ s.blocks, blk.length = BLOCK_SIZE)
    (hblen : s.blocks.length = NUM_BLOCKS)
    (hlen : ino.dataBlocks.length = NUM_DIRECT_POINTERS)
    (hbi : bi < NUM_DIRECT_POINTERS)
    (he : 0 ≤ ino.dataBlocks.getD bi (-1))
    (he2 : ino.dataBlocks.getD bi (-1) < (NUM_BLOCKS : Int))
    (hnodup : EntriesNodup ino.dataBlocks)
    (hofflen : off + data.length ≤ BLOCK_SIZE) :
    rawContent { s with blocks := s.blocks.set (ino.dataBlocks.getD bi (-1)).toNat (blockWrite (s.blocks.getD (ino.dataBlocks.getD bi (-1)).toNat zeroBlock) off data) } ino =
      (rawContent s ino).take (bi * BLOCK_SIZE + off) ++ data ++
        (rawContent s ino).drop (bi * BLOCK_SIZE + off + data.length) := by
  set e := ino.dataBlocks.getD bi (-1) with he_def
  set db := e.toNat with hdb_def
  set oldBuf := s.blocks.getD db zeroBlock with hold_def
  set s1 := { s with blocks := s.blocks.set db (blockWrite oldBuf off data) } with hs1_def
  have hdbrange : db < s.blocks.length := by
    rw [hblen]
    omega
  have holdlen : oldBuf.length = BLOCK_SIZE := getD_blocks_length s hb db
  -- views at slots other than `bi` are untouched
  have hview : ∀ j, j ≠ bi → j < NUM_DIRECT_POINTERS →
      blockAt s1 (ino.dataBlocks.getD j (-1)) = blockAt s (ino.dataBlocks.getD j (-1)) := by
    intro j hj hj5
    unfold blockAt
    by_cases hneg : ino.dataBlocks.getD j (-1) < 0
    · rw [if_pos hneg, if_pos hneg]
    · rw [if_neg hneg, if_neg hneg]
      have hne : ino.dataBlocks.getD j (-1) ≠ e :=
        hnodup j bi (by omega) (by omega) hj (by omega)
      have hnat : (ino.dataBlocks.getD j (-1)).toNat ≠ db := by
        intro hcon
        apply hne
        rw [← Int.toNat_of_nonneg (by omega : 0 ≤ ino.dataBlocks.getD j (-1)),
          ← Int.toNat_of_nonneg (by omega : 0 ≤ e), hcon, hdb_def]
      show (s.blocks.set db _).getD _ zeroBlock = _
      rw [getD_set_ne _ _ _ (fun h => hnat h.symm)]
  have hviewbi : blockAt s1 e = blockWrite oldBuf off data := by
    unfold blockAt
    rw [if_neg (by omega)]
    show (s.blocks.set db _).getD db zeroBlock = _
    rw [getD_set_self _ _ _ _ hdbrange]
  have hviewbi0 : blockAt s e = oldBuf := by
    unfold blockAt
    rw [if_neg (by omega)]
  have hA : rawAux s1 ino 0 bi = rawAux s ino 0 bi :=
    rawAux_congr s1 s ino ino bi 0 (fun j hj => by
      rw [Nat.zero_add]
      exact hview j (by omega) (by omega))
  have hC : rawAux s1 ino (bi + 1) (NUM_DIRECT_POINTERS - (bi + 1)) =
      rawAux s ino (bi + 1) (NUM_DIRECT_POINTERS - (bi + 1)) :=
    rawAux_congr s1 s ino ino _ _ (fun j hj => hview (bi + 1 + j) (by omega) (by omega))
  have hL : rawContent s1 ino = rawAux s ino 0 bi ++
      (blockWrite oldBuf off data ++ rawAux s ino (bi + 1) (NUM_DIRECT_POINTERS - (bi + 1))) := by
    rw [rawContent_decomp s1 ino bi hbi, hA, hC, hviewbi]
  have hR : rawContent s ino = rawAux s ino 0 bi ++
      (oldBuf ++ rawAux s ino (bi + 1) (NUM_DIRECT_POINTERS - (bi + 1))) := by
    rw [rawContent_decomp s ino bi hbi, hviewbi0]
  have hAlen : (rawAux s ino 0 bi).length = bi * BLOCK_SIZE := length_rawAux s ino hb bi 0
  rw [hL, hR]
  rw [List.take_append_eq_append_take, List.take_of_length_le (by omega),
    List.take_append_of_le_length (by omega), hAlen,
    show bi * BLOCK_SIZE + off - bi * BLOCK_SIZE = off by omega]
  rw [List.drop_append_eq_append_drop, List.drop_eq_nil_of_le (by omega), List.nil_append,
    hAlen, show bi * BLOCK_SIZE + off + data.length - bi * BLOCK_SIZE = off + data.length
      by omega]
  rw [List.drop_append_eq_append_drop,
    show off + data.length - oldBuf.length = 0 by omega, List.drop_zero]
  unfold blockWrite
  simp [List.append_assoc]

/-- The write loop only touches the data bitmap and the disk blocks: the
inode table, the open file table and the inode bitmap are untouched on
every path, error paths included. -/
theorem writeLoop_frame (buf : List Nat) :
    ∀ (fuel : Nat) (s : FSState) (ino : Inode) (fp size written : Nat),
      ((writeLoop s ino fp buf fuel size written).1).inodes = s.inodes ∧
      ((writeLoop s ino fp buf fuel size written).1).oft = s.oft ∧
      ((writeLoop s ino fp buf fuel size written).1).inodeBitmap = s.inodeBitmap
  | 0, s, ino, fp, size, written => by simp [writeLoop]
  | fuel + 1, s, ino, fp, size, written => by
    by_cases h : size ≤ written
    · simp [writeLoop, h]
    · rw [writeLoop]
      rw [if_neg h]
      by_cases hbi : NUM_DIRECT_POINTERS ≤ fp / BLOCK_SIZE
      · rw [if_pos hbi]
        simp
      · rw [if_neg hbi]
        by_cases hcond : ino.dataBlocks.getD (fp / BLOCK_SIZE) (-1) < 0
        · rw [if_pos hcond]
          cases hfi : firstIdx (fun b => !(s.dataBitmap.getD b true)) dataRange with
          | none =>
            simp only [hfi]
            simp
          | some nb =>
            simp only [hfi]
            exact writeLoop_frame buf fuel _ _ _ _ _
        · rw [if_neg hcond]
          exact writeLoop_frame buf fuel _ _ _ _ _

theorem WState_alloc (s : FSState) (ino : Inode) (bi nb : Nat)
    (hW : WState s ino) (hbi : bi < NUM_DIRECT_POINTERS)
    (halloc : firstIdx (fun b => !(s.dataBitmap.getD b true)) dataRange = some nb) :
    WState { s with dataBitmap := s.dataBitmap.set nb true, blocks := s.blocks.set nb zeroBlock }
      { ino with dataBlocks := ino.dataBlocks.set bi ((nb : Int)) } := by
  obtain ⟨hbl, hdbl, hbwf, hdl, hent, hmark, hnd⟩ := hW
  obtain ⟨hnb1, hnb2, hnbfree⟩ := allocScan_some halloc
  have hnblen : nb < s.dataBitmap.length := by omega
  have hbilen : bi < ino.dataBlocks.length := by omega
  refine ⟨by simpa using hbl, by simpa using hdbl,
    blocksWf_set s hbwf nb zeroBlock (by simp [zeroBlock]), by simpa using hdl, ?_, ?_, ?_⟩
  · intro e hmem
    rcases List.mem_or_eq_of_mem_set hmem with h | h
    · exact hent e h
    · subst h
      right
      constructor
      · exact_mod_cast hnb1
      · exact_mod_cast hnb2
  · intro e hmem hpos
    rcases List.mem_or_eq_of_mem_set hmem with h | h
    · by_cases hcase : e.toNat = nb
      · rw [hcase, getD_set_self _ _ _ _ hnblen]
      · rw [getD_set_ne _ _ _ (fun hx => hcase hx.symm)]
        exact hmark e h hpos
    · subst h
      rw [Int.toNat_natCast, getD_set_self _ _ _ _ hnblen]
  · intro j k hj hk hjk hjpos
    rw [List.length_set] at hj hk
    have hgetj := getD_eq_getD_of_set_comm ino.dataBlocks bi ((nb : Int)) j (-1)
    have hgetk := getD_eq_getD_of_set_comm ino.dataBlocks bi ((nb : Int)) k (-1)
    by_cases hjbi : bi = j
    · subst hjbi
      rw [hgetj, if_pos ⟨rfl, hbilen⟩, hgetk, if_neg (by tauto)]
      -- a fresh block differs from every existing entry
      rcases hent _ (getD_mem ino.dataBlocks k (-1) hk) with hneg | ⟨_, _⟩
      · rw [hneg]
        intro hcon
        exact absurd hcon (by
          intro hc
          have : (0 : Int) ≤ -1 := hc ▸ Int.natCast_nonneg nb
          omega)
      · intro hcon
        have hmk := hmark _ (getD_mem ino.dataBlocks k (-1) hk) (by omega)
        have := marked_ne_free hmk hnbfree
        rw [← hcon, Int.toNat_natCast] at this
        exact this rfl
    · rw [hgetj, if_neg (by tauto)]
      by_cases hkbi : bi = k
      · subst hkbi
        rw [hgetk, if_pos ⟨rfl, hbilen⟩]
        rw [hgetj, if_neg (by tauto)] at hjpos
        have hmj := hmark _ (getD_mem ino.dataBlocks j (-1) hj) hjpos
        have := marked_ne_free hmj hnbfree
        intro hcon
        rw [hcon, Int.toNat_natCast] at this
        exact this rfl
      · rw [hgetk, if_neg (by tauto)]
        rw [hgetj, if_neg (by tauto)] at hjpos
        exact hnd j k hj hk hjk hjpos

/-- Main specification of a successful write loop: the final file pointer
advances by the bytes remaining, the raw content is the old content with
the buffer bytes spliced in at the cursor, and all inode-side invariants
are maintained (with the data bitmap only gaining bits). -/
theorem writeLoop_spec (buf : List Nat) :
    ∀ (fuel : Nat) (s : FSState) (ino : Inode) (fp size written : Nat)
      (s' : FSState) (ino' : Inode) (fp' : Nat),
      size - written ≤ fuel →
      size ≤ buf.length →
      fp ≤ NUM_DIRECT_POINTERS * BLOCK_SIZE →
      WState s ino →
      (∀ j, j < NUM_DIRECT_POINTERS → j * BLOCK_SIZE < fp →
        0 ≤ ino.dataBlocks.getD j (-1)) →
      writeLoop s ino fp buf fuel size written = (s', Except.ok (ino', fp')) →
      fp' = fp + (size - written) ∧
      fp' ≤ NUM_DIRECT_POINTERS * BLOCK_SIZE ∧
      rawContent s' ino' = (rawContent s ino).take fp ++
        (buf.drop written).take (size - written) ++
        (rawContent s ino).drop (fp + (size - written)) ∧
      WState s' ino' ∧
      ino'.size = ino.size ∧
      ino'.filename = ino.filename ∧
      (∀ j, j < NUM_DIRECT_POINTERS → j * BLOCK_SIZE < fp' →
        0 ≤ ino'.dataBlocks.getD j (-1)) ∧
      (∀ b, s.dataBitmap.getD b false = true → s'.dataBitmap.getD b false = true)
  | 0, s, ino, fp, size, written, s', ino', fp', hfuel, hbuf, hfple, hW, hcov, heq => by
    have hsw : size - written = 0 := by omega
    rw [writeLoop, Prod.mk.injEq] at heq
    obtain ⟨rfl, heq2⟩ := heq
    rw [Except.ok.injEq, Prod.mk.injEq] at heq2
    obtain ⟨rfl, rfl⟩ := heq2
    refine ⟨by omega, by omega, ?_, hW, rfl, rfl, fun j hj hlt => hcov j hj (by omega),
      fun b hb => hb⟩
    rw [hsw]
    simp
  | fuel + 1, s, ino, fp, size, written, s', ino', fp', hfuel, hbuf, hfple, hW, hcov, heq => by
    by_cases h : size ≤ written
    · have hsw : size - written = 0 := by omega
      rw [writeLoop, if_pos h, Prod.mk.injEq] at heq
      obtain ⟨rfl, heq2⟩ := heq
      rw [Except.ok.injEq, Prod.mk.injEq] at heq2
      obtain ⟨rfl, rfl⟩ := heq2
      refine ⟨by omega, by omega, ?_, hW, rfl, rfl, fun j hj hlt => hcov j hj (by omega),
        fun b hb => hb⟩
      rw [hsw]
      simp
    · have hBS : 0 < BLOCK_SIZE := by decide
      by_cases hbi : NUM_DIRECT_POINTERS ≤ fp / BLOCK_SIZE
      · rw [writeLoop, if_neg h, if_pos hbi, Prod.mk.injEq] at heq
        exact absurd heq.2 (by simp)
      · push_neg at hbi
        set bi := fp / BLOCK_SIZE with hbi_def
        set off := fp % BLOCK_SIZE with hoff_def
        set chunk := min (BLOCK_SIZE - off) (size - written) with hchunk_def
        have hofflt : off < BLOCK_SIZE := Nat.mod_lt _ hBS
        have hchunk1 : 1 ≤ chunk := le_min (by omega) (by omega)
        have hchunkle : chunk ≤ size - written := min_le_right _ _
        have hchunkbs : chunk ≤ BLOCK_SIZE - off := min_le_left _ _
        have hbiBS : bi * BLOCK_SIZE ≤ fp := Nat.div_mul_le_self fp BLOCK_SIZE
        have hfp_eq : fp = bi * BLOCK_SIZE + off := by
          rw [hbi_def, hoff_def]
          conv_lhs => rw [← Nat.div_add_mod fp BLOCK_SIZE]
          rw [Nat.mul_comm]
        have hfp640 : fp < NUM_DIRECT_POINTERS * BLOCK_SIZE := by
          have h1 : bi + 1 ≤ NUM_DIRECT_POINTERS := hbi
          have h2 : (bi + 1) * BLOCK_SIZE ≤ NUM_DIRECT_POINTERS * BLOCK_SIZE :=
            Nat.mul_le_mul_right _ h1
          rw [Nat.succ_mul] at h2
          omega
        -- one unfolded iteration, after resolving the allocation
        have key : ∃ s1 ino1,
            WState s1 ino1 ∧
            rawContent s1 ino1 = rawContent s ino ∧
            (∀ b, s.dataBitmap.getD b false = true →
              s1.dataBitmap.getD b false = true) ∧
            (∀ j, j < NUM_DIRECT_POINTERS → j * BLOCK_SIZE < fp →
              0 ≤ ino1.dataBlocks.getD j (-1)) ∧
            0 ≤ ino1.dataBlocks.getD bi (-1) ∧
            ino1.size = ino.size ∧
            ino1.filename = ino.filename ∧
            writeLoop { s1 with blocks := s1.blocks.set ((ino1.dataBlocks.getD bi (-1)).toNat) (blockWrite (s1.blocks.getD ((ino1.dataBlocks.getD bi (-1)).toNat) zeroBlock) off ((buf.drop written).take chunk)) } ino1 (fp + chunk) buf fuel size (written + chunk) = (s', Except.ok (ino', fp')) := by
          by_cases hcond : ino.dataBlocks.getD bi (-1) < 0
          · cases hfi : firstIdx (fun b => !(s.dataBitmap.getD b true)) dataRange with
            | none =>
              rw [writeLoop, if_neg h, if_neg (not_le.2 hbi)] at heq
              simp only [hfi] at heq
              rw [if_pos hcond] at heq
              simp at heq
            | some nb =>
              obtain ⟨hnb1, hnb2, hnbfree⟩ := allocScan_some hfi
              obtain ⟨hbl, hdbl, hbwf, hdl, hent, hmark, hnd⟩ := hW
              have hbilen : bi < ino.dataBlocks.length := by omega
              refine ⟨{ s with dataBitmap := s.dataBitmap.set nb true, blocks := s.blocks.set nb zeroBlock },
                { ino with dataBlocks := ino.dataBlocks.set bi ((nb : Int)) },
                WState_alloc s ino bi nb ⟨hbl, hdbl, hbwf, hdl, hent, hmark, hnd⟩ hbi hfi,
                rawContent_alloc s ino bi nb hdl hcond hmark hnbfree, ?_, ?_, ?_, rfl, rfl, ?_⟩
              · intro b hb
                by_cases hcase : b = nb
                · subst hcase
                  rw [getD_set_self _ _ _ _ (by omega)]
                · show (s.dataBitmap.set nb true).getD b false = true
                  rw [getD_set_ne _ _ _ (fun hx => hcase hx.symm)]
                  exact hb
              · intro j hj hlt
                show 0 ≤ (ino.dataBlocks.set bi ((nb : Int))).getD j (-1)
                rw [getD_eq_getD_of_set_comm]
                split
                · exact Int.natCast_nonneg nb
                · exact hcov j hj hlt
              · show 0 ≤ (ino.dataBlocks.set bi ((nb : Int))).getD bi (-1)
                rw [getD_set_self _ _ _ _ hbilen]
                exact Int.natCast_nonneg nb
              · rw [writeLoop, if_neg h, if_neg (not_le.2 hbi)] at heq
                simp only [hfi] at heq
                rw [if_pos hcond] at heq
                exact heq
          · refine ⟨s, ino, hW, rfl, fun b hb => hb, hcov, by omega, rfl, rfl, ?_⟩
            rw [writeLoop, if_neg h, if_neg (not_le.2 hbi), if_neg hcond] at heq
            exact heq
        obtain ⟨s1, ino1, hW1, hraw1, hmono1, hcov1, hentry1, hsize1, hname1, heq1⟩ := key
        obtain ⟨hbl1, hdbl1, hbwf1, hdl1, hent1, hmark1, hnd1⟩ := hW1
        have hentry2 : ino1.dataBlocks.getD bi (-1) < (NUM_BLOCKS : Int) := by
          rcases hent1 _ (getD_mem ino1.dataBlocks bi (-1) (by omega)) with hneg | ⟨_, hub⟩
          · omega
          · exact hub
        set data := (buf.drop written).take chunk with hdata_def
        have hdatalen : data.length = chunk := by
          rw [hdata_def, List.length_take, List.length_drop]
          omega
        have holdlen : (s1.blocks.getD ((ino1.dataBlocks.getD bi (-1)).toNat) zeroBlock).length
            = BLOCK_SIZE := getD_blocks_length s1 hbwf1 _
        have hW2 : WState { s1 with blocks := s1.blocks.set ((ino1.dataBlocks.getD bi (-1)).toNat) (blockWrite (s1.blocks.getD ((ino1.dataBlocks.getD bi (-1)).toNat) zeroBlock) off data) } ino1 := by
          refine ⟨by simpa using hbl1, hdbl1, ?_, hdl1, hent1, hmark1, hnd1⟩
          exact blocksWf_set s1 hbwf1 _ _
            (by rw [length_blockWrite _ _ _ (by omega), holdlen])
        have hcov2 : ∀ j, j < NUM_DIRECT_POINTERS → j * BLOCK_SIZE < fp + chunk →
            0 ≤ ino1.dataBlocks.getD j (-1) := by
          intro j hj hlt
          by_cases hjbi : j = bi
          · subst hjbi
            exact hentry1
          · apply hcov1 j hj
            rcases Nat.lt_or_ge j bi with hlt2 | hge
            · have : (j + 1) * BLOCK_SIZE ≤ bi * BLOCK_SIZE :=
                Nat.mul_le_mul_right _ (by omega)
              rw [Nat.succ_mul] at this
              omega
            · exfalso
              have hgt : bi + 1 ≤ j := by omega
              have : (bi + 1) * BLOCK_SIZE ≤ j * BLOCK_SIZE :=
                Nat.mul_le_mul_right _ hgt
              rw [Nat.succ_mul] at this
              omega
        have hstep : fp + chunk ≤ NUM_DIRECT_POINTERS * BLOCK_SIZE := by
          have h1 : (bi + 1) * BLOCK_SIZE ≤ NUM_DIRECT_POINTERS * BLOCK_SIZE :=
            Nat.mul_le_mul_right _ hbi
          rw [Nat.succ_mul] at h1
          omega
        obtain ⟨hfp', hfple', hraw', hW', hsize', hname', hcov', hmono'⟩ :=
          writeLoop_spec buf fuel _ ino1 (fp + chunk) size (written + chunk) s' ino' fp'
            (by omega) hbuf hstep hW2 hcov2 heq1
        have hraw2 := rawContent_set_block s1 ino1 bi off data hbwf1 hbl1 hdl1 hbi
          hentry1 hentry2 hnd1 (by omega)
        rw [hraw1] at hraw2
        have hrawlen : (rawContent s ino).length = NUM_DIRECT_POINTERS * BLOCK_SIZE :=
          length_rawContent s ino hW.2.2.1
        rw [← hfp_eq] at hraw2
        rw [hdatalen] at hraw2
        refine ⟨by omega, by omega, ?_, hW', by omega, by rwa [hname1] at hname',
          hcov', fun b hb => hmono' b (hmono1 b hb)⟩
        set A := (rawContent s ino).take fp with hA_def
        set B := (rawContent s ino).drop (fp + chunk) with hB_def
        have hAlen : A.length = fp := by
          rw [hA_def, List.length_take]
          omega
        have hABlen : (A ++ data).length = fp + chunk := by
          rw [List.length_append, hAlen, hdatalen]
        rw [hraw', hraw2, List.take_left' hABlen]
        rw [List.drop_append_eq_append_drop,
          List.drop_eq_nil_of_le (show (A ++ data).length ≤
            fp + chunk + (size - (written + chunk)) by rw [hABlen]; omega),
          List.nil_append, hABlen,
          show fp + chunk + (size - (written + chunk)) - (fp + chunk) =
            size - (written + chunk) by omega]
        rw [hB_def, List.drop_drop,
          show fp + chunk + (size - (written + chunk)) = fp + (size - written) by omega]
        have hmid : (buf.drop written).take (size - written) =
            data ++ (buf.drop (written + chunk)).take (size - (written + chunk)) := by
          conv_lhs => rw [show size - written = chunk + (size - (written + chunk)) by omega]
          rw [List.take_add, List.drop_drop, hdata_def]
        rw [hmid]
        simp [List.append_assoc]

/-- Flipping one satisfied entry of a duplicate-free list decrements a
`countP` by one. -/
theorem countP_flip (p q : Nat → Bool) : ∀ (l : List Nat), l.Nodup → ∀ x ∈ l,
    p x = true → q x = false → (∀ y ∈ l, y ≠ x → q y = p y) →
    l.countP q + 1 = l.countP p
  | [], _, x, hx, _, _, _ => by simp at hx
  | a :: t, hnd, x, hx, hpx, hqx, hagree => by
    rcases List.mem_cons.1 hx with rfl | hmem
    · rw [List.countP_cons, List.countP_cons, hpx, hqx]
      have ht : ∀ y ∈ t, q y = p y := fun y hy =>
        hagree y (List.mem_cons_of_mem _ hy) (fun hc => (List.nodup_cons.1 hnd).1 (hc ▸ hy))
      rw [List.countP_congr (fun y hy => by rw [ht y hy])]
      simp
    · have hax : a ≠ x := fun hc => (List.nodup_cons.1 hnd).1 (hc ▸ hmem)
      rw [List.countP_cons, List.countP_cons, hagree a (List.mem_cons_self _ _) hax]
      have := countP_flip p q t (List.nodup_cons.1 hnd).2 x hmem hpx hqx
        (fun y hy hne => hagree y (List.mem_cons_of_mem _ hy) hne)
      omega

theorem unallocCount_set (ino : Inode) (bi nb : Nat)
    (hbi : bi < NUM_DIRECT_POINTERS)
    (hlen : ino.dataBlocks.length = NUM_DIRECT_POINTERS)
    (hneg : ino.dataBlocks.getD bi (-1) < 0) :
    unallocCount { ino with dataBlocks := ino.dataBlocks.set bi ((nb : Int)) } + 1 =
      unallocCount ino := by
  apply countP_flip _ _ (List.range NUM_DIRECT_POINTERS) (List.nodup_range _) bi
    (List.mem_range.2 hbi)
  · simpa using hneg
  · show decide ((ino.dataBlocks.set bi ((nb : Int))).getD bi (-1) < 0) = false
    rw [getD_set_self _ _ _ _ (by omega)]
    simp
  · intro y _ hy
    show decide ((ino.dataBlocks.set bi ((nb : Int))).getD y (-1) < 0) = _
    rw [getD_set_ne _ _ _ (fun hc => hy hc.symm)]

theorem freeDataCount_set (s : FSState) (nb : Nat)
    (hnb : DATA_BLOCK_START ≤ nb) (hnb2 : nb < NUM_BLOCKS)
    (hfree : s.dataBitmap.getD nb true = false) :
    freeDataCount { s with dataBitmap := s.dataBitmap.set nb true } + 1 =
      freeDataCount s := by
  apply countP_free_set s.dataBitmap dataRange (List.nodup_range' _ _) nb
    (by rw [dataRange, mem_range'_iff]; omega) hfree

/-- Success/too-big status of the write loop when enough free data blocks
remain to cover every still-unallocated direct-pointer slot. -/
theorem writeLoop_status (buf : List Nat) :
    ∀ (fuel : Nat) (s : FSState) (ino : Inode) (fp size written : Nat),
      size - written ≤ fuel →
      s.dataBitmap.length = NUM_BLOCKS →
      ino.dataBlocks.length = NUM_DIRECT_POINTERS →
      unallocCount ino ≤ freeDataCount s →
      ((fp + (size - written) ≤ NUM_DIRECT_POINTERS * BLOCK_SIZE →
        ∃ s' ino', writeLoop s ino fp buf fuel size written =
          (s', Except.ok (ino', fp + (size - written)))) ∧
       (written < size → NUM_DIRECT_POINTERS * BLOCK_SIZE < fp + (size - written) →
        ∃ s', writeLoop s ino fp buf fuel size written = (s', Except.error E_FILE_TOO_BIG)))
  | 0, s, ino, fp, size, written, hfuel, hdbl, hdl, hfree => by
    constructor
    · intro _
      refine ⟨s, ino, ?_⟩
      rw [writeLoop, show fp + (size - written) = fp by omega]
    · intro hw _
      omega
  | fuel + 1, s, ino, fp, size, written, hfuel, hdbl, hdl, hfree => by
    by_cases h : size ≤ written
    · constructor
      · intro _
        refine ⟨s, ino, ?_⟩
        rw [writeLoop, if_pos h, show fp + (size - written) = fp by omega]
      · intro hw _
        omega
    · have hBS : 0 < BLOCK_SIZE := by decide
      by_cases hbig : NUM_DIRECT_POINTERS ≤ fp / BLOCK_SIZE
      · have hfpbig : NUM_DIRECT_POINTERS * BLOCK_SIZE ≤ fp := by
          calc NUM_DIRECT_POINTERS * BLOCK_SIZE ≤ fp / BLOCK_SIZE * BLOCK_SIZE :=
            Nat.mul_le_mul_right _ hbig
          _ ≤ fp := Nat.div_mul_le_self fp BLOCK_SIZE
        constructor
        · intro hfit
          omega
        · intro _ _
          refine ⟨s, ?_⟩
          rw [writeLoop, if_neg h, if_pos hbig]
      · push_neg at hbig
        set bi := fp / BLOCK_SIZE with hbi_def
        set off := fp % BLOCK_SIZE with hoff_def
        set chunk := min (BLOCK_SIZE - off) (size - written) with hchunk_def
        have hofflt : off < BLOCK_SIZE := Nat.mod_lt _ hBS
        have hchunk1 : 1 ≤ chunk := le_min (by omega) (by omega)
        have hchunkle : chunk ≤ size - written := min_le_right _ _
        have hchunkbs : chunk ≤ BLOCK_SIZE - off := min_le_left _ _
        have hbiBS : bi * BLOCK_SIZE ≤ fp := Nat.div_mul_le_self fp BLOCK_SIZE
        have hfp_eq : fp = bi * BLOCK_SIZE + off := by
          rw [hbi_def, hoff_def]
          conv_lhs => rw [← Nat.div_add_mod fp BLOCK_SIZE]
          rw [Nat.mul_comm]
        have hstep : fp + chunk ≤ NUM_DIRECT_POINTERS * BLOCK_SIZE := by
          have h1 : (bi + 1) * BLOCK_SIZE ≤ NUM_DIRECT_POINTERS * BLOCK_SIZE :=
            Nat.mul_le_mul_right _ hbig
          rw [Nat.succ_mul] at h1
          omega
        have key : ∃ s1 ino1,
            s1.dataBitmap.length = NUM_BLOCKS ∧
            ino1.dataBlocks.length = NUM_DIRECT_POINTERS ∧
            unallocCount ino1 ≤ freeDataCount s1 ∧
            writeLoop s ino fp buf (fuel + 1) size written = writeLoop { s1 with blocks := s1.blocks.set ((ino1.dataBlocks.getD bi (-1)).toNat) (blockWrite (s1.blocks.getD ((ino1.dataBlocks.getD bi (-1)).toNat) zeroBlock) off ((buf.drop written).take chunk)) } ino1 (fp + chunk) buf fuel size (written + chunk) := by
          by_cases hcond : ino.dataBlocks.getD bi (-1) < 0
          · cases hfi : firstIdx (fun b => !(s.dataBitmap.getD b true)) dataRange with
            | none =>
              exfalso
              have hzero : freeDataCount s = 0 :=
                List.countP_eq_zero.2 (fun a ha => by rw [firstIdx_none hfi a ha]; simp)
              have hpos : 0 < unallocCount ino :=
                List.countP_pos.2 ⟨bi, List.mem_range.2 hbig, by simpa using hcond⟩
              omega
            | some nb =>
              obtain ⟨hnb1, hnb2, hnbfree⟩ := allocScan_some hfi
              refine ⟨{ s with dataBitmap := s.dataBitmap.set nb true, blocks := s.blocks.set nb zeroBlock },
                { ino with dataBlocks := ino.dataBlocks.set bi ((nb : Int)) },
                by simpa using hdbl, by simpa using hdl, ?_, ?_⟩
              · have h1 := unallocCount_set ino bi nb hbig hdl hcond
                have h2 : freeDataCount { s with dataBitmap := s.dataBitmap.set nb true, blocks := s.blocks.set nb zeroBlock } + 1 = freeDataCount s :=
                  freeDataCount_set s nb hnb1 hnb2 hnbfree
                omega
              · rw [writeLoop, if_neg h, if_neg (not_le.2 hbig)]
                simp only [hfi]
                rw [if_pos hcond]
          · refine ⟨s, ino, hdbl, hdl, hfree, ?_⟩
            rw [writeLoop, if_neg h, if_neg (not_le.2 hbig), if_neg hcond]
        obtain ⟨s1, ino1, hdbl1, hdl1, hfree1, heqf⟩ := key
        set s2 := { s1 with blocks := s1.blocks.set ((ino1.dataBlocks.getD bi (-1)).toNat) (blockWrite (s1.blocks.getD ((ino1.dataBlocks.getD bi (-1)).toNat) zeroBlock) off ((buf.drop written).take chunk)) } with hs2_def
        obtain ⟨hok, herr⟩ := writeLoop_status buf fuel s2 ino1 (fp + chunk) size
          (written + chunk) (by omega) hdbl1 hdl1 hfree1
        constructor
        · intro hfit
          obtain ⟨s', ino', h'⟩ := hok (by omega)
          refine ⟨s', ino', ?_⟩
          rw [heqf, show fp + (size - written) = fp + chunk + (size - (written + chunk))
            by omega]
          exact h'
        · intro hw hbig2
          obtain ⟨s', h'⟩ := herr (by omega) (by omega)
          refine ⟨s', ?_⟩
          rw [heqf]
          exact h'

/-! ### Reference-count accounting -/

theorem getD_default_irrel {α : Type} (l : List α) (i : Nat) (d d' : α)
    (h : i < l.length) : l.getD i d = l.getD i d' := by
  rw [List.getD_eq_getElem _ _ h, List.getD_eq_getElem _ _ h]

theorem refCountW_split (s : FSState) (i : Nat) (ino : Inode) (b : Nat)
    (hi : i < MAX_FILES) :
    refCountW s i ino b = (if liveAt s i then inodeRefs ino b else 0) +
      ∑ k ∈ (Finset.range MAX_FILES).erase i,
        (if liveAt s k then inodeRefs (inodeAt s k) b else 0) := by
  unfold refCountW
  rw [← Finset.add_sum_erase _ _ (Finset.mem_range.2 hi)]
  congr 1
  · simp
  · apply Finset.sum_congr rfl
    intro k hk
    have hki : k ≠ i := (Finset.mem_erase.1 hk).1
    simp [hki]

theorem refCount_eq_refCountW (s : FSState) (i : Nat) (b : Nat) :
    refCount s b = refCountW s i (inodeAt s i) b := by
  unfold refCount refCountW
  apply Finset.sum_congr rfl
  intro k _
  by_cases hki : k = i
  · subst hki
    simp
  · simp [hki]

theorem inodeRefs_set (ino : Inode) (bi : Nat) (v : Int) (b : Nat)
    (hbi : bi < ino.dataBlocks.length)
    (hold : ino.dataBlocks.getD bi (-1) ≠ ((b : Nat) : Int)) :
    inodeRefs { ino with dataBlocks := ino.dataBlocks.set bi v } b =
      inodeRefs ino b + (if v = ((b : Nat) : Int) then 1 else 0) := by
  unfold inodeRefs
  show (ino.dataBlocks.set bi v).count ((b : Nat) : Int) = _
  have := count_set ino.dataBlocks bi v ((b : Nat) : Int) hbi
  rw [if_neg hold] at this
  omega

theorem refCountW_same (s : FSState) (dbm : List Bool) (blks : List Block)
    (i : Nat) (ino : Inode) (b : Nat) :
    refCountW { s with dataBitmap := dbm, blocks := blks } i ino b =
      refCountW s i ino b := rfl

/-- The write loop preserves the exact reference-count invariant when it
succeeds: every data-bitmap bit keeps counting exactly the references from
live inodes, with the loop's local record standing in for inode `i`. -/
theorem writeLoop_J (buf : List Nat) (i : Nat) (hi : i < MAX_FILES) :
    ∀ (fuel : Nat) (s : FSState) (ino : Inode) (fp size written : Nat)
      (s' : FSState) (ino' : Inode) (fp' : Nat),
      liveAt s i = true →
      s.dataBitmap.length = NUM_BLOCKS →
      ino.dataBlocks.length = NUM_DIRECT_POINTERS →
      (∀ e ∈ ino.dataBlocks, EntryOk e) →
      (∀ b, b < NUM_BLOCKS → refCountW s i ino b =
        if s.dataBitmap.getD b false then 1 else 0) →
      writeLoop s ino fp buf fuel size written = (s', Except.ok (ino', fp')) →
      s'.dataBitmap.length = NUM_BLOCKS ∧
      ino'.dataBlocks.length = NUM_DIRECT_POINTERS ∧
      (∀ e ∈ ino'.dataBlocks, EntryOk e) ∧
      (∀ b, b < NUM_BLOCKS → refCountW s' i ino' b =
        if s'.dataBitmap.getD b false then 1 else 0)
  | 0, s, ino, fp, size, written, s', ino', fp', hlive, hdbl, hdl, hent, hJ, heq => by
    rw [writeLoop, Prod.mk.injEq] at heq
    obtain ⟨rfl, heq2⟩ := heq
    rw [Except.ok.injEq, Prod.mk.injEq] at heq2
    obtain ⟨rfl, rfl⟩ := heq2
    exact ⟨hdbl, hdl, hent, hJ⟩
  | fuel + 1, s, ino, fp, size, written, s', ino', fp', hlive, hdbl, hdl, hent, hJ, heq => by
    by_cases h : size ≤ written
    · rw [writeLoop, if_pos h, Prod.mk.injEq] at heq
      obtain ⟨rfl, heq2⟩ := heq
      rw [Except.ok.injEq, Prod.mk.injEq] at heq2
      obtain ⟨rfl, rfl⟩ := heq2
      exact ⟨hdbl, hdl, hent, hJ⟩
    · by_cases hbig : NUM_DIRECT_POINTERS ≤ fp / BLOCK_SIZE
      · rw [writeLoop, if_neg h, if_pos hbig, Prod.mk.injEq] at heq
        exact absurd heq.2 (by simp)
      · set bi := fp / BLOCK_SIZE with hbi_def
        set off := fp % BLOCK_SIZE with hoff_def
        set chunk := min (BLOCK_SIZE - off) (size - written) with hchunk_def
        push_neg at hbig
        have key : ∃ s1 ino1,
            s1.inodeBitmap = s.inodeBitmap ∧
            s1.inodes = s.inodes ∧
            s1.dataBitmap.length = NUM_BLOCKS ∧
            ino1.dataBlocks.length = NUM_DIRECT_POINTERS ∧
            (∀ e ∈ ino1.dataBlocks, EntryOk e) ∧
            (∀ b, b < NUM_BLOCKS → refCountW s1 i ino1 b =
              if s1.dataBitmap.getD b false then 1 else 0) ∧
            writeLoop s ino fp buf (fuel + 1) size written = writeLoop { s1 with blocks := s1.blocks.set ((ino1.dataBlocks.getD bi (-1)).toNat) (blockWrite (s1.blocks.getD ((ino1.dataBlocks.getD bi (-1)).toNat) zeroBlock) off ((buf.drop written).take chunk)) } ino1 (fp + chunk) buf fuel size (written + chunk) := by
          by_cases hcond : ino.dataBlocks.getD bi (-1) < 0
          · cases hfi : firstIdx (fun b => !(s.dataBitmap.getD b true)) dataRange with
            | none =>
              rw [writeLoop, if_neg h, if_neg (not_le.2 hbig)] at heq
              simp only [hfi] at heq
              rw [if_pos hcond] at heq
              simp at heq
            | some nb =>
              obtain ⟨hnb1, hnb2, hnbfree⟩ := allocScan_some hfi
              have hnblen : nb < s.dataBitmap.length := by omega
              have hbilen : bi < ino.dataBlocks.length := by omega
              have hfree0 : s.dataBitmap.getD nb false = false := by
                rw [getD_default_irrel _ _ _ true hnblen]
                exact hnbfree
              refine ⟨{ s with dataBitmap := s.dataBitmap.set nb true, blocks := s.blocks.set nb zeroBlock },
                { ino with dataBlocks := ino.dataBlocks.set bi ((nb : Int)) },
                rfl, rfl, by simpa using hdbl, by simpa using hdl, ?_, ?_, ?_⟩
              · intro e hmem
                rcases List.mem_or_eq_of_mem_set hmem with hmm | hmm
                · exact hent e hmm
                · subst hmm
                  right
                  exact ⟨by exact_mod_cast hnb1, by exact_mod_cast hnb2⟩
              · intro b hb
                rw [refCountW_same]
                show refCountW s i { ino with dataBlocks := ino.dataBlocks.set bi ((nb : Int)) } b =
                  if (s.dataBitmap.set nb true).getD b false = true then 1 else 0
                have hrefs : inodeRefs { ino with dataBlocks := ino.dataBlocks.set bi ((nb : Int)) } b =
                    inodeRefs ino b + (if ((nb : Nat) : Int) = ((b : Nat) : Int) then 1 else 0) :=
                  inodeRefs_set ino bi ((nb : Int)) b hbilen (by
                    intro hcon
                    rw [hcon] at hcond
                    have := Int.natCast_nonneg b
                    omega)
                have hJb := hJ b hb
                rw [refCountW_split s i ino b hi] at hJb
                rw [refCountW_split s i
                  { ino with dataBlocks := ino.dataBlocks.set bi ((nb : Int)) } b hi, hrefs]
                by_cases hcase : b = nb
                · subst hcase
                  rw [getD_set_self _ _ _ _ hnblen, if_pos rfl, if_pos rfl]
                  rw [hfree0] at hJb
                  rw [hlive] at hJb ⊢
                  simp only [Bool.false_eq_true, if_false, if_true] at hJb ⊢
                  omega
                · rw [getD_set_ne _ _ _ (fun hc => hcase hc.symm)]
                  have hne : ¬(((nb : Nat) : Int) = ((b : Nat) : Int)) :=
                    fun hc => hcase (by exact_mod_cast hc.symm)
                  simp only [hne, if_false, Nat.add_zero]
                  exact hJb
              · rw [writeLoop, if_neg h, if_neg (not_le.2 hbig)]
                simp only [hfi]
                rw [if_pos hcond]
          · refine ⟨s, ino, rfl, rfl, hdbl, hdl, hent, hJ, ?_⟩
            rw [writeLoop, if_neg h, if_neg (not_le.2 hbig), if_neg hcond]
        obtain ⟨s1, ino1, hib1, hin1, hdbl1, hdl1, hent1, hJ1, heqf⟩ := key
        set s2 := { s1 with blocks := s1.blocks.set ((ino1.dataBlocks.getD bi (-1)).toNat) (blockWrite (s1.blocks.getD ((ino1.dataBlocks.getD bi (-1)).toNat) zeroBlock) off ((buf.drop written).take chunk)) } with hs2_def
        rw [heqf] at heq
        have hlive2 : liveAt s2 i = true := by
          rw [hs2_def]
          show s1.inodeBitmap.getD i false = true
          rw [hib1]
          exact hlive
        exact writeLoop_J buf i hi fuel s2 ino1 (fp + chunk) size (written + chunk)
          s' ino' fp' hlive2 hdbl1 hdl1 hent1 hJ1 heq

/-- The write loop only fails with no-space or file-too-big. -/
theorem writeLoop_error (buf : List Nat) :
    ∀ (fuel : Nat) (s : FSState) (ino : Inode) (fp size written : Nat)
      (s1 : FSState) (e : Int),
      writeLoop s ino fp buf fuel size written = (s1, Except.error e) →
      e = E_NO_SPACE ∨ e = E_FILE_TOO_BIG
  | 0, s, ino, fp, size, written, s1, e, heq => by
    rw [writeLoop, Prod.mk.injEq] at heq
    exact absurd heq.2 (by simp)
  | fuel + 1, s, ino, fp, size, written, s1, e, heq => by
    by_cases h : size ≤ written
    · rw [writeLoop, if_pos h, Prod.mk.injEq] at heq
      exact absurd heq.2 (by simp)
    · rw [writeLoop, if_neg h] at heq
      by_cases hbig : NUM_DIRECT_POINTERS ≤ fp / BLOCK_SIZE
      · rw [if_pos hbig, Prod.mk.injEq, Except.error.injEq] at heq
        exact Or.inr heq.2.symm
      · rw [if_neg hbig] at heq
        by_cases hcond : ino.dataBlocks.getD (fp / BLOCK_SIZE) (-1) < 0
        · cases hfi : firstIdx (fun b => !(s.dataBitmap.getD b true)) dataRange with
          | none =>
            simp only [hfi] at heq
            rw [if_pos hcond] at heq
            rw [Prod.mk.injEq, Except.error.injEq] at heq
            exact Or.inl heq.2.symm
          | some nb =>
            simp only [hfi] at heq
            rw [if_pos hcond] at heq
            exact writeLoop_error buf fuel _ _ _ _ _ _ _ heq
        · rw [if_neg hcond] at heq
          exact writeLoop_error buf fuel _ _ _ _ _ _ _ heq

theorem rawContent_eq_of (s s' : FSState) (ino ino' : Inode)
    (hb : s'.blocks = s.blocks) (hd : ino'.dataBlocks = ino.dataBlocks) :
    rawContent s' ino' = rawContent s ino := by
  apply rawAux_congr
  intro j _
  rw [hd]
  unfold blockAt
  rw [hb]

/-- A successful `File_Write` of buffer `w` through a good handle appends
`w` to the file, grows the size by `w.length`, and preserves the handle
discipline, the inode bitmap, every stored filename and the table length. -/
theorem File_Write_ok (s : FSState) (idx i : Nat) (w : List Nat)
    (hG : GoodHandle s idx i)
    (hr : (File_Write s ((idx : Int) + FD_OFFSET) true w ((w.length : Int))).2 =
      ((w.length : Int))) :
    GoodHandle (File_Write s ((idx : Int) + FD_OFFSET) true w ((w.length : Int))).1 idx i ∧
    fileBytes (File_Write s ((idx : Int) + FD_OFFSET) true w ((w.length : Int))).1
        (inodeAt (File_Write s ((idx : Int) + FD_OFFSET) true w ((w.length : Int))).1 i) =
      fileBytes s (inodeAt s i) ++ w ∧
    (inodeAt (File_Write s ((idx : Int) + FD_OFFSET) true w ((w.length : Int))).1 i).size =
      (inodeAt s i).size + w.length ∧
    (File_Write s ((idx : Int) + FD_OFFSET) true w ((w.length : Int))).1.inodeBitmap =
      s.inodeBitmap ∧
    (∀ k, k < MAX_FILES →
      (inodeAt (File_Write s ((idx : Int) + FD_OFFSET) true w ((w.length : Int))).1 k).filename =
        (inodeAt s k).filename) ∧
    (File_Write s ((idx : Int) + FD_OFFSET) true w ((w.length : Int))).1.oft.length =
      s.oft.length := by
  obtain ⟨hSt, hidx, hiMF, hused, hii, hfpeq, hszle, hIno⟩ := hG
  obtain ⟨hbm, hdbm, hinl, hbll, hoftl, hbwf⟩ := hSt
  obtain ⟨hdl, hent, hmark, hnd, hcova⟩ := hIno
  have hfd := fdToIndex_of_slot s idx hidx hused
  have hguard : ¬(((w.length : Int)) < 0 ∨ (true = false)) := by
    push_neg
    exact ⟨Int.natCast_nonneg _, by simp⟩
  unfold File_Write at hr ⊢
  rw [if_neg hguard] at hr ⊢
  rw [hfd] at hr ⊢
  simp only [hii, Int.toNat_natCast] at hr ⊢
  cases hw : writeLoop s (inodeAt s i) ((s.oft.getD idx oftFree).filePointer)
      w w.length w.length 0 with
  | mk s1 res =>
    cases res with
    | error e =>
      exfalso
      rw [hw] at hr
      simp only at hr
      rcases writeLoop_error w w.length s (inodeAt s i)
          ((s.oft.getD idx oftFree).filePointer) w.length 0 s1 e hw with h4 | h8
      · rw [h4] at hr
        have := Int.natCast_nonneg w.length
        rw [← hr] at this
        exact absurd this (by decide)
      · rw [h8] at hr
        have := Int.natCast_nonneg w.length
        rw [← hr] at this
        exact absurd this (by decide)
    | ok pair =>
      obtain ⟨ino1, fp1⟩ := pair
      have hWs : WState s (inodeAt s i) := ⟨hbll, hdbm, hbwf, hdl, hent, hmark, hnd⟩
      have hcov0 : ∀ j, j < NUM_DIRECT_POINTERS →
          j * BLOCK_SIZE < (s.oft.getD idx oftFree).filePointer →
          0 ≤ (inodeAt s i).dataBlocks.getD j (-1) := by
        intro j hj hlt
        rw [hfpeq] at hlt
        exact hcova j hj hlt
      obtain ⟨hfp1, hfple1, hraw1, hW1, hsz1, hnm1, hcov1, hmono1⟩ :=
        writeLoop_spec w w.length s (inodeAt s i) ((s.oft.getD idx oftFree).filePointer)
          w.length 0 s1 ino1 fp1
          (by omega) (le_refl _) (by rw [hfpeq]; exact hszle) hWs hcov0 hw
      obtain ⟨hbl1, hdbl1, hbwf1, hdl1, hent1, hmark1, hnd1⟩ := hW1
      have hframe := writeLoop_frame w w.length s (inodeAt s i)
        ((s.oft.getD idx oftFree).filePointer) w.length 0
      rw [hw] at hframe
      obtain ⟨hfin, hfoft, hfib⟩ := hframe
      simp only at hr ⊢
      set ino2 := if ino1.size < fp1 then { ino1 with size := fp1 } else ino1 with hino2_def
      have hsz2 : ino2.size = fp1 := by
        rw [hino2_def]
        by_cases hc : ino1.size < fp1
        · simp [hc]
        · simp [hc]
          rw [hsz1] at hc ⊢
          omega
      have hdb2 : ino2.dataBlocks = ino1.dataBlocks := by
        rw [hino2_def]
        by_cases hc : ino1.size < fp1 <;> simp [hc]
      have hnm2 : ino2.filename = ino1.filename := by
        rw [hino2_def]
        by_cases hc : ino1.size < fp1 <;> simp [hc]
      have hslen : s1.inodes.length = MAX_FILES := by rw [hfin, hinl]
      have hoft1 : s1.oft.length = OPEN_FILE_TABLE_SIZE := by rw [hfoft, hoftl]
      have hinoAt : ∀ t : List OpenFile, inodeAt { inodeBitmap := s1.inodeBitmap, dataBitmap := s1.dataBitmap, inodes := s1.inodes.set i ino2, blocks := s1.blocks, oft := t } i = ino2 := by
        intro t
        show (s1.inodes.set i ino2).getD i _ = ino2
        exact getD_set_self _ _ _ _ (by omega)
      have hinoAt' : ∀ (t : List OpenFile) k, k ≠ i →
          inodeAt { inodeBitmap := s1.inodeBitmap, dataBitmap := s1.dataBitmap, inodes := s1.inodes.set i ino2, blocks := s1.blocks, oft := t } k = inodeAt s k := by
        intro t k hk
        show (s1.inodes.set i ino2).getD k _ = _
        rw [getD_set_ne _ _ _ (fun hc => hk hc.symm), hfin]
        rfl
      have hrawfin : ∀ t : List OpenFile, rawContent { inodeBitmap := s1.inodeBitmap, dataBitmap := s1.dataBitmap, inodes := s1.inodes.set i ino2, blocks := s1.blocks, oft := t } ino2 = rawContent s1 ino1 := by
        intro t
        exact rawContent_eq_of s1 _ ino1 ino2 rfl hdb2
      have hrawlen : (rawContent s (inodeAt s i)).length =
          NUM_DIRECT_POINTERS * BLOCK_SIZE := length_rawContent s _ hbwf
      have hfple : (s.oft.getD idx oftFree).filePointer ≤
          NUM_DIRECT_POINTERS * BLOCK_SIZE := by
        rw [hfpeq]
        exact hszle
      simp only [List.drop_zero, Nat.sub_zero, List.take_length] at hraw1
      refine ⟨⟨⟨?_, ?_, ?_, ?_, ?_, ?_⟩, hidx, hiMF, ?_, ?_, ?_, ?_, ?_, ?_, ?_, ?_, ?_⟩,
        ?_, ?_, ?_, ?_, ?_⟩
      · show s1.inodeBitmap.length = MAX_FILES
        rw [hfib, hbm]
      · exact hdbl1
      · show (s1.inodes.set i ino2).length = MAX_FILES
        rw [List.length_set, hslen]
      · exact hbl1
      · show (s1.oft.set idx _).length = OPEN_FILE_TABLE_SIZE
        rw [List.length_set, hoft1]
      · exact hbwf1
      · show ((s1.oft.set idx _).getD idx oftFree).used = true
        rw [getD_set_self _ _ _ _ (by omega)]
        exact hused
      · show ((s1.oft.set idx _).getD idx oftFree).inodeIndex = (i : Int)
        rw [getD_set_self _ _ _ _ (by omega)]
      · show ((s1.oft.set idx _).getD idx oftFree).filePointer = _
        rw [getD_set_self _ _ _ _ (by omega), hinoAt _, hsz2]
      · rw [hinoAt _, hsz2]
        exact hfple1
      · rw [hinoAt _, hdb2]
        exact hdl1
      · rw [hinoAt _, hdb2]
        exact hent1
      · rw [hinoAt _, hdb2]
        intro e hmem hpos
        exact hmark1 e hmem hpos
      · rw [hinoAt _, hdb2]
        exact hnd1
      · rw [hinoAt _, hdb2, hsz2]
        exact hcov1
      · rw [hinoAt _]
        unfold fileBytes
        rw [hrawfin _]
        rw [hsz2, hraw1]
        have hAlen : (((rawContent s (inodeAt s i)).take
            ((s.oft.getD idx oftFree).filePointer)) ++ w).length = fp1 := by
          rw [List.length_append, List.length_take]
          omega
        rw [List.take_left' hAlen]
        rw [hfpeq]
      · rw [hinoAt _, hsz2]
        omega
      · show s1.inodeBitmap = s.inodeBitmap
        exact hfib
      · intro k hk
        by_cases hki : k = i
        · subst hki
          rw [hinoAt _, hnm2, hnm1]
        · rw [hinoAt' _ k hki]
      · show (s1.oft.set idx _).length = s.oft.length
        rw [List.length_set, hfoft]

/-! ### Sequences of writes, close and reopen -/

/-- `firstIdx` finds `i` when `i` is the only element of the scan list
satisfying `p`. -/
theorem firstIdx_eq_of_unique {p : Nat → Bool} : ∀ {l : List Nat} {i : Nat},
    i ∈ l → p i = true → (∀ j ∈ l, p j = true → j = i) → firstIdx p l = some i
  | [], i, hi, _, _ => absurd hi (List.not_mem_nil i)
  | x :: rest, i, hi, hp, huniq => by
    by_cases hx : p x
    · have hxi : x = i := huniq x (List.mem_cons_self x rest) hx
      subst hxi
      simp [firstIdx, hx]
    · have hxi : x ≠ i := fun h => hx (h ▸ hp)
      have hi' : i ∈ rest := by
        rcases List.mem_cons.1 hi with h | h
        · exact absurd h.symm hxi
        · exact h
      simp only [firstIdx, hx, if_false]
      exact firstIdx_eq_of_unique hi' hp
        (fun j hj hpj => huniq j (List.mem_cons_of_mem x hj) hpj)

/-- `lookupFile` resolves a name to the unique live inode carrying it. -/
theorem lookupFile_eq (s : FSState) (i : Nat) (name : List Nat)
    (hi : i < MAX_FILES) (hlive : liveAt s i = true)
    (hnm : (inodeAt s i).filename = name)
    (hU : ∀ j, j < MAX_FILES → j ≠ i → liveAt s j = true →
      (inodeAt s j).filename ≠ name) :
    lookupFile s name = (i : Int) := by
  unfold lookupFile
  have hp : (s.inodeBitmap.getD i false &&
      decide ((inodeAt s i).filename = name)) = true := by
    unfold liveAt at hlive
    rw [hlive, hnm]
    simp
  have huniq : ∀ j ∈ List.range MAX_FILES,
      (s.inodeBitmap.getD j false &&
        decide ((inodeAt s j).filename = name)) = true → j = i := by
    intro j hj hpj
    by_contra hne
    simp only [Bool.and_eq_true, decide_eq_true_eq] at hpj
    exact hU j (List.mem_range.1 hj) hne hpj.1 hpj.2
  rw [firstIdx_eq_of_unique (List.mem_range.2 hi) hp huniq]

/-- A successful `File_Open`: when the name resolves to inode `i` and some
slot is free, a free slot `k` is claimed with cursor `0` and
`k + FD_OFFSET` is returned. -/
theorem File_Open_spec (s : FSState) (i : Nat) (name : List Nat)
    (hlk : lookupFile s name = (i : Int))
    (k0 : Nat) (hk0 : k0 < OPEN_FILE_TABLE_SIZE)
    (hfree : (s.oft.getD k0 oftFree).used = false) :
    ∃ k, k < OPEN_FILE_TABLE_SIZE ∧ (s.oft.getD k oftFree).used = false ∧
      File_Open s name =
        ({ s with oft := s.oft.set k ⟨true, (i : Int), 0⟩ }, (k : Int) + FD_OFFSET) := by
  have hcount : (List.range OPEN_FILE_TABLE_SIZE).countP
      (fun k => !(s.oft.getD k oftFree).used) ≠ 0 := by
    have h1 : 0 < (List.range OPEN_FILE_TABLE_SIZE).countP
        (fun k => !(s.oft.getD k oftFree).used) :=
      List.countP_pos_iff.2 ⟨k0, List.mem_range.2 hk0, by rw [hfree]; rfl⟩
    omega
  obtain ⟨k, hk⟩ := firstIdx_isSome hcount
  obtain ⟨hpk, hkmem⟩ := firstIdx_some hk
  refine ⟨k, List.mem_range.1 hkmem, by simpa using hpk, ?_⟩
  unfold File_Open
  rw [hlk]
  rw [if_neg (not_lt.2 (Int.natCast_nonneg i))]
  rw [hk]

/-- A sequence of successful writes through one good handle appends the
concatenation of the buffers, grows the size accordingly, and preserves the
handle discipline, the inode bitmap, all filenames and the table length. -/
theorem writeSeq_ok (idx i : Nat) : ∀ (ws : List (List Nat)) (s : FSState),
    GoodHandle s idx i →
    writesOk s ((idx : Int) + FD_OFFSET) ws →
    GoodHandle (writeSeq s ((idx : Int) + FD_OFFSET) ws) idx i ∧
    fileBytes (writeSeq s ((idx : Int) + FD_OFFSET) ws)
        (inodeAt (writeSeq s ((idx : Int) + FD_OFFSET) ws) i) =
      fileBytes s (inodeAt s i) ++ ws.flatten ∧
    (inodeAt (writeSeq s ((idx : Int) + FD_OFFSET) ws) i).size =
      (inodeAt s i).size + ws.flatten.length ∧
    (writeSeq s ((idx : Int) + FD_OFFSET) ws).inodeBitmap = s.inodeBitmap ∧
    (∀ k, k < MAX_FILES →
      (inodeAt (writeSeq s ((idx : Int) + FD_OFFSET) ws) k).filename =
        (inodeAt s k).filename) ∧
    (writeSeq s ((idx : Int) + FD_OFFSET) ws).oft.length = s.oft.length
  | [], s, hG, _ => by
    refine ⟨hG, by simp [writeSeq], by simp [writeSeq], by simp [writeSeq],
      fun k _ => by simp [writeSeq], by simp [writeSeq]⟩
  | w :: ws, s, hG, hok => by
    obtain ⟨hr, hrest⟩ := hok
    obtain ⟨hG1, hfb, hsz, hbm, hnm, hoft⟩ := File_Write_ok s idx i w hG hr
    obtain ⟨hG2, hfb2, hsz2, hbm2, hnm2, hoft2⟩ := writeSeq_ok idx i ws _ hG1 hrest
    simp only [writeSeq]
    refine ⟨hG2, ?_, ?_, ?_, ?_, ?_⟩
    · rw [hfb2, hfb, List.flatten_cons, List.append_assoc]
    · rw [hsz2, hsz, List.flatten_cons, List.length_append]
      omega
    · rw [hbm2, hbm]
    · exact fun k hk => (hnm2 k hk).trans (hnm k hk)
    · rw [hoft2, hoft]

/-- **C1.** For every sequence of successful `File_Write` calls made
through a single open handle on an initially empty live file (single
writer, no interleaved operations), closing the file, reopening it by
name, and calling `File_Read` for at least `inode.size` bytes returns
exactly the byte sequence obtained by concatenating the written buffers in
call order. -/
theorem C1_write_sequence_read_back (s : FSState) (idx i : Nat)
    (name : List Nat) (ws : List (List Nat)) (n : Int)
    (hG : GoodHandle s idx i)
    (hsz0 : (inodeAt s i).size = 0)
    (hlive : liveAt s i = true)
    (hnm : (inodeAt s i).filename = name)
    (hU : UniqNames s)
    (hok : writesOk s ((idx : Int) + FD_OFFSET) ws)
    (hn : ((ws.flatten.length : Nat) : Int) ≤ n) :
    (File_Read
        (File_Open
          (File_Close (writeSeq s ((idx : Int) + FD_OFFSET) ws)
            ((idx : Int) + FD_OFFSET)).1 name).1
        (File_Open
          (File_Close (writeSeq s ((idx : Int) + FD_OFFSET) ws)
            ((idx : Int) + FD_OFFSET)).1 name).2
        true n).2.2 = ws.flatten := by
  obtain ⟨hG1, hfb1, hsz1, hbm1, hnm1, hoftl1⟩ := writeSeq_ok idx i ws s hG hok
  set s1 := writeSeq s ((idx : Int) + FD_OFFSET) ws with hs1
  obtain ⟨hSt1, hidx, hiMF, hused1, hii1, hfp1, hszle1, hIno1⟩ := hG1
  obtain ⟨hbml1, hdbm1, hinl1, hbll1, hoftl1', hbwf1⟩ := hSt1
  obtain ⟨hdl1, hent1, hmark1, hnd1, hcov1⟩ := hIno1
  have hfb0 : fileBytes s (inodeAt s i) = [] := by
    unfold fileBytes
    rw [hsz0]
    exact List.take_zero _
  rw [hfb0, List.nil_append] at hfb1
  rw [hsz0, Nat.zero_add] at hsz1
  have hfd1 : fdToIndex s1 ((idx : Int) + FD_OFFSET) = some idx :=
    fdToIndex_of_slot s1 idx hidx hused1
  set s2 : FSState := { s1 with oft := s1.oft.set idx oftFree } with hs2
  have hclose1 : (File_Close s1 ((idx : Int) + FD_OFFSET)).1 = s2 := by
    unfold File_Close
    rw [hfd1]
  have hlive2 : liveAt s2 i = true := by
    show s1.inodeBitmap.getD i false = true
    rw [hbm1]
    exact hlive
  have hnm2 : (inodeAt s2 i).filename = name := by
    show (inodeAt s1 i).filename = name
    rw [hnm1 i hiMF, hnm]
  have hUs2 : ∀ j, j < MAX_FILES → j ≠ i → liveAt s2 j = true →
      (inodeAt s2 j).filename ≠ name := by
    intro j hj hne hlj
    show (inodeAt s1 j).filename ≠ name
    rw [hnm1 j hj, ← hnm]
    have hlj' : liveAt s j = true := by
      have h : liveAt s2 j = s.inodeBitmap.getD j false := by
        show s1.inodeBitmap.getD j false = _
        rw [hbm1]
      rw [h] at hlj
      exact hlj
    exact hU j i hj hiMF hne hlj' hlive
  have hlk : lookupFile s2 name = (i : Int) :=
    lookupFile_eq s2 i name hiMF hlive2 hnm2 hUs2
  have hfree2 : (s2.oft.getD idx oftFree).used = false := by
    show ((s1.oft.set idx oftFree).getD idx oftFree).used = false
    rw [getD_set_self _ _ _ _ (by rw [hoftl1']; exact hidx)]
    rfl
  have hoftl2 : s2.oft.length = OPEN_FILE_TABLE_SIZE := by
    show (s1.oft.set idx oftFree).length = _
    rw [List.length_set, hoftl1']
  obtain ⟨k, hk, hkfree, hopen⟩ := File_Open_spec s2 i name hlk idx hidx hfree2
  set s3 : FSState := { s2 with oft := s2.oft.set k ⟨true, (i : Int), 0⟩ } with hs3
  have hopen1 : (File_Open s2 name).1 = s3 := by rw [hopen]
  have hopen2 : (File_Open s2 name).2 = (k : Int) + FD_OFFSET := by rw [hopen]
  rw [hclose1, hopen1, hopen2]
  have hused3 : (s3.oft.getD k oftFree).used = true := by
    show ((s2.oft.set k _).getD k oftFree).used = true
    rw [getD_set_self _ _ _ _ (by rw [hoftl2]; exact hk)]
  have hii3 : (s3.oft.getD k oftFree).inodeIndex = (i : Int) := by
    show ((s2.oft.set k _).getD k oftFree).inodeIndex = (i : Int)
    rw [getD_set_self _ _ _ _ (by rw [hoftl2]; exact hk)]
  have hfp3 : (s3.oft.getD k oftFree).filePointer = 0 := by
    show ((s2.oft.set k _).getD k oftFree).filePointer = 0
    rw [getD_set_self _ _ _ _ (by rw [hoftl2]; exact hk)]
  have hsz3 : (inodeAt s3 i).size = ws.flatten.length := by
    show (inodeAt s1 i).size = _
    exact hsz1
  have hn0 : (0 : Int) ≤ n := le_trans (Int.natCast_nonneg _) hn
  rcases Nat.eq_zero_or_pos ws.flatten.length with h0 | hpos
  · have hflat : ws.flatten = [] := List.eq_nil_of_length_eq_zero h0
    have heof := File_Read_eof s3 k i n hk hused3 hii3 hn0
      (by rw [hfp3, hsz3, h0])
    rw [heof, hflat]
  · have hb3 : ∀ blk ∈ s3.blocks, blk.length = BLOCK_SIZE := hbwf1
    have hdlen3 : (inodeAt s3 i).dataBlocks.length = NUM_DIRECT_POINTERS := hdl1
    have hcov3 : ∀ j, j * BLOCK_SIZE < (inodeAt s3 i).size →
        0 ≤ (inodeAt s3 i).dataBlocks.getD j (-1) := by
      intro j hlt
      rw [hsz3] at hlt
      have hj5 : j < NUM_DIRECT_POINTERS := by
        by_contra hge
        have h5 : NUM_DIRECT_POINTERS * BLOCK_SIZE ≤ j * BLOCK_SIZE :=
          Nat.mul_le_mul_right _ (by omega)
        rw [hsz1] at hszle1
        omega
      exact hcov1 j hj5 (by rw [hsz1]; exact hlt)
    have hfplt : (s3.oft.getD k oftFree).filePointer < (inodeAt s3 i).size := by
      rw [hfp3, hsz3]
      exact hpos
    have hread := File_Read_ok s3 k i n hk hused3 hii3 hb3 hdlen3 hn0 hcov3 hfplt
    rw [hread]
    show ((fileBytes s3 (inodeAt s3 i)).drop (s3.oft.getD k oftFree).filePointer).take
        (min n.toNat ((inodeAt s3 i).size - (s3.oft.getD k oftFree).filePointer)) =
      ws.flatten
    have hfb3 : fileBytes s3 (inodeAt s3 i) = ws.flatten := by
      show fileBytes s3 (inodeAt s1 i) = ws.flatten
      unfold fileBytes
      rw [rawContent_eq_of s1 s3 (inodeAt s1 i) (inodeAt s1 i) rfl rfl]
      exact hfb1
    rw [hfp3, hsz3, hfb3, List.drop_zero, Nat.sub_zero]
    rw [min_eq_right (by omega)]
    exact List.take_length ws.flatten

/-- A pointer list with no allocated entry trivially has no duplicate
allocated entries. -/
theorem entriesNodup_of_neg (l : List Int) (h : ∀ e ∈ l, e < 0) :
    EntriesNodup l := by
  intro j k hj _ _ hpos
  have hmem := getD_mem l j (-1) hj
  have := h _ hmem
  omega

/-- Filename uniqueness holds when at most the single inode `i0` is live. -/
theorem uniqNames_single (s : FSState) (i0 : Nat)
    (h : ∀ j, j < MAX_FILES → liveAt s j = true → j = i0) : UniqNames s := by
  intro i j hi hj hne hli hlj
  have h1 := h i hi hli
  have h2 := h j hj hlj
  omega

set_option maxRecDepth 4000 in
/-- Concrete round trip: create and open `"a"`, write `[1, 2]` then `[3]`,
close, reopen, read 5 bytes back. -/
theorem C1_write_sequence_read_back_witness :
    (File_Read
        (File_Open
          (File_Close
            (writeSeq (File_Open (File_Create boot0 [97]).1 [97]).1
              (((0 : Nat) : Int) + FD_OFFSET) [[1, 2], [3]])
            (((0 : Nat) : Int) + FD_OFFSET)).1 [97]).1
        (File_Open
          (File_Close
            (writeSeq (File_Open (File_Create boot0 [97]).1 [97]).1
              (((0 : Nat) : Int) + FD_OFFSET) [[1, 2], [3]])
            (((0 : Nat) : Int) + FD_OFFSET)).1 [97]).2
        true 5).2.2 = [[1, 2], [3]].flatten :=
  C1_write_sequence_read_back (File_Open (File_Create boot0 [97]).1 [97]).1 0 0 [97]
    [[1, 2], [3]] 5
    ⟨⟨by decide, by decide, by decide, by decide, by decide, by decide⟩,
      by decide, by decide, by decide, by decide, by decide, by decide,
      by decide, by decide, by decide,
      entriesNodup_of_neg _ (by decide), by decide⟩
    (by decide) (by decide) (by decide)
    (uniqNames_single _ 0 (by decide))
    ⟨by decide, by decide, trivial⟩
    (by decide)

/-! ### Claims C5, C8, C9, C10 -/

/-- **C5 (counterexample).** With a null buffer, `File_Write` on a
descriptor that resolves to no used slot returns 0 rather than the
bad-descriptor error: the code checks the buffer and size before resolving
the descriptor. -/
theorem C5_counterexample :
    fdToIndex boot0 999 = none ∧
    (File_Write boot0 999 false [] 5).2 = 0 ∧
    (File_Write boot0 999 false [] 5).2 ≠ E_BAD_FD := by decide

/-- **C5 (amended).** `File_Write` checks the buffer and size first: a null
buffer or negative size makes it return 0 with the state unchanged, for
every descriptor; only when that guard passes does a descriptor that
resolves to no used slot produce the bad-descriptor error. -/
theorem C5_guard_before_fd (s : FSState) (fd : Int) (bufOk : Bool)
    (buf : List Nat) (size : Int) :
    (size < 0 ∨ bufOk = false → File_Write s fd bufOk buf size = (s, 0)) ∧
    (¬(size < 0 ∨ bufOk = false) → fdToIndex s fd = none →
      File_Write s fd bufOk buf size = (s, E_BAD_FD)) := by
  constructor
  · intro h
    unfold File_Write
    rw [if_pos h]
  · intro h hfd
    unfold File_Write
    rw [if_neg h, hfd]

/-- Concrete instances of both branches of the amended C5 statement. -/
theorem C5_guard_before_fd_witness :
    File_Write boot0 999 false [] 5 = (boot0, 0) ∧
    File_Write boot0 999 true [1] 1 = (boot0, E_BAD_FD) :=
  ⟨(C5_guard_before_fd boot0 999 false [] 5).1 (Or.inr rfl),
   (C5_guard_before_fd boot0 999 true [1] 1).2 (by decide) (by decide)⟩

/-- **C8.** `FS_Boot`: a successful load whose block 0 starts with the
magic number rehydrates both bitmaps from blocks 1 and 2, decodes the inode
table, resets every open-file-table slot and returns 0; a successful load
with a wrong magic number returns the disk-error code; a failed load
formats a fresh image (magic superblock, clear bitmaps, zeroed inode table
and data blocks), saves it, and returns 0. -/
theorem C8_boot (s : FSState) (blks : List Block) (saveOk : Bool) :
    (word32At (blks.getD 0 zeroBlock) 0 = MAGIC_NUMBER →
      FS_Boot s (some blks) saveOk =
        ({ inodeBitmap := decodeBitmap (blks.getD 1 zeroBlock) MAX_FILES,
           dataBitmap := decodeBitmap (blks.getD 2 zeroBlock) NUM_BLOCKS,
           inodes := decodeInodes blks,
           blocks := blks,
           oft := List.replicate OPEN_FILE_TABLE_SIZE oftFree }, 0)) ∧
    (word32At (blks.getD 0 zeroBlock) 0 ≠ MAGIC_NUMBER →
      (FS_Boot s (some blks) saveOk).2 = E_DISK_ERROR) ∧
    FS_Boot s none true = (freshState, 0) ∧
    word32At (freshState.blocks.getD 0 zeroBlock) 0 = MAGIC_NUMBER := by
  refine ⟨?_, ?_, rfl, by decide⟩
  · intro h
    unfold FS_Boot
    dsimp only
    rw [if_neg (not_not_intro h)]
  · intro h
    unfold FS_Boot
    dsimp only
    rw [if_pos h]

/-- Booting a freshly formatted image loads it back; an all-zero image is
rejected with the disk-error code. -/
theorem C8_boot_witness :
    (FS_Boot freshState (some freshBlocks) true).2 = 0 ∧
    (FS_Boot freshState (some (List.replicate NUM_BLOCKS zeroBlock)) true).2 =
      E_DISK_ERROR := by
  constructor
  · rw [(C8_boot freshState freshBlocks true).1 (by decide)]
  · exact (C8_boot freshState (List.replicate NUM_BLOCKS zeroBlock) true).2.1 (by decide)

/-- `File_Read` modifies at most the `filePointer` of the addressed
open-file slot (shared between the frame claim and the invariant proofs). -/
theorem File_Read_frame (s : FSState) (fd : Int) (bufOk : Bool) (size : Int) :
    (File_Read s fd bufOk size).1.blocks = s.blocks ∧
    (File_Read s fd bufOk size).1.inodeBitmap = s.inodeBitmap ∧
    (File_Read s fd bufOk size).1.dataBitmap = s.dataBitmap ∧
    (File_Read s fd bufOk size).1.inodes = s.inodes ∧
    (File_Read s fd bufOk size).1.oft.length = s.oft.length ∧
    (∀ j, fdToIndex s fd ≠ some j →
      (File_Read s fd bufOk size).1.oft.getD j oftFree = s.oft.getD j oftFree) ∧
    (∀ j, fdToIndex s fd = some j →
      ((File_Read s fd bufOk size).1.oft.getD j oftFree).used =
        (s.oft.getD j oftFree).used ∧
      ((File_Read s fd bufOk size).1.oft.getD j oftFree).inodeIndex =
        (s.oft.getD j oftFree).inodeIndex) := by
  unfold File_Read
  by_cases hg : size < 0 ∨ bufOk = false
  · rw [if_pos hg]
    exact ⟨rfl, rfl, rfl, rfl, rfl, fun j _ => rfl, fun j _ => ⟨rfl, rfl⟩⟩
  · rw [if_neg hg]
    cases hfd : fdToIndex s fd with
    | none =>
      exact ⟨rfl, rfl, rfl, rfl, rfl, fun j _ => rfl, fun j h => by cases h⟩
    | some idx =>
      dsimp only
      by_cases heof : (inodeAt s (s.oft.getD idx oftFree).inodeIndex.toNat).size ≤
          (s.oft.getD idx oftFree).filePointer
      · rw [if_pos heof]
        exact ⟨rfl, rfl, rfl, rfl, rfl, fun j _ => rfl, fun j _ => ⟨rfl, rfl⟩⟩
      · rw [if_neg heof]
        cases hrl : readLoop s (inodeAt s (s.oft.getD idx oftFree).inodeIndex.toNat)
            (min size.toNat
              ((inodeAt s (s.oft.getD idx oftFree).inodeIndex.toNat).size -
                (s.oft.getD idx oftFree).filePointer))
            (s.oft.getD idx oftFree).filePointer
            (min size.toNat
              ((inodeAt s (s.oft.getD idx oftFree).inodeIndex.toNat).size -
                (s.oft.getD idx oftFree).filePointer)) [] with
        | mk fp1 data =>
          refine ⟨rfl, rfl, rfl, rfl, List.length_set _ _ _, ?_, ?_⟩
          · intro j hj
            have hne : idx ≠ j := fun he => hj (he ▸ rfl)
            show (s.oft.set idx _).getD j oftFree = s.oft.getD j oftFree
            rw [getD_set_ne _ _ _ hne]
          · intro j hj
            have hje : j = idx := by
              injection hj with h
              exact h.symm
            subst hje
            rcases Nat.lt_or_ge j s.oft.length with hlt | hge
            · constructor
              · show ((s.oft.set j _).getD j oftFree).used = _
                rw [getD_set_self _ _ _ _ hlt]
              · show ((s.oft.set j _).getD j oftFree).inodeIndex = _
                rw [getD_set_self _ _ _ _ hlt]
            · constructor
              · show ((s.oft.set j _).getD j oftFree).used = _
                rw [List.set_eq_of_length_le hge]
              · show ((s.oft.set j _).getD j oftFree).inodeIndex = _
                rw [List.set_eq_of_length_le hge]

/-- **C9.** `File_Read` modifies at most the `filePointer` of the open-file
slot the descriptor resolves to: blocks, both bitmaps, the inode table, the
table length and every other slot are unchanged, and even the addressed
slot keeps its `used` flag and inode index, for every descriptor, buffer
and size, error and zero-return cases included. -/
theorem C9_read_frame (s : FSState) (fd : Int) (bufOk : Bool) (size : Int) :
    (File_Read s fd bufOk size).1.blocks = s.blocks ∧
    (File_Read s fd bufOk size).1.inodeBitmap = s.inodeBitmap ∧
    (File_Read s fd bufOk size).1.dataBitmap = s.dataBitmap ∧
    (File_Read s fd bufOk size).1.inodes = s.inodes ∧
    (File_Read s fd bufOk size).1.oft.length = s.oft.length ∧
    (∀ j, fdToIndex s fd ≠ some j →
      (File_Read s fd bufOk size).1.oft.getD j oftFree = s.oft.getD j oftFree) ∧
    (∀ j, fdToIndex s fd = some j →
      ((File_Read s fd bufOk size).1.oft.getD j oftFree).used =
        (s.oft.getD j oftFree).used ∧
      ((File_Read s fd bufOk size).1.oft.getD j oftFree).inodeIndex =
        (s.oft.getD j oftFree).inodeIndex) :=
  File_Read_frame s fd bufOk size

/-- **C10.** Whenever `File_Write` returns one of its error codes (bad-fd,
no-space, file-too-big), the whole open-file table — hence the addressed
slot's cursor — the whole inode table — hence the on-disk record's
filename, size and `dataBlocks` — and the inode bitmap are exactly as they
were before the call, although data blocks and data-bitmap bits may have
changed during the failed call. -/
theorem C10_write_error_frame (s : FSState) (fd : Int) (bufOk : Bool)
    (buf : List Nat) (size : Int)
    (herr : (File_Write s fd bufOk buf size).2 = E_BAD_FD ∨
      (File_Write s fd bufOk buf size).2 = E_NO_SPACE ∨
      (File_Write s fd bufOk buf size).2 = E_FILE_TOO_BIG) :
    (File_Write s fd bufOk buf size).1.oft = s.oft ∧
    (File_Write s fd bufOk buf size).1.inodes = s.inodes ∧
    (File_Write s fd bufOk buf size).1.inodeBitmap = s.inodeBitmap := by
  unfold File_Write at herr ⊢
  by_cases hg : size < 0 ∨ bufOk = false
  · rw [if_pos hg] at herr
    rcases herr with h | h | h <;>
      simp [E_BAD_FD, E_NO_SPACE, E_FILE_TOO_BIG] at h
  · rw [if_neg hg] at herr ⊢
    cases hfd : fdToIndex s fd with
    | none =>
      exact ⟨rfl, rfl, rfl⟩
    | some idx =>
      rw [hfd] at herr
      dsimp only at herr ⊢
      have hframe := writeLoop_frame buf size.toNat s
        (inodeAt s (s.oft.getD idx oftFree).inodeIndex.toNat)
        ((s.oft.getD idx oftFree).filePointer) size.toNat 0
      cases hw : writeLoop s (inodeAt s (s.oft.getD idx oftFree).inodeIndex.toNat)
          ((s.oft.getD idx oftFree).filePointer) buf size.toNat size.toNat 0 with
      | mk s1 res =>
        rw [hw] at herr hframe
        cases res with
        | error e =>
          exact ⟨hframe.2.1, hframe.1, hframe.2.2⟩
        | ok pair =>
          obtain ⟨ino1, fp1⟩ := pair
          simp only at herr
          have hnn := Int.natCast_nonneg size.toNat
          rcases herr with h | h | h <;> rw [h] at hnn <;> exact absurd hnn (by decide)

/-- A failed write (bad descriptor) leaves the open-file and inode tables
and the inode bitmap unchanged. -/
theorem C10_write_error_frame_witness :
    (File_Write boot0 999 true [1] 1).1.oft = boot0.oft ∧
    (File_Write boot0 999 true [1] 1).1.inodes = boot0.inodes ∧
    (File_Write boot0 999 true [1] 1).1.inodeBitmap = boot0.inodeBitmap :=
  C10_write_error_frame boot0 999 true [1] 1 (Or.inl (by decide))

/-- **C4.** Through a valid descriptor with cursor 0 and enough free data
blocks, a single `File_Write` of strictly more than
`NUM_DIRECT_POINTERS * BLOCK_SIZE` bytes returns the file-too-big error,
and one of exactly `NUM_DIRECT_POINTERS * BLOCK_SIZE` bytes succeeds and
returns that count. -/
theorem C4_too_big_boundary (s : FSState) (idx i : Nat) (buf : List Nat)
    (size : Int)
    (hidx : idx < OPEN_FILE_TABLE_SIZE)
    (hused : (s.oft.getD idx oftFree).used = true)
    (hii : (s.oft.getD idx oftFree).inodeIndex = (i : Int))
    (hfp : (s.oft.getD idx oftFree).filePointer = 0)
    (hdbl : s.dataBitmap.length = NUM_BLOCKS)
    (hdl : (inodeAt s i).dataBlocks.length = NUM_DIRECT_POINTERS)
    (hfree : unallocCount (inodeAt s i) ≤ freeDataCount s) :
    ((NUM_DIRECT_POINTERS * BLOCK_SIZE : Nat) < size.toNat →
      (File_Write s ((idx : Int) + FD_OFFSET) true buf size).2 = E_FILE_TOO_BIG) ∧
    (size = ((NUM_DIRECT_POINTERS * BLOCK_SIZE : Nat) : Int) →
      (File_Write s ((idx : Int) + FD_OFFSET) true buf size).2 = size) := by
  constructor
  · intro hbig
    have hn0 : ¬(size < 0 ∨ (true = false)) := by
      push_neg
      refine ⟨?_, by simp⟩
      omega
    unfold File_Write
    rw [if_neg hn0, fdToIndex_of_slot s idx hidx hused]
    simp only [hii, Int.toNat_natCast]
    rw [hfp]
    obtain ⟨-, hbig2⟩ := writeLoop_status buf size.toNat s (inodeAt s i) 0
      size.toNat 0 (by omega) hdbl hdl hfree
    obtain ⟨s', heq⟩ := hbig2 (by omega) (by omega)
    rw [heq]
  · intro hsz
    subst hsz
    have hn0 : ¬(((NUM_DIRECT_POINTERS * BLOCK_SIZE : Nat) : Int) < 0 ∨
        (true = false)) := by
      push_neg
      exact ⟨Int.natCast_nonneg _, by simp⟩
    unfold File_Write
    rw [if_neg hn0, fdToIndex_of_slot s idx hidx hused]
    simp only [hii, Int.toNat_natCast]
    rw [hfp]
    obtain ⟨hok, -⟩ := writeLoop_status buf (NUM_DIRECT_POINTERS * BLOCK_SIZE) s
      (inodeAt s i) 0 (NUM_DIRECT_POINTERS * BLOCK_SIZE) 0 (by omega) hdbl hdl hfree
    obtain ⟨s', ino', heq⟩ := hok (by omega)
    rw [heq]

set_option maxRecDepth 4000 in
/-- Boundary instances on a freshly created and opened file: writing 641
bytes is refused as too big, writing exactly 640 returns 640. -/
theorem C4_too_big_boundary_witness :
    (File_Write (File_Open (File_Create boot0 [97]).1 [97]).1
        (((0 : Nat) : Int) + FD_OFFSET) true [] 641).2 = E_FILE_TOO_BIG ∧
    (File_Write (File_Open (File_Create boot0 [97]).1 [97]).1
        (((0 : Nat) : Int) + FD_OFFSET) true [] 640).2 =
      ((NUM_DIRECT_POINTERS * BLOCK_SIZE : Nat) : Int) :=
  ⟨(C4_too_big_boundary (File_Open (File_Create boot0 [97]).1 [97]).1 0 0 [] 641
      (by decide) (by decide) (by decide) (by decide) (by decide) (by decide)
      (by decide)).1 (by decide),
   (C4_too_big_boundary (File_Open (File_Create boot0 [97]).1 [97]).1 0 0 []
      ((NUM_DIRECT_POINTERS * BLOCK_SIZE : Nat) : Int)
      (by decide) (by decide) (by decide) (by decide) (by decide) (by decide)
      (by decide)).2 rfl⟩

/-- **C6.** `File_Read` through a valid descriptor with a non-null buffer,
a nonnegative size, and an inode whose blocks covering `[0, size)` are all
allocated: a cursor at or past `inode.size` returns 0 and changes nothing;
otherwise the call returns exactly `min(size, inode.size - cursor)`, hands
back that many bytes of the file contents starting at the cursor, and
advances only the cursor by that amount. -/
theorem C6_read_correct (s : FSState) (idx i : Nat) (n : Int)
    (hidx : idx < OPEN_FILE_TABLE_SIZE)
    (hused : (s.oft.getD idx oftFree).used = true)
    (hii : (s.oft.getD idx oftFree).inodeIndex = (i : Int))
    (hb : ∀ blk ∈ s.blocks, blk.length = BLOCK_SIZE)
    (hdlen : (inodeAt s i).dataBlocks.length = NUM_DIRECT_POINTERS)
    (hn : 0 ≤ n)
    (hcov : ∀ j, j * BLOCK_SIZE < (inodeAt s i).size →
      0 ≤ (inodeAt s i).dataBlocks.getD j (-1)) :
    ((inodeAt s i).size ≤ (s.oft.getD idx oftFree).filePointer →
      File_Read s ((idx : Int) + FD_OFFSET) true n = (s, 0, [])) ∧
    ((s.oft.getD idx oftFree).filePointer < (inodeAt s i).size →
      (File_Read s ((idx : Int) + FD_OFFSET) true n).2.1 =
        ((min n.toNat ((inodeAt s i).size -
          (s.oft.getD idx oftFree).filePointer) : Nat) : Int) ∧
      (File_Read s ((idx : Int) + FD_OFFSET) true n).2.2 =
        ((fileBytes s (inodeAt s i)).drop
          (s.oft.getD idx oftFree).filePointer).take
          (min n.toNat ((inodeAt s i).size -
            (s.oft.getD idx oftFree).filePointer)) ∧
      (File_Read s ((idx : Int) + FD_OFFSET) true n).1 =
        setCursor s idx ((s.oft.getD idx oftFree).filePointer +
          min n.toNat ((inodeAt s i).size -
            (s.oft.getD idx oftFree).filePointer))) := by
  constructor
  · intro heof
    exact File_Read_eof s idx i n hidx hused hii hn heof
  · intro hlt
    have h := File_Read_ok s idx i n hidx hused hii hb hdlen hn hcov hlt
    rw [h]
    exact ⟨rfl, rfl, rfl⟩


/-- Coverage of a file that fits in one block follows from its first
pointer alone. -/
theorem cov_of_small (ino : Inode)
    (h0 : 0 < ino.size → 0 ≤ ino.dataBlocks.getD 0 (-1))
    (hsz : ino.size ≤ BLOCK_SIZE) :
    ∀ j, j * BLOCK_SIZE < ino.size → 0 ≤ ino.dataBlocks.getD j (-1) := by
  intro j hj
  have hbs : 0 < BLOCK_SIZE := by decide
  have hj0 : j = 0 := by
    by_contra hne
    have h1 : 1 ≤ j := by omega
    have h2 : BLOCK_SIZE ≤ j * BLOCK_SIZE := by
      calc BLOCK_SIZE = 1 * BLOCK_SIZE := (Nat.one_mul _).symm
      _ ≤ j * BLOCK_SIZE := Nat.mul_le_mul_right _ h1
    omega
  subst hj0
  exact h0 (by omega)

set_option maxRecDepth 4000 in
/-- `File_Read` instantiated on the reopened two-byte file `demo3`: at
cursor 0 with size 2, reading 1 byte returns 1 byte of content and only
moves the cursor. -/
theorem C6_read_correct_witness :
    ((inodeAt demo3 0).size ≤ (demo3.oft.getD 0 oftFree).filePointer →
      File_Read demo3 (((0 : Nat) : Int) + FD_OFFSET) true 1 = (demo3, 0, [])) ∧
    ((demo3.oft.getD 0 oftFree).filePointer < (inodeAt demo3 0).size →
      (File_Read demo3 (((0 : Nat) : Int) + FD_OFFSET) true 1).2.1 =
        ((min (1 : Int).toNat ((inodeAt demo3 0).size -
          (demo3.oft.getD 0 oftFree).filePointer) : Nat) : Int) ∧
      (File_Read demo3 (((0 : Nat) : Int) + FD_OFFSET) true 1).2.2 =
        ((fileBytes demo3 (inodeAt demo3 0)).drop
          (demo3.oft.getD 0 oftFree).filePointer).take
          (min (1 : Int).toNat ((inodeAt demo3 0).size -
            (demo3.oft.getD 0 oftFree).filePointer)) ∧
      (File_Read demo3 (((0 : Nat) : Int) + FD_OFFSET) true 1).1 =
        setCursor demo3 0 ((demo3.oft.getD 0 oftFree).filePointer +
          min (1 : Int).toNat ((inodeAt demo3 0).size -
            (demo3.oft.getD 0 oftFree).filePointer))) :=
  C6_read_correct demo3 0 0 1 (by decide) (by decide) (by decide) (by decide)
    (by decide) (by decide) (cov_of_small _ (by decide) (by decide))

/-! ### Claim C3: filename uniqueness -/

/-- **C3 (counterexample).** Creating a 16-character name and then a
different 16-character name sharing its first 15 characters both succeed,
but truncation stores the same 15-character filename in two live inodes:
uniqueness fails for over-long names. -/
theorem C3_truncation_counterexample :
    (File_Create boot0 (List.replicate 16 97)).2 = 0 ∧
    (File_Create (File_Create boot0 (List.replicate 16 97)).1
        (List.replicate 15 97 ++ [98])).2 = 0 ∧
    ¬ UniqNames (File_Create (File_Create boot0 (List.replicate 16 97)).1
        (List.replicate 15 97 ++ [98])).1 := by
  refine ⟨by decide, by decide, ?_⟩
  intro hU
  exact hU 0 1 (by decide) (by decide) (by decide) (by decide) (by decide)
    (by decide)

/-- On every successful path the write loop leaves the filename of its
local inode record untouched. -/
theorem writeLoop_filename (buf : List Nat) :
    ∀ (fuel : Nat) (s : FSState) (ino : Inode) (fp size written : Nat)
      (s1 : FSState) (ino1 : Inode) (fp1 : Nat),
      writeLoop s ino fp buf fuel size written = (s1, Except.ok (ino1, fp1)) →
      ino1.filename = ino.filename
  | 0, s, ino, fp, size, written, s1, ino1, fp1, heq => by
    rw [writeLoop, Prod.mk.injEq, Except.ok.injEq, Prod.mk.injEq] at heq
    rw [← heq.2.1]
  | fuel + 1, s, ino, fp, size, written, s1, ino1, fp1, heq => by
    by_cases h : size ≤ written
    · rw [writeLoop, if_pos h, Prod.mk.injEq, Except.ok.injEq, Prod.mk.injEq] at heq
      rw [← heq.2.1]
    · rw [writeLoop, if_neg h] at heq
      by_cases hbig : NUM_DIRECT_POINTERS ≤ fp / BLOCK_SIZE
      · rw [if_pos hbig, Prod.mk.injEq] at heq
        exact absurd heq.2 (by simp)
      · rw [if_neg hbig] at heq
        by_cases hcond : ino.dataBlocks.getD (fp / BLOCK_SIZE) (-1) < 0
        · cases hfi : firstIdx (fun b => !(s.dataBitmap.getD b true)) dataRange with
          | none =>
            simp only [hfi] at heq
            rw [if_pos hcond] at heq
            rw [Prod.mk.injEq] at heq
            exact absurd heq.2 (by simp)
          | some nb =>
            simp only [hfi] at heq
            rw [if_pos hcond] at heq
            have h2 := writeLoop_filename buf fuel _ _ _ _ _ _ _ _ heq
            exact h2
        · rw [if_neg hcond] at heq
          exact writeLoop_filename buf fuel _ _ _ _ _ _ _ _ heq

/-- `File_Open` never touches the inode bitmap or the inode table. -/
theorem File_Open_tables (s : FSState) (name : List Nat) :
    (File_Open s name).1.inodeBitmap = s.inodeBitmap ∧
    (File_Open s name).1.inodes = s.inodes := by
  unfold File_Open
  dsimp only
  split
  · exact ⟨rfl, rfl⟩
  · split
    · exact ⟨rfl, rfl⟩
    · exact ⟨rfl, rfl⟩

/-- `File_Close` never touches the inode bitmap or the inode table. -/
theorem File_Close_tables (s : FSState) (fd : Int) :
    (File_Close s fd).1.inodeBitmap = s.inodeBitmap ∧
    (File_Close s fd).1.inodes = s.inodes := by
  unfold File_Close
  split
  · exact ⟨rfl, rfl⟩
  · exact ⟨rfl, rfl⟩

/-- `File_Read` never touches the inode bitmap or the inode table. -/
theorem File_Read_tables (s : FSState) (fd : Int) (bufOk : Bool) (size : Int) :
    (File_Read s fd bufOk size).1.inodeBitmap = s.inodeBitmap ∧
    (File_Read s fd bufOk size).1.inodes = s.inodes := by
  unfold File_Read
  split
  · exact ⟨rfl, rfl⟩
  · split
    · exact ⟨rfl, rfl⟩
    · dsimp only
      split
      · exact ⟨rfl, rfl⟩
      · exact ⟨rfl, rfl⟩

/-- `File_Write` preserves the inode bitmap, the inode-table length, and
every stored filename, on success and error paths alike. -/
theorem File_Write_tables (s : FSState) (fd : Int) (bufOk : Bool)
    (buf : List Nat) (size : Int) :
    (File_Write s fd bufOk buf size).1.inodeBitmap = s.inodeBitmap ∧
    (File_Write s fd bufOk buf size).1.inodes.length = s.inodes.length ∧
    ∀ k, (inodeAt (File_Write s fd bufOk buf size).1 k).filename =
      (inodeAt s k).filename := by
  unfold File_Write
  by_cases hg : size < 0 ∨ bufOk = false
  · rw [if_pos hg]
    exact ⟨rfl, rfl, fun k => rfl⟩
  · rw [if_neg hg]
    cases hfd : fdToIndex s fd with
    | none => exact ⟨rfl, rfl, fun k => rfl⟩
    | some idx =>
      dsimp only
      have hframe := writeLoop_frame buf size.toNat s
        (inodeAt s (s.oft.getD idx oftFree).inodeIndex.toNat)
        ((s.oft.getD idx oftFree).filePointer) size.toNat 0
      cases hw : writeLoop s (inodeAt s (s.oft.getD idx oftFree).inodeIndex.toNat)
          ((s.oft.getD idx oftFree).filePointer) buf size.toNat size.toNat 0 with
      | mk s1 res =>
        rw [hw] at hframe
        obtain ⟨hfin, hfoft, hfib⟩ := hframe
        cases res with
        | error e =>
          refine ⟨hfib, by rw [hfin], fun k => ?_⟩
          show (s1.inodes.getD k _).filename = _
          rw [hfin]
          rfl
        | ok pair =>
          obtain ⟨ino1, fp1⟩ := pair
          have hnm1 : ino1.filename =
              (inodeAt s (s.oft.getD idx oftFree).inodeIndex.toNat).filename :=
            writeLoop_filename buf size.toNat s _ _ size.toNat 0 s1 ino1 fp1 hw
          refine ⟨hfib, by rw [List.length_set, hfin], fun k => ?_⟩
          show ((s1.inodes.set (s.oft.getD idx oftFree).inodeIndex.toNat _).getD k
            _).filename = _
          by_cases he : k = (s.oft.getD idx oftFree).inodeIndex.toNat
          · rw [← he]
            rcases Nat.lt_or_ge k s1.inodes.length with hlt | hge
            · rw [getD_set_self _ _ _ _ hlt]
              show (if ino1.size < fp1 then { ino1 with size := fp1 }
                else ino1).filename = _
              by_cases hc : ino1.size < fp1
              · rw [if_pos hc]
                show ino1.filename = _
                rw [hnm1, ← he]
              · rw [if_neg hc, hnm1, ← he]
            · rw [List.set_eq_of_length_le hge, hfin]
              rfl
          · rw [getD_set_ne _ _ _ (fun hc => he hc.symm), hfin]
            rfl

/-- Filename uniqueness transfers between states with the same inode
bitmap and inode table. -/
theorem uniqNames_of_eq (s s' : FSState)
    (hb : s'.inodeBitmap = s.inodeBitmap) (hi : s'.inodes = s.inodes)
    (hU : UniqNames s) : UniqNames s' := by
  intro i j hiM hjM hne hli hlj
  unfold liveAt at hli hlj
  rw [hb] at hli hlj
  show ((s'.inodes).getD i _).filename ≠ ((s'.inodes).getD j _).filename
  rw [hi]
  exact hU i j hiM hjM hne hli hlj

/-- A name that `lookupFile` does not find is carried by no live inode. -/
theorem lookupFile_neg (s : FSState) (name : List Nat)
    (h : lookupFile s name = -1) :
    ∀ m, m < MAX_FILES → liveAt s m = true → (inodeAt s m).filename ≠ name := by
  intro m hm hlm hcontra
  unfold lookupFile at h
  cases hfi : firstIdx (fun i => s.inodeBitmap.getD i false &&
      decide ((inodeAt s i).filename = name)) (List.range MAX_FILES) with
  | some m' =>
    rw [hfi] at h
    simp only at h
    have := Int.natCast_nonneg m'
    omega
  | none =>
    have hp := firstIdx_none hfi m (List.mem_range.2 hm)
    unfold liveAt at hlm
    rw [hlm, hcontra] at hp
    simp at hp

/-- The effect of `File_Create`: either the state is unchanged (empty
name, duplicate, or no free inode), or a previously free inode `i0` is
made live and initialized with the truncated name, size 0 and all
pointers `-1`. -/
theorem File_Create_effect (s : FSState) (name : List Nat) :
    (File_Create s name).1 = s ∨
    ∃ i0, i0 < MAX_FILES ∧ s.inodeBitmap.getD i0 false = false ∧
      lookupFile s name = -1 ∧
      (File_Create s name).1 = { s with inodeBitmap := s.inodeBitmap.set i0 true, inodes := s.inodes.set i0 ⟨name.take (MAX_FILENAME_LENGTH - 1), 0, List.replicate NUM_DIRECT_POINTERS (-1)⟩ } := by
  unfold File_Create
  by_cases hnil : name = []
  · rw [if_pos hnil]
    exact Or.inl rfl
  · rw [if_neg hnil]
    by_cases hlk : lookupFile s name ≠ -1
    · rw [if_pos hlk]
      exact Or.inl rfl
    · rw [if_neg hlk]
      rw [not_not] at hlk
      unfold allocateInode
      cases hfi : firstIdx (fun i => !(s.inodeBitmap.getD i true)) (List.range MAX_FILES) with
      | none =>
        dsimp only
        rw [if_pos (by decide)]
        exact Or.inl rfl
      | some i0 =>
        obtain ⟨hp, hmem⟩ := firstIdx_some hfi
        dsimp only
        rw [if_neg (not_lt.2 (Int.natCast_nonneg i0))]
        refine Or.inr ⟨i0, List.mem_range.1 hmem, ?_, hlk, ?_⟩
        · have hp' : s.inodeBitmap.getD i0 true = false := by
            cases hgd : s.inodeBitmap.getD i0 true with
            | false => rfl
            | true => rw [hgd] at hp; simp at hp
          rcases Nat.lt_or_ge i0 s.inodeBitmap.length with hlt | hge
          · rw [getD_default_irrel _ _ false true hlt]
            exact hp'
          · rw [List.getD_eq_default _ _ hge]
        · simp only [Int.toNat_natCast]

/-- The effect of `File_Delete`: either the state is unchanged (lookup
failure or file in use), or some inode `i0` has its data blocks freed, its
record zeroed and its bitmap bit cleared. -/
theorem File_Delete_effect (s : FSState) (name : List Nat) :
    (File_Delete s name).1 = s ∨
    ∃ i0 : Nat,
      (File_Delete s name).1 = { s with inodeBitmap := s.inodeBitmap.set i0 false, dataBitmap := freeAll s.dataBitmap (inodeAt s i0).dataBlocks, inodes := s.inodes.set i0 ⟨[], 0, List.replicate NUM_DIRECT_POINTERS 0⟩ } := by
  unfold File_Delete
  dsimp only
  split
  · exact Or.inl rfl
  · split
    · exact Or.inl rfl
    · exact Or.inr ⟨(lookupFile s name).toNat, rfl⟩

/-- One operation preserves the table lengths and filename uniqueness,
provided a created name fits the filename field without truncation. -/
theorem uniq_step (s : FSState) (op : Op)
    (hbl : s.inodeBitmap.length = MAX_FILES)
    (hil : s.inodes.length = MAX_FILES)
    (hU : UniqNames s)
    (hshort : ∀ name, op = Op.create name →
      name.length ≤ MAX_FILENAME_LENGTH - 1) :
    (applyOp s op).1.inodeBitmap.length = MAX_FILES ∧
    (applyOp s op).1.inodes.length = MAX_FILES ∧
    UniqNames (applyOp s op).1 := by
  cases op with
  | create name =>
    show (File_Create s name).1.inodeBitmap.length = MAX_FILES ∧
      (File_Create s name).1.inodes.length = MAX_FILES ∧
      UniqNames (File_Create s name).1
    rcases File_Create_effect s name with heq | ⟨i0, hi0, hfree, hlkp, heq⟩
    · rw [heq]
      exact ⟨hbl, hil, hU⟩
    · rw [heq]
      refine ⟨by rw [List.length_set]; exact hbl,
        by rw [List.length_set]; exact hil, ?_⟩
      have hname : name.take (MAX_FILENAME_LENGTH - 1) = name :=
        List.take_of_length_le (hshort name rfl)
      intro a b haM hbM hne hla hlb
      have hlive' : ∀ m, m < MAX_FILES →
          liveAt { s with inodeBitmap := s.inodeBitmap.set i0 true, inodes := s.inodes.set i0 ⟨name.take (MAX_FILENAME_LENGTH - 1), 0, List.replicate NUM_DIRECT_POINTERS (-1)⟩ } m = true →
          m ≠ i0 → liveAt s m = true := by
        intro m _ hlm hmne
        unfold liveAt at hlm ⊢
        rwa [getD_set_ne _ _ _ (fun hc => hmne hc.symm)] at hlm
      have hino' : ∀ m, m ≠ i0 →
          inodeAt { s with inodeBitmap := s.inodeBitmap.set i0 true, inodes := s.inodes.set i0 ⟨name.take (MAX_FILENAME_LENGTH - 1), 0, List.replicate NUM_DIRECT_POINTERS (-1)⟩ } m = inodeAt s m := by
        intro m hmne
        show (s.inodes.set i0 _).getD m _ = _
        rw [getD_set_ne _ _ _ (fun hc => hmne hc.symm)]
        rfl
      have hinoI0 :
          inodeAt { s with inodeBitmap := s.inodeBitmap.set i0 true, inodes := s.inodes.set i0 ⟨name.take (MAX_FILENAME_LENGTH - 1), 0, List.replicate NUM_DIRECT_POINTERS (-1)⟩ } i0 =
            ⟨name.take (MAX_FILENAME_LENGTH - 1), 0, List.replicate NUM_DIRECT_POINTERS (-1)⟩ := by
        show (s.inodes.set i0 _).getD i0 _ = _
        exact getD_set_self _ _ _ _ (by rw [hil]; exact hi0)
      by_cases hai : a = i0
      · have hbne : b ≠ i0 := fun hc => hne (hai.trans hc.symm)
        rw [hai, hinoI0, hino' b hbne, hname]
        intro hcontra
        exact lookupFile_neg s name hlkp b hbM
          (hlive' b hbM hlb hbne) hcontra.symm
      · by_cases hbi : b = i0
        · rw [hbi, hinoI0, hino' a hai, hname]
          intro hcontra
          exact lookupFile_neg s name hlkp a haM
            (hlive' a haM hla hai) hcontra
        · rw [hino' a hai, hino' b hbi]
          exact hU a b haM hbM hne (hlive' a haM hla hai) (hlive' b hbM hlb hbi)
  | openf name =>
    simp only [applyOp]
    obtain ⟨h1, h2⟩ := File_Open_tables s name
    exact ⟨by rw [h1]; exact hbl, by rw [h2]; exact hil,
      uniqNames_of_eq s _ h1 h2 hU⟩
  | close fd =>
    simp only [applyOp]
    obtain ⟨h1, h2⟩ := File_Close_tables s fd
    exact ⟨by rw [h1]; exact hbl, by rw [h2]; exact hil,
      uniqNames_of_eq s _ h1 h2 hU⟩
  | read fd bufOk size =>
    simp only [applyOp]
    obtain ⟨h1, h2⟩ := File_Read_tables s fd bufOk size
    cases hm : File_Read s fd bufOk size with
    | mk s1 rest =>
      obtain ⟨r, data⟩ := rest
      rw [hm] at h1 h2
      have h1' : s1.inodeBitmap = s.inodeBitmap := h1
      have h2' : s1.inodes = s.inodes := h2
      refine ⟨?_, ?_, ?_⟩
      · show s1.inodeBitmap.length = MAX_FILES
        rw [h1']
        exact hbl
      · show s1.inodes.length = MAX_FILES
        rw [h2']
        exact hil
      · show UniqNames s1
        exact uniqNames_of_eq s s1 h1' h2' hU
  | write fd bufOk buf size =>
    simp only [applyOp]
    obtain ⟨h1, h2, h3⟩ := File_Write_tables s fd bufOk buf size
    refine ⟨by rw [h1]; exact hbl, by rw [h2]; exact hil, ?_⟩
    intro a b haM hbM hne hla hlb
    unfold liveAt at hla hlb
    rw [h1] at hla hlb
    rw [h3 a, h3 b]
    exact hU a b haM hbM hne hla hlb
  | delete name =>
    show (File_Delete s name).1.inodeBitmap.length = MAX_FILES ∧
      (File_Delete s name).1.inodes.length = MAX_FILES ∧
      UniqNames (File_Delete s name).1
    rcases File_Delete_effect s name with heq | ⟨i0, heq⟩
    · rw [heq]
      exact ⟨hbl, hil, hU⟩
    · rw [heq]
      refine ⟨by rw [List.length_set]; exact hbl,
        by rw [List.length_set]; exact hil, ?_⟩
      intro a b haM hbM hne hla hlb
      have hlive' : ∀ m, liveAt { s with inodeBitmap := s.inodeBitmap.set i0 false, dataBitmap := freeAll s.dataBitmap (inodeAt s i0).dataBlocks, inodes := s.inodes.set i0 ⟨[], 0, List.replicate NUM_DIRECT_POINTERS 0⟩ } m = true →
          m ≠ i0 ∧ liveAt s m = true := by
        intro m hlm
        unfold liveAt at hlm ⊢
        by_cases hmi : m = i0
        · subst hmi
          exfalso
          rcases Nat.lt_or_ge m s.inodeBitmap.length with hlt | hge
          · rw [show (s.inodeBitmap.set m false).getD m false =
                false from getD_set_self _ _ _ _ hlt] at hlm
            cases hlm
          · rw [List.set_eq_of_length_le hge,
              List.getD_eq_default _ _ hge] at hlm
            cases hlm
        · rw [getD_set_ne _ _ _ (fun hc => hmi hc.symm)] at hlm
          exact ⟨hmi, hlm⟩
      obtain ⟨hane, hla'⟩ := hlive' a hla
      obtain ⟨hbne, hlb'⟩ := hlive' b hlb
      have hino' : ∀ m, m ≠ i0 →
          inodeAt { s with inodeBitmap := s.inodeBitmap.set i0 false, dataBitmap := freeAll s.dataBitmap (inodeAt s i0).dataBlocks, inodes := s.inodes.set i0 ⟨[], 0, List.replicate NUM_DIRECT_POINTERS 0⟩ } m = inodeAt s m := by
        intro m hmne
        show (s.inodes.set i0 _).getD m _ = _
        rw [getD_set_ne _ _ _ (fun hc => hmne hc.symm)]
        rfl
      rw [hino' a hane, hino' b hbne]
      exact hU a b haM hbM hne hla' hlb'

/-- Filename uniqueness along a whole run with untruncated created names. -/
theorem uniq_run : ∀ (ops : List Op) (s : FSState),
    s.inodeBitmap.length = MAX_FILES → s.inodes.length = MAX_FILES →
    UniqNames s → createNamesShort ops → UniqNames (runOps s ops)
  | [], _, _, _, hU, _ => hU
  | op :: rest, s, hbl, hil, hU, hshort => by
    have hpair : (∀ name, op = Op.create name →
        name.length ≤ MAX_FILENAME_LENGTH - 1) ∧ createNamesShort rest := by
      cases op with
      | create name => exact ⟨fun n hn => by cases hn; exact hshort.1, hshort.2⟩
      | openf name => exact ⟨fun n hn => (by cases hn), hshort⟩
      | close fd => exact ⟨fun n hn => (by cases hn), hshort⟩
      | read fd bufOk size => exact ⟨fun n hn => (by cases hn), hshort⟩
      | write fd bufOk buf size => exact ⟨fun n hn => (by cases hn), hshort⟩
      | delete name => exact ⟨fun n hn => (by cases hn), hshort⟩
    obtain ⟨h1, h2, h3⟩ := uniq_step s op hbl hil hU hpair.1
    exact uniq_run rest (applyOp s op).1 h1 h2 h3 hpair.2

/-- **C3 (amended).** After every completed operation of a run from a
fresh boot, as long as every created name fits in the filename field
without truncation, filenames are unique across live inodes.  (The
original claim, extended to truncated over-long names, fails:
see the counterexample.) -/
theorem C3_uniq_names (ops : List Op) (hshort : createNamesShort ops) :
    UniqNames (runOps boot0 ops) := by
  have hU0 : UniqNames boot0 := by
    apply uniqNames_single boot0 0
    intro j hj hlj
    have hb : boot0.inodeBitmap = List.replicate MAX_FILES false := by decide
    unfold liveAt at hlj
    rw [hb, getD_replicate _ _ hj] at hlj
    cases hlj
  exact uniq_run ops boot0 (by decide) (by decide) hU0 hshort

/-- Two short-name creations from a fresh boot keep filenames unique. -/
theorem C3_uniq_names_witness :
    UniqNames (runOps boot0 [Op.create [97], Op.create [98]]) :=
  C3_uniq_names [Op.create [97], Op.create [98]] ⟨by decide, by decide, trivial⟩

/-! ### Claim C7: delete semantics -/

/-- `freeAll` never sets a clear bit. -/
theorem freeAll_mono_false : ∀ (l : List Int) (bm : List Bool) (b : Nat),
    bm.getD b false = false → (freeAll bm l).getD b false = false
  | [], bm, b, h => h
  | e :: rest, bm, b, h => by
    rw [freeAll]
    by_cases hc : 0 ≤ e ∧ e < (NUM_BLOCKS : Int)
    · rw [if_pos hc]
      apply freeAll_mono_false rest
      by_cases hbe : b = e.toNat
      · subst hbe
        rcases Nat.lt_or_ge e.toNat bm.length with hlt | hge
        · rw [getD_set_self _ _ _ _ hlt]
        · rw [List.set_eq_of_length_le hge]
          exact h
      · rw [getD_set_ne _ _ _ (fun hcc => hbe hcc.symm)]
        exact h
    · rw [if_neg hc]
      exact freeAll_mono_false rest bm b h

/-- `freeAll` clears the bit of every in-range block in its list. -/
theorem freeAll_clears : ∀ (l : List Int) (bm : List Bool) (b : Nat),
    (b : Int) ∈ l → b < NUM_BLOCKS →
    (freeAll bm l).getD b false = false
  | [], bm, b, hmem, _ => absurd hmem (List.not_mem_nil _)
  | e :: rest, bm, b, hmem, hb => by
    rcases List.mem_cons.1 hmem with he | hrest
    · have h0 : 0 ≤ e := by rw [← he]; exact Int.natCast_nonneg b
      have h1 : e < (NUM_BLOCKS : Int) := by rw [← he]; exact_mod_cast hb
      rw [freeAll, if_pos ⟨h0, h1⟩]
      apply freeAll_mono_false
      have hbe : e.toNat = b := by rw [← he]; exact Int.toNat_natCast b
      rw [hbe]
      rcases Nat.lt_or_ge b bm.length with hlt | hge
      · rw [getD_set_self _ _ _ _ hlt]
      · rw [List.set_eq_of_length_le hge, List.getD_eq_default _ _ hge]
    · rw [freeAll]
      exact freeAll_clears rest _ b hrest hb

/-- `firstIdx` finds nothing when the predicate fails on the whole list. -/
theorem firstIdx_none_of {p : Nat → Bool} : ∀ {l : List Nat},
    (∀ i ∈ l, p i = false) → firstIdx p l = none
  | [], _ => rfl
  | x :: rest, h => by
    rw [firstIdx]
    rw [h x (List.mem_cons_self x rest)]
    simp only [Bool.false_eq_true, if_false]
    exact firstIdx_none_of (fun i hi => h i (List.mem_cons_of_mem x hi))

/-- `lookupFile` misses a name carried by no live inode. -/
theorem lookupFile_none (s : FSState) (name : List Nat)
    (h : ∀ m, m < MAX_FILES → liveAt s m = true →
      (inodeAt s m).filename ≠ name) :
    lookupFile s name = -1 := by
  have hnone : firstIdx (fun i => s.inodeBitmap.getD i false &&
      decide ((inodeAt s i).filename = name)) (List.range MAX_FILES) = none := by
    apply firstIdx_none_of
    intro m hm
    show (s.inodeBitmap.getD m false &&
      decide ((inodeAt s m).filename = name)) = false
    cases hgd : s.inodeBitmap.getD m false with
    | false => rfl
    | true =>
      have hne := h m (List.mem_range.1 hm) hgd
      simp [hne]
  unfold lookupFile
  rw [hnone]

/-- A successful `File_Delete`: name resolves to `i`, no slot references
`i`; the blocks are freed, the record zeroed, the bit cleared. -/
theorem File_Delete_ok (s : FSState) (i : Nat) (name : List Nat)
    (hlk : lookupFile s name = (i : Int))
    (hany : s.oft.any (fun of => of.used && of.inodeIndex == ((i : Nat) : Int)) = false) :
    File_Delete s name = ({ s with inodeBitmap := s.inodeBitmap.set i false, dataBitmap := freeAll s.dataBitmap (inodeAt s i).dataBlocks, inodes := s.inodes.set i ⟨[], 0, List.replicate NUM_DIRECT_POINTERS 0⟩ }, 0) := by
  unfold File_Delete
  rw [hlk]
  rw [if_neg (not_lt.2 (Int.natCast_nonneg i))]
  rw [hany]
  simp only [Bool.false_eq_true, if_false, Int.toNat_natCast]

/-- Two distinct live inodes holding the same block give it reference
count at least two. -/
theorem refCount_two (s : FSState) (b i j : Nat)
    (hi : i < MAX_FILES) (hj : j < MAX_FILES) (hne : i ≠ j)
    (hli : liveAt s i = true) (hlj : liveAt s j = true)
    (hmi : (b : Int) ∈ (inodeAt s i).dataBlocks)
    (hmj : (b : Int) ∈ (inodeAt s j).dataBlocks) :
    2 ≤ refCount s b := by
  unfold refCount
  have key : ∀ m, liveAt s m = true → (b : Int) ∈ (inodeAt s m).dataBlocks →
      1 ≤ (if liveAt s m then inodeRefs (inodeAt s m) b else 0) := by
    intro m hl hmem
    rw [if_pos (by rw [hl])]
    unfold inodeRefs
    exact List.count_pos_iff.2 hmem
  have hsplit := Finset.add_sum_erase (Finset.range MAX_FILES)
    (fun k => if liveAt s k then inodeRefs (inodeAt s k) b else 0)
    (Finset.mem_range.2 hi)
  have hj' : j ∈ (Finset.range MAX_FILES).erase i :=
    Finset.mem_erase.2 ⟨fun hc => hne hc.symm, Finset.mem_range.2 hj⟩
  have h2 : (if liveAt s j then inodeRefs (inodeAt s j) b else 0) ≤
      ∑ k ∈ (Finset.range MAX_FILES).erase i,
        (if liveAt s k then inodeRefs (inodeAt s k) b else 0) :=
    @Finset.single_le_sum Nat Nat _
      (fun k => if liveAt s k then inodeRefs (inodeAt s k) b else 0)
      ((Finset.range MAX_FILES).erase i) (fun k _ => Nat.zero_le _) j hj'
  have hki := key i hli hmi
  have hkj := key j hlj hmj
  simp only at hsplit
  omega

/-- **C7 (amended).** On a state with unique live filenames and unshared
block references, for a live file name: with no open handle on its inode,
`File_Delete` returns 0, a subsequent `File_Open` of the name returns
no-such-file, and every data block the inode referenced has its bitmap bit
cleared and is referenced by no live inode; a name carried by no live
inode makes `File_Delete` return no-such-file; and if a used slot
references the inode, `File_Delete` returns file-in-use. -/
theorem C7_delete_semantics (s : FSState) (i : Nat) (name : List Nat)
    (hoftl : s.oft.length = OPEN_FILE_TABLE_SIZE)
    (hi : i < MAX_FILES) (hlive : liveAt s i = true)
    (hnm : (inodeAt s i).filename = name)
    (hU : UniqNames s)
    (hent : ∀ e ∈ (inodeAt s i).dataBlocks, EntryOk e)
    (hshare : ∀ b, b < NUM_BLOCKS → refCount s b ≤ 1) :
    ((∀ k, k < OPEN_FILE_TABLE_SIZE → (s.oft.getD k oftFree).used = true →
        (s.oft.getD k oftFree).inodeIndex ≠ (i : Int)) →
      (File_Delete s name).2 = 0 ∧
      (File_Open (File_Delete s name).1 name).2 = E_NO_SUCH_FILE ∧
      (∀ b : Nat, (b : Int) ∈ (inodeAt s i).dataBlocks →
        (File_Delete s name).1.dataBitmap.getD b false = false ∧
        (∀ j, j < MAX_FILES → liveAt (File_Delete s name).1 j = true →
          (b : Int) ∉ (inodeAt (File_Delete s name).1 j).dataBlocks))) ∧
    (∀ name', (∀ m, m < MAX_FILES → liveAt s m = true →
        (inodeAt s m).filename ≠ name') →
      (File_Delete s name').2 = E_NO_SUCH_FILE) ∧
    (∀ k, k < OPEN_FILE_TABLE_SIZE → (s.oft.getD k oftFree).used = true →
      (s.oft.getD k oftFree).inodeIndex = (i : Int) →
      (File_Delete s name).2 = E_FILE_IN_USE) := by
  have hlk : lookupFile s name = (i : Int) :=
    lookupFile_eq s i name hi hlive hnm
      (fun j hj hjne hlj hcontra =>
        hU j i hj hi hjne hlj hlive (hcontra.trans hnm.symm))
  refine ⟨?_, ?_, ?_⟩
  · intro hnoopen
    have hany : s.oft.any
        (fun of => of.used && of.inodeIndex == ((i : Nat) : Int)) = false := by
      rw [List.any_eq_false]
      intro of hof
      obtain ⟨k, hk, hofk⟩ := List.mem_iff_getElem.1 hof
      have hk5 : k < OPEN_FILE_TABLE_SIZE := by rw [← hoftl]; exact hk
      have hgd : s.oft.getD k oftFree = of := by
        rw [List.getD_eq_getElem _ _ hk]
        exact hofk
      by_cases hu : of.used = true
      · have hni := hnoopen k hk5 (by rw [hgd]; exact hu)
        rw [hgd] at hni
        simp [hu, hni]
      · simp only [Bool.not_eq_true] at hu
        simp [hu]
    set s2 : FSState := { s with inodeBitmap := s.inodeBitmap.set i false, dataBitmap := freeAll s.dataBitmap (inodeAt s i).dataBlocks, inodes := s.inodes.set i ⟨[], 0, List.replicate NUM_DIRECT_POINTERS 0⟩ } with hs2
    have hDel : File_Delete s name = (s2, 0) := File_Delete_ok s i name hlk hany
    have hstep : ∀ m, liveAt s2 m = true → m ≠ i ∧ liveAt s m = true := by
      intro m hlm
      have hlm' : (s.inodeBitmap.set i false).getD m false = true := hlm
      by_cases hmi : m = i
      · exfalso
        rw [hmi] at hlm'
        rcases Nat.lt_or_ge i s.inodeBitmap.length with hlt | hge
        · rw [getD_set_self _ _ _ _ hlt] at hlm'
          cases hlm'
        · rw [List.set_eq_of_length_le hge,
            List.getD_eq_default _ _ hge] at hlm'
          cases hlm'
      · refine ⟨hmi, ?_⟩
        unfold liveAt
        rwa [getD_set_ne _ _ _ (fun hc => hmi hc.symm)] at hlm'
    have hino2 : ∀ m, m ≠ i → inodeAt s2 m = inodeAt s m := by
      intro m hmne
      show (s.inodes.set i _).getD m _ = _
      rw [getD_set_ne _ _ _ (fun hc => hmne hc.symm)]
      rfl
    refine ⟨by rw [hDel], ?_, ?_⟩
    · rw [hDel]
      have hlk2 : lookupFile s2 name = -1 := by
        apply lookupFile_none
        intro m hm hlm hcontra
        obtain ⟨hmne, hlm'⟩ := hstep m hlm
        rw [hino2 m hmne] at hcontra
        exact hU m i hm hi hmne hlm' hlive (hcontra.trans hnm.symm)
      show (File_Open s2 name).2 = E_NO_SUCH_FILE
      unfold File_Open
      rw [hlk2]
      rw [if_pos (by decide)]
    · intro b hbmem
      have hbN : b < NUM_BLOCKS := by
        rcases hent _ hbmem with h1 | h2
        · exact absurd h1 (by
            intro hc
            have := Int.natCast_nonneg b
            rw [hc] at this
            exact absurd this (by decide))
        · exact_mod_cast h2.2
      constructor
      · rw [hDel]
        show (freeAll s.dataBitmap (inodeAt s i).dataBlocks).getD b false = false
        exact freeAll_clears _ _ b hbmem hbN
      · rw [hDel]
        intro j hj hlj hmem2
        obtain ⟨hjne, hlj'⟩ := hstep j hlj
        rw [show inodeAt (s2, (0 : Int)).1 j = inodeAt s2 j from rfl,
          hino2 j hjne] at hmem2
        have h2 := refCount_two s b i j hi hj (fun hc => hjne hc.symm)
          hlive hlj' hbmem hmem2
        have h1 := hshare b hbN
        omega
  · intro name' hmiss
    have hlk' : lookupFile s name' = -1 := lookupFile_none s name' hmiss
    unfold File_Delete
    rw [hlk']
    rw [if_pos (by decide)]
  · intro k hk hused hidxeq
    unfold File_Delete
    rw [hlk]
    rw [if_neg (not_lt.2 (Int.natCast_nonneg i))]
    have hany : s.oft.any
        (fun of => of.used && of.inodeIndex == ((i : Nat) : Int)) = true := by
      rw [List.any_eq_true]
      refine ⟨s.oft.getD k oftFree,
        getD_mem _ _ _ (by rw [hoftl]; exact hk), ?_⟩
      rw [hused, hidxeq]
      simp
    rw [hany]
    rfl

set_option maxRecDepth 4000 in
/-- **C7 (counterexample).** After creating two over-long names that
truncate to the same stored filename, the truncated name denotes a live
file with no open handle; `File_Delete` on it returns 0, yet reopening
that very name still succeeds instead of returning no-such-file. -/
theorem C7_delete_counterexample :
    (∀ of ∈ (File_Create (File_Create boot0 (List.replicate 16 97)).1
        (List.replicate 15 97 ++ [98])).1.oft, of.used = false) ∧
    (inodeAt (File_Create (File_Create boot0 (List.replicate 16 97)).1
        (List.replicate 15 97 ++ [98])).1 0).filename = List.replicate 15 97 ∧
    liveAt (File_Create (File_Create boot0 (List.replicate 16 97)).1
        (List.replicate 15 97 ++ [98])).1 0 = true ∧
    (File_Delete (File_Create (File_Create boot0 (List.replicate 16 97)).1
        (List.replicate 15 97 ++ [98])).1 (List.replicate 15 97)).2 = 0 ∧
    (File_Open (File_Delete (File_Create (File_Create boot0
        (List.replicate 16 97)).1 (List.replicate 15 97 ++ [98])).1
        (List.replicate 15 97)).1 (List.replicate 15 97)).2 ≠
      E_NO_SUCH_FILE := by decide

set_option maxRecDepth 8000 in
/-- Deleting the closed two-byte file `"a"` succeeds and reopening it
reports no-such-file. -/
theorem C7_delete_semantics_witness :
    (File_Delete (File_Close demo2 (((0 : Nat) : Int) + FD_OFFSET)).1 [97]).2 =
      0 ∧
    (File_Open (File_Delete (File_Close demo2
        (((0 : Nat) : Int) + FD_OFFSET)).1 [97]).1 [97]).2 = E_NO_SUCH_FILE := by
  have h := (C7_delete_semantics (File_Close demo2 (((0 : Nat) : Int) + FD_OFFSET)).1
    0 [97] (by decide) (by decide) (by decide) (by decide)
    (uniqNames_single _ 0 (by decide)) (by decide) (by decide)).1 (by decide)
  exact ⟨h.1, h.2.1⟩

/-! ### Claim C2: the data-bitmap invariant -/

/-- The zero block holds `BLOCK_SIZE` bytes. -/
theorem zeroBlock_length : zeroBlock.length = BLOCK_SIZE := by
  unfold zeroBlock
  simp

/-- List-level variant of `blocksWf_set`. -/
theorem blocksWf_set2 (l : List Block) (hb : ∀ blk ∈ l, blk.length = BLOCK_SIZE)
    (i : Nat) (blk : Block) (hblk : blk.length = BLOCK_SIZE) :
    ∀ b ∈ l.set i blk, b.length = BLOCK_SIZE := by
  intro b hmem
  rcases List.mem_or_eq_of_mem_set hmem with h | h
  · exact hb b h
  · rw [h, hblk]

/-- `blockWrite` keeps a well-formed block at `BLOCK_SIZE` bytes. -/
theorem length_blockWrite_bs (blk : Block) (off : Nat) (data : List Nat)
    (hblk : blk.length = BLOCK_SIZE)
    (h : off + data.length ≤ BLOCK_SIZE) :
    (blockWrite blk off data).length = BLOCK_SIZE := by
  rw [length_blockWrite _ _ _ (by rw [hblk]; exact h), hblk]

/-- List-level variant of `getD_blocks_length`. -/
theorem getD_len2 (l : List Block) (hb : ∀ blk ∈ l, blk.length = BLOCK_SIZE)
    (i : Nat) : (l.getD i zeroBlock).length = BLOCK_SIZE := by
  rcases Nat.lt_or_ge i l.length with h | h
  · exact hb _ (getD_mem _ _ _ h)
  · rw [List.getD_eq_default _ _ h]
    exact zeroBlock_length

/-- The write loop preserves the structural well-formedness of the blocks
and the data bitmap, on every path. -/
theorem writeLoop_wf (buf : List Nat) :
    ∀ (fuel : Nat) (s : FSState) (ino : Inode) (fp size written : Nat),
      s.blocks.length = NUM_BLOCKS →
      (∀ blk ∈ s.blocks, blk.length = BLOCK_SIZE) →
      s.dataBitmap.length = NUM_BLOCKS →
      ((writeLoop s ino fp buf fuel size written).1.blocks.length = NUM_BLOCKS ∧
       (∀ blk ∈ (writeLoop s ino fp buf fuel size written).1.blocks,
         blk.length = BLOCK_SIZE) ∧
       (writeLoop s ino fp buf fuel size written).1.dataBitmap.length = NUM_BLOCKS)
  | 0, s, ino, fp, size, written, hbl, hbwf, hdbl => by
    rw [writeLoop]
    exact ⟨hbl, hbwf, hdbl⟩
  | fuel + 1, s, ino, fp, size, written, hbl, hbwf, hdbl => by
    by_cases h : size ≤ written
    · rw [writeLoop, if_pos h]
      exact ⟨hbl, hbwf, hdbl⟩
    · rw [writeLoop, if_neg h]
      by_cases hbig : NUM_DIRECT_POINTERS ≤ fp / BLOCK_SIZE
      · rw [if_pos hbig]
        exact ⟨hbl, hbwf, hdbl⟩
      · rw [if_neg hbig]
        by_cases hcond : ino.dataBlocks.getD (fp / BLOCK_SIZE) (-1) < 0
        · cases hfi : firstIdx (fun b => !(s.dataBitmap.getD b true)) dataRange with
          | none =>
            simp only [hfi]
            rw [if_pos hcond]
            exact ⟨hbl, hbwf, hdbl⟩
          | some nb =>
            simp only [hfi]
            rw [if_pos hcond]
            have hchunk : ((buf.drop written).take
                (min (BLOCK_SIZE - fp % BLOCK_SIZE) (size - written))).length ≤
                BLOCK_SIZE - fp % BLOCK_SIZE := by
              rw [List.length_take]
              have h1 := min_le_left ((buf.drop written).length)
                (min (BLOCK_SIZE - fp % BLOCK_SIZE) (size - written))
              have h2 := min_le_left (BLOCK_SIZE - fp % BLOCK_SIZE) (size - written)
              omega
            apply writeLoop_wf buf fuel
            · dsimp only
              rw [List.length_set, List.length_set, hbl]
            · dsimp only
              have hwf1 := blocksWf_set2 s.blocks hbwf nb zeroBlock zeroBlock_length
              apply blocksWf_set2
              · exact hwf1
              · exact length_blockWrite_bs _ _ _ (getD_len2 _ hwf1 _)
                  (by
                    have hoff : fp % BLOCK_SIZE < BLOCK_SIZE :=
                      Nat.mod_lt _ (by decide)
                    omega)
            · dsimp only
              rw [List.length_set, hdbl]
        · rw [if_neg hcond]
          have hchunk : ((buf.drop written).take
              (min (BLOCK_SIZE - fp % BLOCK_SIZE) (size - written))).length ≤
              BLOCK_SIZE - fp % BLOCK_SIZE := by
            rw [List.length_take]
            have h1 := min_le_left ((buf.drop written).length)
              (min (BLOCK_SIZE - fp % BLOCK_SIZE) (size - written))
            have h2 := min_le_left (BLOCK_SIZE - fp % BLOCK_SIZE) (size - written)
            omega
          apply writeLoop_wf buf fuel
          · dsimp only
            rw [List.length_set, hbl]
          · dsimp only
            apply blocksWf_set2 s.blocks hbwf
            exact length_blockWrite_bs _ _ _ (getD_len2 _ hbwf _)
              (by
                have hoff : fp % BLOCK_SIZE < BLOCK_SIZE :=
                  Nat.mod_lt _ (by decide)
                omega)
          · exact hdbl

/-- What a successful fd resolution guarantees. -/
theorem fdToIndex_inv (s : FSState) (fd : Int) (idx : Nat)
    (h : fdToIndex s fd = some idx) :
    idx < OPEN_FILE_TABLE_SIZE ∧ (s.oft.getD idx oftFree).used = true := by
  unfold fdToIndex at h
  by_cases hb : fd - FD_OFFSET < 0 ∨ (OPEN_FILE_TABLE_SIZE : Int) ≤ fd - FD_OFFSET
  · rw [if_pos hb] at h
    cases h
  · rw [if_neg hb] at h
    by_cases hu : (s.oft.getD (fd - FD_OFFSET).toNat oftFree).used = false
    · rw [if_pos hu] at h
      cases h
    · rw [if_neg hu] at h
      injection h with h
      subst h
      push_neg at hb
      constructor
      · omega
      · simp only [Bool.not_eq_false] at hu
        exact hu

/-- Reference counts agree between states with the same inode bitmap and
inode table. -/
theorem refCount_congr (s s' : FSState)
    (hb : s'.inodeBitmap = s.inodeBitmap) (hi : s'.inodes = s.inodes) :
    ∀ b, refCount s' b = refCount s b := by
  intro b
  unfold refCount
  apply Finset.sum_congr rfl
  intro k _
  unfold liveAt inodeAt
  rw [hb, hi]

/-- Removing live inode `i0` drops exactly its own references. -/
theorem refCount_drop (s s' : FSState) (i0 : Nat) (hi0 : i0 < MAX_FILES)
    (hlb : ∀ k, k ≠ i0 → liveAt s' k = liveAt s k)
    (hdead : liveAt s' i0 = false)
    (hino : ∀ k, k ≠ i0 → inodeAt s' k = inodeAt s k) :
    ∀ b, refCount s' b +
      (if liveAt s i0 then inodeRefs (inodeAt s i0) b else 0) = refCount s b := by
  intro b
  unfold refCount
  rw [← Finset.add_sum_erase _ _ (Finset.mem_range.2 hi0),
    ← Finset.add_sum_erase _ (fun k => if liveAt s k then inodeRefs (inodeAt s k) b else 0)
      (Finset.mem_range.2 hi0)]
  have hz : (if liveAt s' i0 then inodeRefs (inodeAt s' i0) b else 0) = 0 := by
    rw [hdead]
    rfl
  rw [hz]
  have hsum : ∑ k ∈ (Finset.range MAX_FILES).erase i0,
      (if liveAt s' k then inodeRefs (inodeAt s' k) b else 0) =
      ∑ k ∈ (Finset.range MAX_FILES).erase i0,
      (if liveAt s k then inodeRefs (inodeAt s k) b else 0) := by
    apply Finset.sum_congr rfl
    intro k hk
    have hkne : k ≠ i0 := (Finset.mem_erase.1 hk).1
    rw [hlb k hkne, hino k hkne]
  rw [hsum]
  omega

/-- `freeAll` preserves the bitmap length. -/
theorem freeAll_length : ∀ (l : List Int) (bm : List Bool),
    (freeAll bm l).length = bm.length
  | [], _ => rfl
  | e :: rest, bm => by
    rw [freeAll]
    rw [freeAll_length rest]
    split
    · rw [List.length_set]
    · rfl

/-- `freeAll` leaves the bit of a block absent from its list untouched. -/
theorem freeAll_not_mem : ∀ (l : List Int) (bm : List Bool) (b : Nat),
    (b : Int) ∉ l → (freeAll bm l).getD b false = bm.getD b false
  | [], _, _, _ => rfl
  | e :: rest, bm, b, hnm => by
    rw [freeAll]
    by_cases hc : 0 ≤ e ∧ e < (NUM_BLOCKS : Int)
    · rw [if_pos hc]
      rw [freeAll_not_mem rest (bm.set e.toNat false) b
        (fun hmem => hnm (List.mem_cons_of_mem _ hmem))]
      have hne : e.toNat ≠ b := by
        intro hceq
        apply hnm
        have heb : e = (b : Int) := by omega
        rw [heb]
        exact List.mem_cons_self _ _
      rw [getD_set_ne _ _ _ hne]
    · rw [if_neg hc]
      exact freeAll_not_mem rest bm b
        (fun hmem => hnm (List.mem_cons_of_mem _ hmem))

/-- Case analysis of `File_Open`: unchanged state, or a slot claimed for a
live inode. -/
theorem File_Open_cases (s : FSState) (name : List Nat) :
    (File_Open s name).1 = s ∨
    ∃ m k, m < MAX_FILES ∧ liveAt s m = true ∧ k < OPEN_FILE_TABLE_SIZE ∧
      (File_Open s name).1 = { s with oft := s.oft.set k ⟨true, (m : Int), 0⟩ } := by
  unfold File_Open
  unfold lookupFile
  cases hfi : firstIdx (fun i => s.inodeBitmap.getD i false &&
      decide ((inodeAt s i).filename = name)) (List.range MAX_FILES) with
  | none =>
    dsimp only
    rw [if_pos (by decide)]
    exact Or.inl rfl
  | some m =>
    obtain ⟨hp, hmem⟩ := firstIdx_some hfi
    dsimp only
    rw [if_neg (not_lt.2 (Int.natCast_nonneg m))]
    cases hk : firstIdx (fun k => !(s.oft.getD k oftFree).used)
        (List.range OPEN_FILE_TABLE_SIZE) with
    | none =>
      exact Or.inl rfl
    | some k =>
      obtain ⟨-, hkmem⟩ := firstIdx_some hk
      refine Or.inr ⟨m, k, List.mem_range.1 hmem, ?_, List.mem_range.1 hkmem, rfl⟩
      simp only [Bool.and_eq_true] at hp
      exact hp.1

/-- Case analysis of `File_Delete`: unchanged state, or a live inode `i0`
referenced by no used slot is torn down. -/
theorem File_Delete_cases (s : FSState) (name : List Nat) :
    (File_Delete s name).1 = s ∨
    ∃ i0, i0 < MAX_FILES ∧ liveAt s i0 = true ∧
      s.oft.any (fun of => of.used && of.inodeIndex == ((i0 : Nat) : Int)) = false ∧
      (File_Delete s name).1 = { s with inodeBitmap := s.inodeBitmap.set i0 false, dataBitmap := freeAll s.dataBitmap (inodeAt s i0).dataBlocks, inodes := s.inodes.set i0 ⟨[], 0, List.replicate NUM_DIRECT_POINTERS 0⟩ } := by
  unfold File_Delete
  unfold lookupFile
  cases hfi : firstIdx (fun i => s.inodeBitmap.getD i false &&
      decide ((inodeAt s i).filename = name)) (List.range MAX_FILES) with
  | none =>
    dsimp only
    rw [if_pos (by decide)]
    exact Or.inl rfl
  | some m =>
    obtain ⟨hp, hmem⟩ := firstIdx_some hfi
    dsimp only
    rw [if_neg (not_lt.2 (Int.natCast_nonneg m))]
    cases hany : s.oft.any (fun of => of.used && of.inodeIndex == ((m : Nat) : Int)) with
    | true =>
      rw [if_pos rfl]
      exact Or.inl rfl
    | false =>
      rw [if_neg (by decide)]
      refine Or.inr ⟨m, List.mem_range.1 hmem, ?_, hany, ?_⟩
      · simp only [Bool.and_eq_true] at hp
        exact hp.1
      · simp only [Int.toNat_natCast]

/-- The exact reference-count invariant implies the claim's form of I4:
a bitmap bit is set iff exactly one live inode references the block. -/
theorem I4_of_exact (s : FSState) (h : DataBitmapExact s) : I4 s := by
  intro b hb
  have hrc := h b hb
  cases hbit : s.dataBitmap.getD b false with
  | true =>
    rw [if_pos hbit] at hrc
    constructor
    · intro _
      have hex : ∃ k ∈ Finset.range MAX_FILES,
          1 ≤ (if liveAt s k then inodeRefs (inodeAt s k) b else 0) := by
        by_contra hno
        push_neg at hno
        have hz : refCount s b = 0 := by
          unfold refCount
          apply Finset.sum_eq_zero
          intro k hk
          have := hno k hk
          omega
        omega
      obtain ⟨k, hkmem, hk1⟩ := hex
      have hklive : liveAt s k = true := by
        by_contra hdead
        rw [if_neg hdead] at hk1
        omega
      rw [if_pos hklive] at hk1
      have hkb : (b : Int) ∈ (inodeAt s k).dataBlocks :=
        List.count_pos_iff.1 (by
          show 0 < (inodeAt s k).dataBlocks.count ((b : Nat) : Int)
          have : inodeRefs (inodeAt s k) b =
            (inodeAt s k).dataBlocks.count ((b : Nat) : Int) := rfl
          omega)
      have hkfil : k ∈ (Finset.range MAX_FILES).filter
          (fun i => liveAt s i = true ∧ (b : Int) ∈ (inodeAt s i).dataBlocks) :=
        Finset.mem_filter.2 ⟨hkmem, hklive, hkb⟩
      have hoc_def : ownerCount s b = ((Finset.range MAX_FILES).filter
          (fun i => liveAt s i = true ∧ (b : Int) ∈ (inodeAt s i).dataBlocks)).card :=
        rfl
      have hge : 0 < ownerCount s b := Finset.card_pos.2 ⟨k, hkfil⟩
      have hlt : ownerCount s b < 2 := by
        by_contra hge2
        push_neg at hge2
        obtain ⟨x, hx, y, hy, hxy⟩ := Finset.one_lt_card.1 (by
          show 1 < ((Finset.range MAX_FILES).filter
            (fun i => liveAt s i = true ∧ (b : Int) ∈ (inodeAt s i).dataBlocks)).card
          omega)
        obtain ⟨hxm, hxl, hxb⟩ := Finset.mem_filter.1 hx
        obtain ⟨hym, hyl, hyb⟩ := Finset.mem_filter.1 hy
        have h2 := refCount_two s b x y (Finset.mem_range.1 hxm)
          (Finset.mem_range.1 hym) hxy hxl hyl hxb hyb
        omega
      omega
    · intro _
      rfl
  | false =>
    rw [if_neg (fun hc => by rw [hbit] at hc; cases hc)] at hrc
    constructor
    · intro hcontra
      cases hcontra
    · intro hoc
      exfalso
      have hne : 0 < ownerCount s b := by omega
      obtain ⟨k, hk⟩ := Finset.card_pos.1 hne
      obtain ⟨hkm, hkl, hkb⟩ := Finset.mem_filter.1 hk
      have hterm : 1 ≤ (if liveAt s k then inodeRefs (inodeAt s k) b else 0) := by
        rw [if_pos hkl]
        exact List.count_pos_iff.2 hkb
      have hle : (if liveAt s k then inodeRefs (inodeAt s k) b else 0) ≤
          refCount s b :=
        @Finset.single_le_sum Nat Nat _
          (fun m => if liveAt s m then inodeRefs (inodeAt s m) b else 0)
          (Finset.range MAX_FILES) (fun m _ => Nat.zero_le _) k hkm
      omega

/-- The inode-table-side invariants transfer between states with equal
bitmaps and inode tables. -/
theorem invariants_congr (s s' : FSState)
    (hb : s'.inodeBitmap = s.inodeBitmap) (hdb : s'.dataBitmap = s.dataBitmap)
    (hi : s'.inodes = s.inodes) (hInv : FsInv s)
    (hSl : SlotsOk s') (hoftl : s'.oft.length = OPEN_FILE_TABLE_SIZE)
    (hbl : s'.blocks.length = NUM_BLOCKS)
    (hbwf : ∀ blk ∈ s'.blocks, blk.length = BLOCK_SIZE) :
    FsInv s' := by
  obtain ⟨⟨hbm, hdbm, hinl, _, _, _⟩, hLen, hLE, _, hDB⟩ := hInv
  have hlive : ∀ k, liveAt s' k = liveAt s k := by
    intro k
    unfold liveAt
    rw [hb]
  have hinoAt : ∀ k, inodeAt s' k = inodeAt s k := by
    intro k
    unfold inodeAt
    rw [hi]
  refine ⟨⟨by rw [hb]; exact hbm, by rw [hdb]; exact hdbm,
    by rw [hi]; exact hinl, hbl, hoftl, hbwf⟩, ?_, ?_, hSl, ?_⟩
  · intro k hk
    rw [hinoAt]
    exact hLen k hk
  · intro k hk hlk
    rw [hinoAt]
    rw [hlive] at hlk
    exact hLE k hk hlk
  · intro b hbN
    rw [refCount_congr s s' hb hi b, hdb]
    exact hDB b hbN

/-- `File_Create` preserves the global invariant. -/
theorem fsinv_create (s : FSState) (name : List Nat) (hInv : FsInv s) :
    FsInv (File_Create s name).1 := by
  obtain ⟨⟨hbm, hdbm, hinl, hbll, hoftl, hbwf⟩, hLen, hLE, hSl, hDB⟩ := hInv
  rcases File_Create_effect s name with heq | ⟨i0, hi0, hfree, hlkp, heq⟩
  · rw [heq]
    exact ⟨⟨hbm, hdbm, hinl, hbll, hoftl, hbwf⟩, hLen, hLE, hSl, hDB⟩
  · rw [heq]
    have hlive2 : ∀ k, k ≠ i0 → (s.inodeBitmap.set i0 true).getD k false =
        liveAt s k := by
      intro k hk
      unfold liveAt
      rw [getD_set_ne _ _ _ (fun hc => hk hc.symm)]
    have hino2 : ∀ k, k ≠ i0 →
        (s.inodes.set i0 ⟨name.take (MAX_FILENAME_LENGTH - 1), 0,
          List.replicate NUM_DIRECT_POINTERS (-1)⟩).getD k
          ⟨[], 0, List.replicate NUM_DIRECT_POINTERS 0⟩ = inodeAt s k := by
      intro k hk
      unfold inodeAt
      rw [getD_set_ne _ _ _ (fun hc => hk hc.symm)]
    have hinoI0 : (s.inodes.set i0 ⟨name.take (MAX_FILENAME_LENGTH - 1), 0,
        List.replicate NUM_DIRECT_POINTERS (-1)⟩).getD i0
        ⟨[], 0, List.replicate NUM_DIRECT_POINTERS 0⟩ =
        ⟨name.take (MAX_FILENAME_LENGTH - 1), 0,
          List.replicate NUM_DIRECT_POINTERS (-1)⟩ :=
      getD_set_self _ _ _ _ (by rw [hinl]; exact hi0)
    have hdead : liveAt s i0 = false := hfree
    have hnorefs : ∀ b : Nat, ((b : Int)) ∉ List.replicate NUM_DIRECT_POINTERS (-1 : Int) := by
      intro b hmem
      have := (List.mem_replicate.1 hmem).2
      have h2 := Int.natCast_nonneg b
      rw [this] at h2
      exact absurd h2 (by decide)
    refine ⟨⟨by rw [List.length_set]; exact hbm, hdbm,
      by rw [List.length_set]; exact hinl, hbll, hoftl, hbwf⟩, ?_, ?_, ?_, ?_⟩
    · intro k hk
      show ((s.inodes.set i0 _).getD k _).dataBlocks.length = NUM_DIRECT_POINTERS
      by_cases hki : k = i0
      · subst hki
        rw [hinoI0]
        simp
      · rw [hino2 k hki]
        exact hLen k hk
    · intro k hk hlk
      show ∀ e ∈ ((s.inodes.set i0 _).getD k _).dataBlocks, EntryOk e
      by_cases hki : k = i0
      · subst hki
        rw [hinoI0]
        intro e hmem
        have := (List.mem_replicate.1 hmem).2
        exact Or.inl this
      · rw [hino2 k hki]
        apply hLE k hk
        have hlk' : (s.inodeBitmap.set i0 true).getD k false = true := hlk
        rw [hlive2 k hki] at hlk'
        exact hlk'
    · intro k hk hused
      obtain ⟨h1, h2, h3⟩ := hSl k hk hused
      refine ⟨h1, h2, ?_⟩
      show (s.inodeBitmap.set i0 true).getD _ false = true
      by_cases hmi : (s.oft.getD k oftFree).inodeIndex.toNat = i0
      · rw [hmi]
        rw [getD_set_self _ _ _ _ (by rw [hbm]; exact hi0)]
      · rw [hlive2 _ hmi]
        exact h3
    · intro b hbN
      show refCount _ b = (if s.dataBitmap.getD b false then 1 else 0)
      rw [← hDB b hbN]
      unfold refCount
      apply Finset.sum_congr rfl
      intro k _
      by_cases hki : k = i0
      · subst hki
        show (if (s.inodeBitmap.set k true).getD k false = true then
          inodeRefs ((s.inodes.set k ⟨name.take (MAX_FILENAME_LENGTH - 1), 0,
            List.replicate NUM_DIRECT_POINTERS (-1)⟩).getD k
            ⟨[], 0, List.replicate NUM_DIRECT_POINTERS 0⟩) b else 0) =
          (if liveAt s k = true then inodeRefs (inodeAt s k) b else 0)
        have hL : (if (s.inodeBitmap.set k true).getD k false = true then
            inodeRefs ((s.inodes.set k ⟨name.take (MAX_FILENAME_LENGTH - 1), 0,
              List.replicate NUM_DIRECT_POINTERS (-1)⟩).getD k
              ⟨[], 0, List.replicate NUM_DIRECT_POINTERS 0⟩) b else 0) = 0 := by
          by_cases hkl : (s.inodeBitmap.set k true).getD k false = true
          · rw [if_pos hkl, hinoI0]
            show List.count ((b : Nat) : Int)
              (List.replicate NUM_DIRECT_POINTERS (-1 : Int)) = 0
            exact List.count_eq_zero.2 (hnorefs b)
          · rw [if_neg hkl]
        have hR : (if liveAt s k = true then
            inodeRefs (inodeAt s k) b else 0) = 0 := by
          rw [if_neg (fun hc => by rw [hdead] at hc; cases hc)]
        rw [hL, hR]
      · show (if (s.inodeBitmap.set i0 true).getD k false = true then
          inodeRefs ((s.inodes.set i0 ⟨name.take (MAX_FILENAME_LENGTH - 1), 0,
            List.replicate NUM_DIRECT_POINTERS (-1)⟩).getD k
            ⟨[], 0, List.replicate NUM_DIRECT_POINTERS 0⟩) b else 0) =
          (if liveAt s k = true then inodeRefs (inodeAt s k) b else 0)
        rw [hlive2 k hki, hino2 k hki]

/-- `File_Open` preserves the global invariant. -/
theorem fsinv_open (s : FSState) (name : List Nat) (hInv : FsInv s) :
    FsInv (File_Open s name).1 := by
  obtain ⟨⟨hbm, hdbm, hinl, hbll, hoftl, hbwf⟩, hLen, hLE, hSl, hDB⟩ := hInv
  rcases File_Open_cases s name with heq | ⟨m, k, hm, hlm, hk, heq⟩
  · rw [heq]
    exact ⟨⟨hbm, hdbm, hinl, hbll, hoftl, hbwf⟩, hLen, hLE, hSl, hDB⟩
  · rw [heq]
    apply invariants_congr s
    · rfl
    · rfl
    · rfl
    · exact ⟨⟨hbm, hdbm, hinl, hbll, hoftl, hbwf⟩, hLen, hLE, hSl, hDB⟩
    · intro j hj hused
      show 0 ≤ ((s.oft.set k _).getD j oftFree).inodeIndex ∧ _
      by_cases hjk : j = k
      · subst hjk
        rw [getD_set_self _ _ _ _ (by rw [hoftl]; exact hk)]
        refine ⟨Int.natCast_nonneg m, ?_, ?_⟩
        · show ((m : Nat) : Int) < (MAX_FILES : Int)
          exact_mod_cast hm
        show liveAt _ ((m : Int)).toNat = true
        rw [Int.toNat_natCast]
        show s.inodeBitmap.getD m false = true
        exact hlm
      · rw [getD_set_ne _ _ _ (fun hc => hjk hc.symm)]
        have hused' : (s.oft.getD j oftFree).used = true := by
          have h0 : ((s.oft.set k ⟨true, (m : Int), 0⟩).getD j oftFree).used = true :=
            hused
          rwa [getD_set_ne _ _ _ (fun hc => hjk hc.symm)] at h0
        exact hSl j hj hused'
    · show (s.oft.set k _).length = OPEN_FILE_TABLE_SIZE
      rw [List.length_set]
      exact hoftl
    · exact hbll
    · exact hbwf

/-- `File_Close` preserves the global invariant. -/
theorem fsinv_close (s : FSState) (fd : Int) (hInv : FsInv s) :
    FsInv (File_Close s fd).1 := by
  obtain ⟨⟨hbm, hdbm, hinl, hbll, hoftl, hbwf⟩, hLen, hLE, hSl, hDB⟩ := hInv
  unfold File_Close
  cases hfd : fdToIndex s fd with
  | none =>
    exact ⟨⟨hbm, hdbm, hinl, hbll, hoftl, hbwf⟩, hLen, hLE, hSl, hDB⟩
  | some idx =>
    dsimp only
    apply invariants_congr s
    · rfl
    · rfl
    · rfl
    · exact ⟨⟨hbm, hdbm, hinl, hbll, hoftl, hbwf⟩, hLen, hLE, hSl, hDB⟩
    · intro j hj hused
      by_cases hjk : j = idx
      · subst hjk
        exfalso
        have h0 : ((s.oft.set j oftFree).getD j oftFree).used = true := hused
        rcases Nat.lt_or_ge j s.oft.length with hlt | hge
        · rw [getD_set_self _ _ _ _ hlt] at h0
          cases h0
        · rw [List.set_eq_of_length_le hge,
            List.getD_eq_default _ _ hge] at h0
          cases h0
      · show 0 ≤ ((s.oft.set idx oftFree).getD j oftFree).inodeIndex ∧ _
        rw [getD_set_ne _ _ _ (fun hc => hjk hc.symm)]
        have hused' : (s.oft.getD j oftFree).used = true := by
          have h0 : ((s.oft.set idx oftFree).getD j oftFree).used = true := hused
          rwa [getD_set_ne _ _ _ (fun hc => hjk hc.symm)] at h0
        exact hSl j hj hused'
    · show (s.oft.set idx oftFree).length = OPEN_FILE_TABLE_SIZE
      rw [List.length_set]
      exact hoftl
    · exact hbll
    · exact hbwf

/-- `File_Read` preserves the global invariant. -/
theorem fsinv_read (s : FSState) (fd : Int) (bufOk : Bool) (size : Int)
    (hInv : FsInv s) : FsInv (File_Read s fd bufOk size).1 := by
  obtain ⟨⟨hbm, hdbm, hinl, hbll, hoftl, hbwf⟩, hLen, hLE, hSl, hDB⟩ := hInv
  obtain ⟨hfb, hfib, hfdb, hfin, hfoftl, hfother, hfsame⟩ :=
    File_Read_frame s fd bufOk size
  apply invariants_congr s
  · exact hfib
  · exact hfdb
  · exact hfin
  · exact ⟨⟨hbm, hdbm, hinl, hbll, hoftl, hbwf⟩, hLen, hLE, hSl, hDB⟩
  · intro j hj hused
    by_cases hjf : fdToIndex s fd = some j
    · obtain ⟨hu, hii⟩ := hfsame j hjf
      rw [hu] at hused
      obtain ⟨h1, h2, h3⟩ := hSl j hj hused
      refine ⟨by rw [hii]; exact h1, by rw [hii]; exact h2, ?_⟩
      show liveAt _ _ = true
      unfold liveAt
      rw [hfib, hii]
      exact h3
    · rw [hfother j hjf] at hused ⊢
      obtain ⟨h1, h2, h3⟩ := hSl j hj hused
      refine ⟨h1, h2, ?_⟩
      unfold liveAt
      rw [hfib]
      exact h3
  · rw [hfoftl]
    exact hoftl
  · rw [hfb]
    exact hbll
  · rw [hfb]
    exact hbwf

/-- `File_Delete` preserves the global invariant. -/
theorem fsinv_delete (s : FSState) (name : List Nat) (hInv : FsInv s) :
    FsInv (File_Delete s name).1 := by
  obtain ⟨⟨hbm, hdbm, hinl, hbll, hoftl, hbwf⟩, hLen, hLE, hSl, hDB⟩ := hInv
  rcases File_Delete_cases s name with heq | ⟨i0, hi0, hl0, hany, heq⟩
  · rw [heq]
    exact ⟨⟨hbm, hdbm, hinl, hbll, hoftl, hbwf⟩, hLen, hLE, hSl, hDB⟩
  · rw [heq]
    have hlive2 : ∀ k, k ≠ i0 →
        (s.inodeBitmap.set i0 false).getD k false = liveAt s k := by
      intro k hk
      unfold liveAt
      rw [getD_set_ne _ _ _ (fun hc => hk hc.symm)]
    have hdead2 : (s.inodeBitmap.set i0 false).getD i0 false = false := by
      rcases Nat.lt_or_ge i0 s.inodeBitmap.length with hlt | hge
      · rw [getD_set_self _ _ _ _ hlt]
      · rw [List.set_eq_of_length_le hge, List.getD_eq_default _ _ hge]
    have hino2 : ∀ k, k ≠ i0 →
        (s.inodes.set i0 ⟨[], 0, List.replicate NUM_DIRECT_POINTERS 0⟩).getD k
          ⟨[], 0, List.replicate NUM_DIRECT_POINTERS 0⟩ = inodeAt s k := by
      intro k hk
      unfold inodeAt
      rw [getD_set_ne _ _ _ (fun hc => hk hc.symm)]
    have hent0 : ∀ e ∈ (inodeAt s i0).dataBlocks, EntryOk e := hLE i0 hi0 hl0
    refine ⟨⟨by rw [List.length_set]; exact hbm,
      by rw [freeAll_length]; exact hdbm,
      by rw [List.length_set]; exact hinl, hbll, hoftl, hbwf⟩, ?_, ?_, ?_, ?_⟩
    · intro k hk
      show ((s.inodes.set i0 _).getD k _).dataBlocks.length = NUM_DIRECT_POINTERS
      by_cases hki : k = i0
      · subst hki
        rcases Nat.lt_or_ge k s.inodes.length with hlt | hge
        · rw [getD_set_self _ _ _ _ hlt]
          simp
        · rw [List.set_eq_of_length_le hge, List.getD_eq_default _ _ hge]
          simp
      · rw [hino2 k hki]
        exact hLen k hk
    · intro k hk hlk
      show ∀ e ∈ ((s.inodes.set i0 _).getD k _).dataBlocks, EntryOk e
      by_cases hki : k = i0
      · exfalso
        have h0 : (s.inodeBitmap.set i0 false).getD k false = true := hlk
        rw [hki, hdead2] at h0
        cases h0
      · rw [hino2 k hki]
        apply hLE k hk
        have h0 : (s.inodeBitmap.set i0 false).getD k false = true := hlk
        rwa [hlive2 k hki] at h0
    · intro j hj hused
      obtain ⟨h1, h2, h3⟩ := hSl j hj hused
      refine ⟨h1, h2, ?_⟩
      have hne : (s.oft.getD j oftFree).inodeIndex.toNat ≠ i0 := by
        intro hc
        have hmem := getD_mem s.oft j oftFree (by rw [hoftl]; exact hj)
        have := (List.any_eq_false.1 hany) _ hmem
        apply this
        rw [hused]
        simp only [Bool.true_and, beq_iff_eq]
        omega
      show (s.inodeBitmap.set i0 false).getD _ false = true
      rw [hlive2 _ hne]
      exact h3
    · intro b hbN
      have hdrop := refCount_drop s
        { s with inodeBitmap := s.inodeBitmap.set i0 false, dataBitmap := freeAll s.dataBitmap (inodeAt s i0).dataBlocks, inodes := s.inodes.set i0 ⟨[], 0, List.replicate NUM_DIRECT_POINTERS 0⟩ }
        i0 hi0
        (fun k hk => by
          show (s.inodeBitmap.set i0 false).getD k false = _
          exact hlive2 k hk)
        (by
          show (s.inodeBitmap.set i0 false).getD i0 false = false
          exact hdead2)
        (fun k hk => by
          show (s.inodes.set i0 _).getD k _ = _
          exact hino2 k hk) b
      rw [if_pos hl0] at hdrop
      show refCount _ b = (if (freeAll s.dataBitmap
        (inodeAt s i0).dataBlocks).getD b false then 1 else 0)
      have hold := hDB b hbN
      by_cases hmem : (b : Int) ∈ (inodeAt s i0).dataBlocks
      · have hbit : (freeAll s.dataBitmap (inodeAt s i0).dataBlocks).getD b false =
            false := freeAll_clears _ _ b hmem hbN
        rw [hbit]
        rw [if_neg (by decide)]
        have hrefs : 1 ≤ inodeRefs (inodeAt s i0) b :=
          List.count_pos_iff.2 hmem
        have hle : (if liveAt s i0 then inodeRefs (inodeAt s i0) b else 0) ≤
            refCount s b :=
          @Finset.single_le_sum Nat Nat _
            (fun m => if liveAt s m then inodeRefs (inodeAt s m) b else 0)
            (Finset.range MAX_FILES) (fun m _ => Nat.zero_le _) i0
            (Finset.mem_range.2 hi0)
        rw [if_pos hl0] at hle
        by_cases hbold : s.dataBitmap.getD b false = true
        · rw [if_pos hbold] at hold
          omega
        · rw [if_neg hbold] at hold
          omega
      · have hrefs : inodeRefs (inodeAt s i0) b = 0 :=
          List.count_eq_zero.2 hmem
        have hbit : (freeAll s.dataBitmap (inodeAt s i0).dataBlocks).getD b false =
            s.dataBitmap.getD b false := freeAll_not_mem _ _ b hmem
        rw [hbit]
        omega

/-- `File_Write` preserves the global invariant whenever it does not fail
with no-space or file-too-big. -/
theorem fsinv_write (s : FSState) (fd : Int) (bufOk : Bool) (buf : List Nat)
    (size : Int) (hInv : FsInv s)
    (hok : (File_Write s fd bufOk buf size).2 ≠ E_NO_SPACE ∧
      (File_Write s fd bufOk buf size).2 ≠ E_FILE_TOO_BIG) :
    FsInv (File_Write s fd bufOk buf size).1 := by
  obtain ⟨⟨hbm, hdbm, hinl, hbll, hoftl, hbwf⟩, hLen, hLE, hSl, hDB⟩ := hInv
  unfold File_Write at hok ⊢
  by_cases hg : size < 0 ∨ bufOk = false
  · rw [if_pos hg] at hok ⊢
    exact ⟨⟨hbm, hdbm, hinl, hbll, hoftl, hbwf⟩, hLen, hLE, hSl, hDB⟩
  · rw [if_neg hg] at hok ⊢
    cases hfd : fdToIndex s fd with
    | none =>
      exact ⟨⟨hbm, hdbm, hinl, hbll, hoftl, hbwf⟩, hLen, hLE, hSl, hDB⟩
    | some idx =>
      rw [hfd] at hok
      dsimp only at hok ⊢
      obtain ⟨hidx, hused⟩ := fdToIndex_inv s fd idx hfd
      obtain ⟨h1, h2, h3⟩ := hSl idx hidx hused
      have hb0M : (s.oft.getD idx oftFree).inodeIndex.toNat < MAX_FILES := by
        omega
      cases hw : writeLoop s (inodeAt s (s.oft.getD idx oftFree).inodeIndex.toNat)
          ((s.oft.getD idx oftFree).filePointer) buf size.toNat size.toNat 0 with
      | mk s1 res =>
        rw [hw] at hok
        cases res with
        | error e =>
          exfalso
          rcases writeLoop_error buf size.toNat s _ _ size.toNat 0 s1 e hw
            with h4 | h8
          · exact hok.1 (by rw [h4])
          · exact hok.2 (by rw [h8])
        | ok pair =>
          obtain ⟨ino1, fp1⟩ := pair
          have hframe := writeLoop_frame buf size.toNat s
            (inodeAt s (s.oft.getD idx oftFree).inodeIndex.toNat)
            ((s.oft.getD idx oftFree).filePointer) size.toNat 0
          rw [hw] at hframe
          obtain ⟨hfin, hfoft, hfib⟩ := hframe
          have hfin1 : s1.inodes = s.inodes := hfin
          have hfoft1 : s1.oft = s.oft := hfoft
          have hfib1 : s1.inodeBitmap = s.inodeBitmap := hfib
          have hwf := writeLoop_wf buf size.toNat s
            (inodeAt s (s.oft.getD idx oftFree).inodeIndex.toNat)
            ((s.oft.getD idx oftFree).filePointer) size.toNat 0 hbll hbwf hdbm
          rw [hw] at hwf
          obtain ⟨hbl1, hbwf1, hdbl1⟩ := hwf
          have hbl1' : s1.blocks.length = NUM_BLOCKS := hbl1
          have hbwf1' : ∀ blk ∈ s1.blocks, blk.length = BLOCK_SIZE := hbwf1
          have hdbl1' : s1.dataBitmap.length = NUM_BLOCKS := hdbl1
          have hJ0 : ∀ b, b < NUM_BLOCKS →
              refCountW s (s.oft.getD idx oftFree).inodeIndex.toNat
                (inodeAt s (s.oft.getD idx oftFree).inodeIndex.toNat) b =
              if s.dataBitmap.getD b false then 1 else 0 := by
            intro b hb
            rw [← refCount_eq_refCountW]
            exact hDB b hb
          obtain ⟨hdbl2, hdl1, hent1, hJ1⟩ := writeLoop_J buf
            (s.oft.getD idx oftFree).inodeIndex.toNat hb0M size.toNat s
            (inodeAt s (s.oft.getD idx oftFree).inodeIndex.toNat)
            ((s.oft.getD idx oftFree).filePointer) size.toNat 0 s1 ino1 fp1
            h3 hdbm (hLen _ hb0M) (hLE _ hb0M h3) hJ0 hw
          set ino2 := if ino1.size < fp1 then { ino1 with size := fp1 } else ino1
            with hino2_def
          have hdb2 : ino2.dataBlocks = ino1.dataBlocks := by
            rw [hino2_def]
            by_cases hc : ino1.size < fp1 <;> simp [hc]
          have hslen : s1.inodes.length = MAX_FILES := by rw [hfin1, hinl]
          have hsoftl : s1.oft.length = OPEN_FILE_TABLE_SIZE := by
            rw [hfoft1, hoftl]
          have hinoF : ∀ t : List OpenFile,
              inodeAt { inodeBitmap := s1.inodeBitmap, dataBitmap := s1.dataBitmap, inodes := s1.inodes.set (s.oft.getD idx oftFree).inodeIndex.toNat ino2, blocks := s1.blocks, oft := t } (s.oft.getD idx oftFree).inodeIndex.toNat = ino2 := by
            intro t
            show (s1.inodes.set _ ino2).getD _ _ = ino2
            exact getD_set_self _ _ _ _ (by rw [hslen]; exact hb0M)
          have hinoF' : ∀ (t : List OpenFile) k,
              k ≠ (s.oft.getD idx oftFree).inodeIndex.toNat →
              inodeAt { inodeBitmap := s1.inodeBitmap, dataBitmap := s1.dataBitmap, inodes := s1.inodes.set (s.oft.getD idx oftFree).inodeIndex.toNat ino2, blocks := s1.blocks, oft := t } k = inodeAt s1 k := by
            intro t k hk
            show (s1.inodes.set _ ino2).getD k _ = _
            rw [getD_set_ne _ _ _ (fun hc => hk hc.symm)]
            rfl
          have hliveF : ∀ (t : List OpenFile) k,
              liveAt { inodeBitmap := s1.inodeBitmap, dataBitmap := s1.dataBitmap, inodes := s1.inodes.set (s.oft.getD idx oftFree).inodeIndex.toNat ino2, blocks := s1.blocks, oft := t } k = liveAt s k := by
            intro t k
            show s1.inodeBitmap.getD k false = _
            rw [hfib1]
            rfl
          refine ⟨⟨?_, ?_, ?_, ?_, ?_, ?_⟩, ?_, ?_, ?_, ?_⟩
          · show s1.inodeBitmap.length = MAX_FILES
            rw [hfib1]
            exact hbm
          · exact hdbl1'
          · show (s1.inodes.set _ ino2).length = MAX_FILES
            rw [List.length_set]
            exact hslen
          · exact hbl1'
          · show (s1.oft.set idx _).length = OPEN_FILE_TABLE_SIZE
            rw [List.length_set]
            exact hsoftl
          · exact hbwf1'
          · intro k hk
            by_cases hki : k = (s.oft.getD idx oftFree).inodeIndex.toNat
            · rw [hki, hinoF _, hdb2]
              exact hdl1
            · rw [hinoF' _ k hki]
              show (s1.inodes.getD k _).dataBlocks.length = _
              rw [hfin1]
              exact hLen k hk
          · intro k hk hlk
            rw [hliveF] at hlk
            by_cases hki : k = (s.oft.getD idx oftFree).inodeIndex.toNat
            · rw [hki, hinoF _, hdb2]
              exact hent1
            · rw [hinoF' _ k hki]
              show ∀ e ∈ (s1.inodes.getD k _).dataBlocks, EntryOk e
              rw [hfin1]
              exact hLE k hk hlk
          · intro j hj husedj
            by_cases hji : j = idx
            · subst hji
              have hgd : ((s1.oft.set j { s.oft.getD j oftFree with filePointer := fp1 }).getD j oftFree) = { s.oft.getD j oftFree with filePointer := fp1 } :=
                getD_set_self _ _ _ _ (by rw [hsoftl]; exact hidx)
              show 0 ≤ ((s1.oft.set j _).getD j oftFree).inodeIndex ∧ _
              rw [hgd]
              refine ⟨h1, h2, ?_⟩
              rw [hliveF]
              exact h3
            · have hgd : ((s1.oft.set idx { s.oft.getD idx oftFree with filePointer := fp1 }).getD j oftFree) = s.oft.getD j oftFree := by
                rw [getD_set_ne _ _ _ (fun hc => hji hc.symm), hfoft1]
              have husedj' : (s.oft.getD j oftFree).used = true := by
                have h0 : ((s1.oft.set idx { s.oft.getD idx oftFree with filePointer := fp1 }).getD j oftFree).used = true := husedj
                rwa [hgd] at h0
              obtain ⟨ha, hb, hc⟩ := hSl j hj husedj'
              show 0 ≤ ((s1.oft.set idx _).getD j oftFree).inodeIndex ∧ _
              rw [hgd]
              refine ⟨ha, hb, ?_⟩
              rw [hliveF]
              exact hc
          · intro b hbN
            show refCount _ b = (if s1.dataBitmap.getD b false then 1 else 0)
            rw [← hJ1 b hbN]
            unfold refCount refCountW
            apply Finset.sum_congr rfl
            intro k _
            have hlive1k : liveAt { inodeBitmap := s1.inodeBitmap, dataBitmap := s1.dataBitmap, inodes := s1.inodes.set (s.oft.getD idx oftFree).inodeIndex.toNat ino2, blocks := s1.blocks, oft := s1.oft.set idx { s.oft.getD idx oftFree with filePointer := fp1 } } k = liveAt s1 k := by
              show s1.inodeBitmap.getD k false = _
              rfl
            rw [hlive1k]
            by_cases hki : k = (s.oft.getD idx oftFree).inodeIndex.toNat
            · rw [hki, hinoF _]
              have hif : (if (s.oft.getD idx oftFree).inodeIndex.toNat =
                  (s.oft.getD idx oftFree).inodeIndex.toNat then ino1
                  else inodeAt s1 (s.oft.getD idx oftFree).inodeIndex.toNat) =
                  ino1 := if_pos rfl
              rw [hif]
              have hrefs : inodeRefs ino2 b = inodeRefs ino1 b := by
                unfold inodeRefs
                rw [hdb2]
              rw [hrefs]
            · rw [hinoF' _ k hki]
              have hif : (if k = (s.oft.getD idx oftFree).inodeIndex.toNat then ino1
                  else inodeAt s1 k) = inodeAt s1 k := if_neg hki
              rw [hif]

/-- One non-failing operation preserves the global invariant. -/
theorem fsinv_step (s : FSState) (op : Op) (hInv : FsInv s)
    (hgood : badWrite s op = false) : FsInv (applyOp s op).1 := by
  cases op with
  | create name => exact fsinv_create s name hInv
  | openf name => exact fsinv_open s name hInv
  | close fd => exact fsinv_close s fd hInv
  | read fd bufOk size =>
    simp only [applyOp]
    have h := fsinv_read s fd bufOk size hInv
    cases hm : File_Read s fd bufOk size with
    | mk s1 rest =>
      obtain ⟨r, data⟩ := rest
      rw [hm] at h
      exact h
  | write fd bufOk buf size =>
    apply fsinv_write s fd bufOk buf size hInv
    unfold badWrite at hgood
    dsimp only at hgood
    constructor
    · intro hc
      rw [hc] at hgood
      simp at hgood
    · intro hc
      rw [hc] at hgood
      simp at hgood
  | delete name => exact fsinv_delete s name hInv

/-- The global invariant holds along every run without failing writes. -/
theorem fsinv_run : ∀ (ops : List Op) (s : FSState), FsInv s →
    goodTrace s ops → FsInv (runOps s ops)
  | [], _, hInv, _ => hInv
  | op :: rest, s, hInv, hgood =>
    fsinv_run rest _ (fsinv_step s op hInv hgood.1) hgood.2

set_option maxRecDepth 8000 in
/-- **C2 (amended).** After every completed operation of a run from a
fresh boot in which no `File_Write` fails with no-space or file-too-big,
the data bitmap satisfies I4: a bit is set iff exactly one live inode
references the block — no block is shared between two live inodes and no
allocated block is unreferenced.  (Including the error returns of
`File_Write`, as the original claim does, is refuted by the
counterexample: a failed oversized write leaks allocated bits.) -/
theorem C2_i4_invariant (ops : List Op) (hgood : goodTrace boot0 ops) :
    I4 (runOps boot0 ops) := by
  have hInv0 : FsInv boot0 := by
    refine ⟨?_, ?_, ?_, ?_, ?_⟩
    · unfold StWf
      decide
    · unfold InodeLensOk
      decide
    · unfold LiveEntriesOk
      decide
    · unfold SlotsOk
      decide
    · unfold DataBitmapExact
      decide
  exact I4_of_exact _ (fsinv_run ops boot0 hInv0 hgood).2.2.2.2

set_option maxRecDepth 8000 in
/-- **C2 (counterexample).** From a reachable state (fresh boot, create
and open `"a"`), a single oversized `File_Write` returns the file-too-big
error — a completed operation — yet afterwards data-bitmap bit 7 is set
while no live inode references block 7: the error path leaks the blocks
allocated before the size check. -/
theorem C2_i4_counterexample :
    (File_Write demo1 (((0 : Nat) : Int) + FD_OFFSET) true [] 641).2 =
      E_FILE_TOO_BIG ∧
    ¬ I4 (File_Write demo1 (((0 : Nat) : Int) + FD_OFFSET) true [] 641).1 := by
  refine ⟨by decide, fun hI4 => ?_⟩
  have h := (hI4 7 (by decide)).1 (by decide)
  have h0 : ownerCount
      (File_Write demo1 (((0 : Nat) : Int) + FD_OFFSET) true [] 641).1 7 = 0 := by
    decide
  omega

set_option maxRecDepth 8000 in
/-- A short good trace — create, open, write two bytes, close — ends in a
state satisfying I4. -/
theorem C2_i4_invariant_witness :
    I4 (runOps boot0 [Op.create [97], Op.openf [97],
      Op.write (((0 : Nat) : Int) + FD_OFFSET) true [5, 6] 2,
      Op.close (((0 : Nat) : Int) + FD_OFFSET)]) :=
  C2_i4_invariant [Op.create [97], Op.openf [97],
      Op.write (((0 : Nat) : Int) + FD_OFFSET) true [5, 6] 2,
      Op.close (((0 : Nat) : Int) + FD_OFFSET)]
    ⟨by decide, by decide, by decide, by decide, trivial⟩
